import Mathlib

/-!
# boltchat-server: registries, router and session loop

A shallow embedding of the chat server's shared state and of the operations
that mutate it:

* `Client` (src/src/Client.cpp), `Channel` (src/src/Channel.cpp),
* `ChannelManager` (src/src/ChannelManager.cpp),
* `ClientManager` (src/src/ClientManager.cpp),
* `MessageManager` (src/src/MessageManager.cpp),
* the session loop of `Server` (src/src/Server.cpp).

Conventions.

* A `std::string` is the list of its characters (`Str`).
* A non-null `std::shared_ptr<Client>` is the address it holds (`ClientId`);
  a possibly-null one is an `Option ClientId`. The objects themselves live in
  a `Heap`, a map from addresses to `Client` values.
* A `std::unordered_set` is a list without repetitions and a
  `std::unordered_map` a list of key/value pairs without repeated keys; the
  order of the list stands for the (unspecified) iteration order. The
  operations below keep lists free of repetitions, and act on every entry
  equal to the key they are given, which for such lists is the one entry.
* Mutexes, logging to `std::clog` and the socket system calls have no effect
  on the data modelled here and are left out.
-/

namespace BoltChat

/-- A `std::string`, as the list of its characters. -/
abbrev Str := List Char

/-- The address held by a non-null `std::shared_ptr<Client>`. -/
abbrev ClientId := Nat

/-! ## Containers -/

namespace USet

variable {α : Type} [DecidableEq α]

/-- The call `s.insert(x)`: the new set and whether an insertion took place. -/
def insert (s : List α) (x : α) : List α × Bool :=
  if x ∈ s then (s, false) else (s ++ [x], true)

/-- The call `s.erase(x)`. -/
def erase (s : List α) (x : α) : List α :=
  s.filter (fun y => decide (y ≠ x))

end USet

namespace UMap

variable {κ β : Type} [DecidableEq κ]

/-- The call `m.find(k)`: the mapped value, `none` standing for `m.end()`. -/
def find : List (κ × β) → κ → Option β
  | [], _ => none
  | e :: m, k => if e.1 = k then some e.2 else find m k

/-- The call `m.count(k)`. -/
def count (m : List (κ × β)) (k : κ) : Nat :=
  if (find m k).isSome then 1 else 0

/-- The assignment `m[k] = v`: overwrite the value under `k`, or add the pair. -/
def set (m : List (κ × β)) (k : κ) (v : β) : List (κ × β) :=
  if (find m k).isSome then m.map (fun e => if e.1 = k then (e.1, v) else e)
  else m ++ [(k, v)]

/-- The call `m.erase(k)` (also `m.erase(it)` for `it = m.find(k)`). -/
def erase (m : List (κ × β)) (k : κ) : List (κ × β) :=
  m.filter (fun e => decide (e.1 ≠ k))

/-- A mutation `f` of the object stored under `k` (via `m.at(k)` or an iterator). -/
def modify (m : List (κ × β)) (k : κ) (f : β → β) : List (κ × β) :=
  m.map (fun e => if e.1 = k then (e.1, f e.2) else e)

/-- The keys, in iteration order. -/
def keys (m : List (κ × β)) : List κ :=
  m.map Prod.fst

end UMap

/-! ## Client (src/src/Client.cpp) -/

/-- The data members of `class Client`. -/
structure Client where
  socket_ : Int
  nickname_ : Str
  readBuffer_ : Str
  joined_channels_ : List Str
  active_channel_ : Str
  output_queue_ : List Str
  deriving DecidableEq

namespace Client

/-- The constructor `Client::Client(int socket)`. -/
def new (socket : Int) : Client :=
  { socket_ := socket
    nickname_ := "guest".toList ++ (toString socket).toList
    readBuffer_ := []
    joined_channels_ := []
    active_channel_ := []
    output_queue_ := [] }

def setNickname (c : Client) (name : Str) : Client :=
  { c with nickname_ := name }

def setActiveChannel (c : Client) (channelName : Str) : Client :=
  { c with active_channel_ := channelName }

def joinChannel (c : Client) (channelName : Str) : Client :=
  { c with joined_channels_ := (USet.insert c.joined_channels_ channelName).1 }

def leaveChannel (c : Client) (channelName : Str) : Client :=
  { c with
    joined_channels_ := USet.erase c.joined_channels_ channelName
    active_channel_ := if c.active_channel_ = channelName then [] else c.active_channel_ }

def appendToBuffer (c : Client) (data : Str) : Client :=
  { c with readBuffer_ := c.readBuffer_ ++ data }

def pushMessageToQueue (c : Client) (message : Str) : Client :=
  { c with output_queue_ := c.output_queue_ ++ [message] }

def getNextMessageFromQueue (c : Client) : Str :=
  match c.output_queue_ with
  | [] => []
  | m :: _ => m

def popMessageFromQueue (c : Client) : Client :=
  { c with output_queue_ := c.output_queue_.tail }

end Client

/-- The `Client` objects, by address. -/
abbrev Heap := ClientId → Client

/-- The effect of calling a mutating member function `f` on the object `*c`. -/
def Heap.call (h : Heap) (c : ClientId) (f : Client → Client) : Heap :=
  Function.update h c (f (h c))

/-! ## Channel (src/src/Channel.cpp) -/

/-- The data members of `class Channel`. -/
structure Channel where
  name_ : Str
  members_ : List ClientId
  deriving DecidableEq

namespace Channel

/-- The constructor `Channel::Channel(std::string name)`. -/
def new (name : Str) : Channel :=
  { name_ := name, members_ := [] }

def addClient (ch : Channel) (client : ClientId) : Channel :=
  { ch with members_ := (USet.insert ch.members_ client).1 }

def removeClient (ch : Channel) (client : ClientId) : Channel :=
  { ch with members_ := USet.erase ch.members_ client }

def getMemberCount (ch : Channel) : Nat :=
  ch.members_.length

def getMemberNicknames (ch : Channel) (h : Heap) : List Str :=
  ch.members_.map (fun member => (h member).nickname_)

/-- `Channel::broadcastMessage`: push `message + "\n"` to every member. -/
def broadcastMessage (ch : Channel) (message : Str) (h : Heap) : Heap :=
  ch.members_.foldl
    (fun h member => h.call member (fun c => c.pushMessageToQueue (message ++ ['\n']))) h

end Channel

/-! ## Character classes of the C locale -/

def isspace (c : Char) : Bool :=
  c.toNat = 32 || (9 ≤ c.toNat && c.toNat ≤ 13)

def isprint (c : Char) : Bool :=
  32 ≤ c.toNat && c.toNat ≤ 126

def isalnum (c : Char) : Bool :=
  (48 ≤ c.toNat && c.toNat ≤ 57) || (65 ≤ c.toNat && c.toNat ≤ 90)
    || (97 ≤ c.toNat && c.toNat ≤ 122)

/-! ## ChannelManager (src/src/ChannelManager.cpp) -/

/-- The data members of `class ChannelManager`. -/
structure ChannelManager where
  channels_ : List (Str × Channel)
  maxChannels_ : Int

namespace ChannelManager

/-- The constructor `ChannelManager::ChannelManager(int maxChannels)`. -/
def new (maxChannels : Int) : ChannelManager :=
  { channels_ := [], maxChannels_ := maxChannels }

def isValidChannelName (channelName : Str) : Bool :=
  if channelName.isEmpty || decide (channelName.length > 50) then false
  else if decide (' ' ∈ channelName) || decide (',' ∈ channelName) then false
  else if channelName.head? ≠ some '#' then false
  else channelName.tail.all (fun c => isprint c && !isspace c)

/-- `canCreateNewChannel_UNLOCKED`; a registry holds far fewer than `2^31`
channels, so `static_cast<int>` leaves the size as it is. -/
def canCreateNewChannel_UNLOCKED (m : ChannelManager) : Bool :=
  decide ((m.channels_.length : Int) < m.maxChannels_)

def createChannel_UNLOCKED (m : ChannelManager) (channelName : Str) : Bool × ChannelManager :=
  if !isValidChannelName channelName || decide (UMap.count m.channels_ channelName > 0)
      || !canCreateNewChannel_UNLOCKED m then
    (false, m)
  else
    (true, { m with channels_ := UMap.set m.channels_ channelName (Channel.new channelName) })

def createChannel (m : ChannelManager) (channelName : Str) : Bool × ChannelManager :=
  createChannel_UNLOCKED m channelName

def removeChannel (m : ChannelManager) (channelName : Str) : Bool × ChannelManager :=
  match UMap.find m.channels_ channelName with
  | none => (false, m)
  | some _ => (true, { m with channels_ := UMap.erase m.channels_ channelName })

def channelExists (m : ChannelManager) (channelName : Str) : Bool :=
  decide (UMap.count m.channels_ channelName > 0)

def getChannel (m : ChannelManager) (channelName : Str) : Option Channel :=
  UMap.find m.channels_ channelName

/-- The tail of `joinChannel`, once the channel is known to exist. -/
def joinExisting (m : ChannelManager) (h : Heap) (c : ClientId) (channelName : Str) :
    Bool × ChannelManager × Heap :=
  (true,
   { m with channels_ := UMap.modify m.channels_ channelName (fun ch => ch.addClient c) },
   h.call c (fun cl => cl.joinChannel channelName))

def joinChannel (m : ChannelManager) (h : Heap) (client : Option ClientId) (channelName : Str) :
    Bool × ChannelManager × Heap :=
  match client with
  | none => (false, m, h)
  | some c =>
    if !isValidChannelName channelName then (false, m, h)
    else if UMap.count m.channels_ channelName = 0 then
      match createChannel_UNLOCKED m channelName with
      | (false, m1) => (false, m1, h)
      | (true, m1) => joinExisting m1 h c channelName
    else joinExisting m h c channelName

def leaveChannel (m : ChannelManager) (h : Heap) (client : Option ClientId) (channelName : Str) :
    Bool × ChannelManager × Heap :=
  match client with
  | none => (false, m, h)
  | some c =>
    match UMap.find m.channels_ channelName with
    | none => (false, m, h)
    | some _ =>
      (true,
       { m with channels_ := UMap.modify m.channels_ channelName (fun ch => ch.removeClient c) },
       h.call c (fun cl => cl.leaveChannel channelName))

/-- The loop of `removeClientFromAllChannels` over the snapshot `clientChannels`. -/
def leaveAll (c : ClientId) : List Str → ChannelManager × Heap → ChannelManager × Heap
  | [], s => s
  | channelName :: rest, s =>
    leaveAll c rest (leaveChannel s.1 s.2 (some c) channelName).2

def removeClientFromAllChannels (m : ChannelManager) (h : Heap) (client : Option ClientId) :
    ChannelManager × Heap :=
  match client with
  | none => (m, h)
  | some c => leaveAll c (h c).joined_channels_ (m, h)

def broadcastToChannel (m : ChannelManager) (h : Heap) (channelName : Str) (message : Str) :
    Heap :=
  match UMap.find m.channels_ channelName with
  | some ch => ch.broadcastMessage message h
  | none => h

def broadcastToAllChannels (m : ChannelManager) (h : Heap) (message : Str) : Heap :=
  m.channels_.foldl (fun h e => e.2.broadcastMessage message h) h

def getChannelCount (m : ChannelManager) : Nat :=
  m.channels_.length

def getChannelMemberCount (m : ChannelManager) (channelName : Str) : Nat :=
  match UMap.find m.channels_ channelName with
  | some ch => ch.getMemberCount
  | none => 0

def getMaxChannels (m : ChannelManager) : Int :=
  m.maxChannels_

end ChannelManager

/-- `std::string::operator<`: byte-wise lexicographic comparison. -/
def strLt : Str → Str → Bool
  | [], [] => false
  | [], _ :: _ => true
  | _ :: _, [] => false
  | a :: as, b :: bs =>
    if a.toNat < b.toNat then true
    else if b.toNat < a.toNat then false
    else strLt as bs

/-- `std::sort` on a vector of strings. -/
def sortStrings (v : List Str) : List Str :=
  v.insertionSort (fun a b => strLt b a = false)

namespace ChannelManager

def getChannelList (m : ChannelManager) : List Str :=
  sortStrings (UMap.keys m.channels_)

def getClientChannels (h : Heap) (client : Option ClientId) : List Str :=
  match client with
  | none => []
  | some c => sortStrings (h c).joined_channels_

end ChannelManager

/-! ## ClientManager (src/src/ClientManager.cpp) -/

/-- `static_cast<size_t>` of an `int`, for a 64-bit `size_t`. -/
def static_cast_size_t (i : Int) : Nat :=
  (i % 2 ^ 64).toNat

/-- The data members of `class ClientManager`. A lifecycle callback acts on the
`Client` objects and on the subsystems `W` it captured; it cannot take part in
the registry itself, whose mutex is held while it runs. -/
structure ClientManager (W : Type) where
  maxClients_ : Int
  clients_ : List ClientId
  nicknameToClient_ : List (Str × ClientId)
  totalConnections_ : Nat
  onClientAddedCallback_ : Option (ClientId → Heap × W → Heap × W)
  onClientRemovedCallback_ : Option (ClientId → Heap × W → Heap × W)

namespace ClientManager

variable {W : Type}

/-- The constructor `ClientManager::ClientManager(int maxClients)`. -/
def new (maxClients : Int) : ClientManager W :=
  { maxClients_ := maxClients
    clients_ := []
    nicknameToClient_ := []
    totalConnections_ := 0
    onClientAddedCallback_ := none
    onClientRemovedCallback_ := none }

/-- The call of a `std::function` that may be empty. -/
def invoke (cb : Option (ClientId → Heap × W → Heap × W)) (c : ClientId) (hw : Heap × W) :
    Heap × W :=
  match cb with
  | some f => f c hw
  | none => hw

def addClient (m : ClientManager W) (h : Heap) (w : W) (client : Option ClientId) :
    Bool × ClientManager W × Heap × W :=
  match client with
  | none => (false, m, h, w)
  | some c =>
    if m.clients_.length ≥ static_cast_size_t m.maxClients_ then (false, m, h, w)
    else
      match USet.insert m.clients_ c with
      | (clients, true) =>
        let m1 := { m with
          clients_ := clients
          nicknameToClient_ := UMap.set m.nicknameToClient_ (h c).nickname_ c }
        (true, m1, invoke m1.onClientAddedCallback_ c (h, w))
      | (clients, false) => (false, { m with clients_ := clients }, h, w)

def removeClient (m : ClientManager W) (h : Heap) (w : W) (client : Option ClientId) :
    Bool × ClientManager W × Heap × W :=
  match client with
  | none => (false, m, h, w)
  | some c =>
    if c ∈ m.clients_ then
      let m1 := { m with
        nicknameToClient_ := UMap.erase m.nicknameToClient_ (h c).nickname_
        clients_ := USet.erase m.clients_ c }
      (true, m1, invoke m1.onClientRemovedCallback_ c (h, w))
    else (false, m, h, w)

def clientExists (m : ClientManager W) (client : Option ClientId) : Bool :=
  match client with
  | none => false
  | some c => decide (c ∈ m.clients_)

def clientExistsByNickname (m : ClientManager W) (nickname : Str) : Bool :=
  (UMap.find m.nicknameToClient_ nickname).isSome

def getClientByNickname (m : ClientManager W) (nickname : Str) : Option ClientId :=
  UMap.find m.nicknameToClient_ nickname

def getAllClients (m : ClientManager W) : List ClientId :=
  m.clients_

def broadcastMessage (m : ClientManager W) (h : Heap) (message : Str)
    (sender : Option ClientId) : Heap :=
  let formatted_message : Str :=
    match sender with
    | some s => "<".toList ++ (h s).nickname_ ++ "> ".toList ++ message
    | none => message
  m.clients_.foldl
    (fun h client =>
      if some client ≠ sender then
        h.call client (fun c => c.pushMessageToQueue (formatted_message ++ ['\n']))
      else h) h

/-- `sendMessageToClient`; `back()` of an empty string is taken to differ from
a newline (no caller passes an empty message). -/
def sendMessageToClient (h : Heap) (client : Option ClientId) (message : Str) : Heap :=
  match client with
  | none => h
  | some c =>
    let formatted_message := if message.getLast? ≠ some '\n' then message ++ ['\n'] else message
    h.call c (fun cl => cl.pushMessageToQueue formatted_message)

def getClientCount (m : ClientManager W) : Nat :=
  m.clients_.length

def getTotalConnectionsCount (m : ClientManager W) : Nat :=
  m.totalConnections_

def incrementTotalConnections (m : ClientManager W) : ClientManager W :=
  { m with totalConnections_ := m.totalConnections_ + 1 }

def getMaxClients (m : ClientManager W) : Int :=
  m.maxClients_

def canAcceptNewConnection (m : ClientManager W) : Bool :=
  decide (m.clients_.length < static_cast_size_t m.maxClients_)

def setOnClientAddedCallback (m : ClientManager W)
    (callback : Option (ClientId → Heap × W → Heap × W)) : ClientManager W :=
  { m with onClientAddedCallback_ := callback }

def setOnClientRemovedCallback (m : ClientManager W)
    (callback : Option (ClientId → Heap × W → Heap × W)) : ClientManager W :=
  { m with onClientRemovedCallback_ := callback }

def isValidNickname (nickname : Str) : Bool :=
  if nickname.isEmpty || decide (nickname.length > 32) then false
  else nickname.all (fun c => isalnum c || c == '_')

def updateClientNickname (m : ClientManager W) (h : Heap) (client : Option ClientId)
    (newNickname : Str) : Bool × ClientManager W × Heap :=
  match client with
  | none => (false, m, h)
  | some c =>
    if !isValidNickname newNickname then (false, m, h)
    else if (UMap.find m.nicknameToClient_ newNickname).isSome then (false, m, h)
    else
      let erased := UMap.erase m.nicknameToClient_ (h c).nickname_
      (true,
       { m with nicknameToClient_ := UMap.set erased newNickname c },
       h.call c (fun cl => cl.setNickname newNickname))

end ClientManager

/-! ## The mutex of the Client Registry in `removeClient` -/

/-- What a call of a member function of the Client Registry does, in program
order, as far as `clients_mutex_` and the callbacks are concerned: the
construction of the `std::lock_guard`, its destruction at the end of the scope,
and a call of an installed callback. -/
inductive LockEvent where
  | acquire
  | release
  | callback (client : ClientId)
  deriving DecidableEq

/-- Whether the calling thread holds `clients_mutex_` after the events. -/
def mutexHeld (events : List LockEvent) : Bool :=
  events.foldl
    (fun held e =>
      match e with
      | .acquire => true
      | .release => false
      | .callback _ => held)
    false

namespace ClientManager

variable {W : Type}

/-- The events of `ClientManager::removeClient(client)`: a null pointer returns
before the guard is constructed; the guard is declared at function scope, so
it is destroyed when the function returns. -/
def removeClientEvents (m : ClientManager W) (client : Option ClientId) : List LockEvent :=
  match client with
  | none => []
  | some c =>
    [LockEvent.acquire]
      ++ (if c ∈ m.clients_ then
            match m.onClientRemovedCallback_ with
            | some _ => [LockEvent.callback c]
            | none => []
          else [])
      ++ [LockEvent.release]

/-- The call `invoke` of a `std::function` that may be empty, with a log of
the events so far: a callback that is called is logged at its call. -/
def invokeLog (cb : Option (ClientId → Heap × W → Heap × W)) (c : ClientId) (hw : Heap × W)
    (log : List LockEvent) : (Heap × W) × List LockEvent :=
  match cb with
  | some f => (f c hw, log ++ [LockEvent.callback c])
  | none => (hw, log)

/-- `ClientManager::removeClient` as `removeClient` embeds it, keeping a log of
what happens to `clients_mutex_` and of the call of the callback: the guard is
constructed after the test for a null pointer, the callback is called inside
the scope of the guard, and the guard is destroyed when the function
returns. -/
def removeClientLog (m : ClientManager W) (h : Heap) (w : W) (client : Option ClientId) :
    (Bool × ClientManager W × Heap × W) × List LockEvent :=
  match client with
  | none => ((false, m, h, w), [])
  | some c =>
    let log := [LockEvent.acquire]
    if c ∈ m.clients_ then
      let m1 := { m with
        nicknameToClient_ := UMap.erase m.nicknameToClient_ (h c).nickname_
        clients_ := USet.erase m.clients_ c }
      let r := invokeLog m1.onClientRemovedCallback_ c (h, w) log
      ((true, m1, r.1), r.2 ++ [LockEvent.release])
    else ((false, m, h, w), log ++ [LockEvent.release])

end ClientManager

/-! ## MessageManager (src/src/MessageManager.cpp) -/

/-- The data members of `class MessageManager` other than its references to the
two registries and its table of handlers (see `setupDefaultCommands`). -/
structure MessageManager where
  motd_ : Str
  processedMessages_ : Nat
  processedCommands_ : Nat
  sentMessages_ : Nat
  receivedBytes_ : Nat
  sentBytes_ : Nat

/-- The objects a session works on: the `Client` objects, the two registries
and the router. The lifecycle callbacks of the Client Registry act on the
`Client` objects and the Channel Registry. -/
structure Sys where
  heap : Heap
  clientManager_ : ClientManager ChannelManager
  channelManager_ : ChannelManager
  messageManager_ : MessageManager

namespace Sys

/-- `clientManager_.removeClient(client)`, with the effect of the callback. -/
def removeClient (s : Sys) (client : Option ClientId) : Bool × Sys :=
  let r := s.clientManager_.removeClient s.heap s.channelManager_ client
  (r.1, { s with clientManager_ := r.2.1, heap := r.2.2.1, channelManager_ := r.2.2.2 })

/-- `clientManager_.addClient(client)`, with the effect of the callback. -/
def addClient (s : Sys) (client : Option ClientId) : Bool × Sys :=
  let r := s.clientManager_.addClient s.heap s.channelManager_ client
  (r.1, { s with clientManager_ := r.2.1, heap := r.2.2.1, channelManager_ := r.2.2.2 })

/-- The statistics update `sentMessages_++; sentBytes_ += message.length()`. -/
def countSent (s : Sys) (message : Str) : Sys :=
  { s with messageManager_ := { s.messageManager_ with
      sentMessages_ := s.messageManager_.sentMessages_ + 1
      sentBytes_ := s.messageManager_.sentBytes_ + message.length } }

end Sys

namespace MessageManager

def sendServerMessage (s : Sys) (client : Option ClientId) (message : Str) : Sys :=
  match client with
  | none => s
  | some c =>
    let s1 := s.countSent message
    let formattedMsg := "*** ".toList ++ message
    { s1 with heap := ClientManager.sendMessageToClient s1.heap (some c) formattedMsg }

def broadcastMessage (s : Sys) (sender : Option ClientId) (message : Str) : Sys :=
  match sender with
  | none => s
  | some c =>
    let s1 := s.countSent message
    { s1 with heap := s1.clientManager_.broadcastMessage s1.heap message (some c) }

def sendPrivateMessage (s : Sys) (sender : Option ClientId) (recipient : Str) (message : Str) :
    Sys :=
  match sender with
  | none => s
  | some c =>
    match s.clientManager_.getClientByNickname recipient with
    | none =>
      sendServerMessage s (some c) ("User ".toList ++ recipient ++ " not found.".toList)
    | some targetClient =>
      let s1 := s.countSent message
      let formattedMsg :=
        "*Private from ".toList ++ (s1.heap c).nickname_ ++ ": ".toList ++ message
      let h1 := ClientManager.sendMessageToClient s1.heap (some targetClient) formattedMsg
      let copyMsg := "*Private to ".toList ++ recipient ++ ": ".toList ++ message
      { s1 with heap := ClientManager.sendMessageToClient h1 (some c) copyMsg }

def sendChannelMessage (s : Sys) (sender : Option ClientId) (channelName : Str)
    (message : Str) : Sys :=
  match sender with
  | none => s
  | some c =>
    if !s.channelManager_.channelExists channelName then
      sendServerMessage s (some c)
        ("Channel ".toList ++ channelName ++ " does not exist.".toList)
    else
      let clientChannels := ChannelManager.getClientChannels s.heap (some c)
      let isInChannel := decide (channelName ∈ clientChannels)
      if !isInChannel then
        sendServerMessage s (some c) ("You are not in channel ".toList ++ channelName)
      else
        let s1 := s.countSent message
        let formattedMsg :=
          "<".toList ++ (s1.heap c).nickname_ ++ "@".toList ++ channelName ++ "> ".toList
            ++ message
        { s1 with heap := s1.channelManager_.broadcastToChannel s1.heap channelName formattedMsg }

/-- The loop `while (iss >> arg)`: `cur` is the token being read. -/
def readArgs : Str → Str → List Str
  | [], cur => if cur.isEmpty then [] else [cur]
  | c :: rest, cur =>
    if isspace c then
      if cur.isEmpty then readArgs rest [] else cur :: readArgs rest []
    else readArgs rest (cur ++ [c])

def parseCommandArgs (commandLine : Str) : List Str :=
  readArgs commandLine []

/-- The branch `if (!channelName.starts_with("#")) channelName = "#" + channelName`. -/
def withHash (channelName : Str) : Str :=
  if channelName.head? ≠ some '#' then '#' :: channelName else channelName

def handleNickCommand (s : Sys) (client : ClientId) (args : List Str) : Sys :=
  match args with
  | [] => sendServerMessage s (some client) "Usage: /nick <new_nick>".toList
  | newNickname :: _ =>
    if s.clientManager_.clientExistsByNickname newNickname
        && decide (s.clientManager_.getClientByNickname newNickname ≠ some client) then
      sendServerMessage s (some client)
        ("Nickname '".toList ++ newNickname ++ "' already in use.".toList)
    else
      let oldNickname := (s.heap client).nickname_
      match s.clientManager_.updateClientNickname s.heap (some client) newNickname with
      | (false, cm, h) =>
        sendServerMessage { s with clientManager_ := cm, heap := h } (some client)
          ("Nickname '".toList ++ newNickname ++ "' is not valid or already in use.".toList)
      | (true, cm, h) =>
        let s1 := sendServerMessage { s with clientManager_ := cm, heap := h } (some client)
          ("Nickname switched to '".toList ++ newNickname ++ "'".toList)
        let notificationMsg :=
          "User '".toList ++ oldNickname ++ "' is now known as '".toList ++ newNickname
            ++ "'".toList
        { s1 with heap := s1.clientManager_.broadcastMessage s1.heap notificationMsg none }

def handleJoinCommand (s : Sys) (client : ClientId) (args : List Str) : Sys :=
  match args with
  | [] => sendServerMessage s (some client) "Usage: /join <#channel>".toList
  | arg :: _ =>
    let channelName := withHash arg
    match s.channelManager_.joinChannel s.heap (some client) channelName with
    | (true, chm, h) =>
      let s1 := { s with channelManager_ := chm,
                         heap := Heap.call h client (fun c => c.setActiveChannel channelName) }
      let s2 := sendServerMessage s1 (some client)
        ("You joined ".toList ++ channelName ++ " (now active).".toList)
      let joinMsg := (s2.heap client).nickname_ ++ " joined the channel.".toList
      let h2 :=
        s2.channelManager_.broadcastToChannel s2.heap channelName ("*** ".toList ++ joinMsg)
      { s2 with heap := h2 }
    | (false, chm, h) =>
      sendServerMessage { s with channelManager_ := chm, heap := h } (some client)
        ("Could not join ".toList ++ channelName)

def handlePartCommand (s : Sys) (client : ClientId) (args : List Str) : Sys :=
  match args with
  | [] => sendServerMessage s (some client) "Usage: /part <#channel>".toList
  | arg :: _ =>
    let channelName := withHash arg
    let clientChannels := ChannelManager.getClientChannels s.heap (some client)
    let isInChannel := decide (channelName ∈ clientChannels)
    if !isInChannel then
      sendServerMessage s (some client) ("You are not in channel ".toList ++ channelName)
    else
      let partMsg := (s.heap client).nickname_ ++ " left the channel.".toList
      let h1 := s.channelManager_.broadcastToChannel s.heap channelName ("*** ".toList ++ partMsg)
      match s.channelManager_.leaveChannel h1 (some client) channelName with
      | (true, chm, h) =>
        sendServerMessage { s with channelManager_ := chm, heap := h } (some client)
          ("You have left ".toList ++ channelName)
      | (false, chm, h) =>
        sendServerMessage { s with channelManager_ := chm, heap := h } (some client)
          ("Error leaving channel ".toList ++ channelName)

/-- The words of `args` joined by single spaces, as both `/quit` and `/msg` build it. -/
def joinWords : List Str → Str
  | [] => []
  | [w] => w
  | w :: rest => w ++ ' ' :: joinWords rest

def handleQuitCommand (s : Sys) (client : ClientId) (args : List Str) : Sys :=
  let quitMessage := if args.isEmpty then "Client quit.".toList else joinWords args
  let channels := ChannelManager.getClientChannels s.heap (some client)
  let notificationMsg := (s.heap client).nickname_ ++ " left the server: ".toList ++ quitMessage
  let h1 := channels.foldl
    (fun h channelName =>
      s.channelManager_.broadcastToChannel h channelName ("*** ".toList ++ notificationMsg))
    s.heap
  ({ s with heap := h1 }.removeClient (some client)).2

def handleListCommand (s : Sys) (client : ClientId) (_args : List Str) : Sys :=
  let channels := s.channelManager_.getChannelList
  if channels.isEmpty then sendServerMessage s (some client) "No active channels.".toList
  else
    let s1 := sendServerMessage s (some client) "Active channels:".toList
    channels.foldl
      (fun s channelName =>
        let memberCount := s.channelManager_.getChannelMemberCount channelName
        sendServerMessage s (some client)
          ("- ".toList ++ channelName ++ " (".toList ++ (toString memberCount).toList
            ++ " members)".toList))
      s1

/-- The string `channelsStr` that `/who` builds for one user. -/
def whoChannelsStr (channels : List Str) : Str :=
  if channels.isEmpty then []
  else " in: ".toList ++ (channels.intersperse ", ".toList).flatten

def handleWhoCommand (s : Sys) (client : ClientId) (args : List Str) : Sys :=
  match args with
  | [] =>
    let clients := s.clientManager_.getAllClients
    if clients.isEmpty then sendServerMessage s (some client) "No users online.".toList
    else
      let s1 := sendServerMessage s (some client)
        ("Online users (".toList ++ (toString clients.length).toList ++ "):".toList)
      clients.foldl
        (fun s c =>
          let channels := ChannelManager.getClientChannels s.heap (some c)
          sendServerMessage s (some client)
            ("- ".toList ++ (s.heap c).nickname_ ++ whoChannelsStr channels))
        s1
  | arg :: _ =>
    let channelName := withHash arg
    match s.channelManager_.getChannel channelName with
    | some channel =>
      let nicknames := channel.getMemberNicknames s.heap
      let s1 := sendServerMessage s (some client)
        ("Users in ".toList ++ channelName ++ " (".toList ++ (toString nicknames.length).toList
          ++ "):".toList)
      nicknames.foldl
        (fun s nick => sendServerMessage s (some client) ("- ".toList ++ nick)) s1
    | none =>
      sendServerMessage s (some client)
        ("Channel ".toList ++ channelName ++ " does not exist.".toList)

def handlePrivmsgCommand (s : Sys) (client : ClientId) (args : List Str) : Sys :=
  match args with
  | recipient :: word :: rest =>
    let message := joinWords (word :: rest)
    if recipient.head? = some '#' then sendChannelMessage s (some client) recipient message
    else sendPrivateMessage s (some client) recipient message
  | _ => sendServerMessage s (some client) "Usage: /msg <#channel_or_user> <message>".toList

def handleMotdCommand (s : Sys) (client : ClientId) (_args : List Str) : Sys :=
  if s.messageManager_.motd_.isEmpty then
    sendServerMessage s (some client) "No MOTD available.".toList
  else
    let s1 := sendServerMessage s (some client) "Message of the Day:".toList
    sendServerMessage s1 (some client) s1.messageManager_.motd_

/-- The usage lines of `/help`, in the order they are sent. -/
def helpLines : List Str :=
  [ "Available commands:".toList,
    "/nick <name>              - Change your nickname".toList,
    "/join <#channel>          - Join a channel".toList,
    "/part <#channel>          - Leave a channel".toList,
    "/msg <#channel|user> <msg> - Send a message to a channel or user".toList,
    "/list                     - List all active channels".toList,
    "/who [#channel]           - List users on server or in a channel".toList,
    "/motd                     - Show the Message of the Day".toList,
    "/quit [message]           - Disconnect from the server".toList,
    "/help                     - Show this help message".toList ]

def handleHelpCommand (s : Sys) (client : ClientId) (_args : List Str) : Sys :=
  helpLines.foldl (fun s line => sendServerMessage s (some client) line) s

/-- The table `commandHandlers_` as `setupDefaultCommands` fills it: the lookup
`commandHandlers_.find(command)`. -/
def setupDefaultCommands (command : Str) : Option (Sys → ClientId → List Str → Sys) :=
  if command = "nick".toList then some handleNickCommand
  else if command = "join".toList then some handleJoinCommand
  else if command = "part".toList then some handlePartCommand
  else if command = "quit".toList then some handleQuitCommand
  else if command = "list".toList then some handleListCommand
  else if command = "who".toList then some handleWhoCommand
  else if command = "msg".toList then some handlePrivmsgCommand
  else if command = "motd".toList then some handleMotdCommand
  else if command = "help".toList then some handleHelpCommand
  else none

def handleCommand (s : Sys) (sender : Option ClientId) (commandLine : Str) : Sys :=
  match sender with
  | none => s
  | some c =>
    if commandLine.isEmpty then s
    else
      let s1 := { s with messageManager_ := { s.messageManager_ with
        processedCommands_ := s.messageManager_.processedCommands_ + 1 } }
      match parseCommandArgs commandLine with
      | [] => s1
      | first :: args =>
        let command := first.drop 1
        match setupDefaultCommands command with
        | some handler => handler s1 c args
        | none => sendServerMessage s1 (some c) ("Unknown command: ".toList ++ command)

def handleMessage (s : Sys) (sender : Option ClientId) (message : Str) : Sys :=
  match sender with
  | none => s
  | some c =>
    let s1 := { s with messageManager_ := { s.messageManager_ with
      processedMessages_ := s.messageManager_.processedMessages_ + 1
      receivedBytes_ := s.messageManager_.receivedBytes_ + message.length } }
    let cleanMessage := if message.getLast? = some '\r' then message.dropLast else message
    if cleanMessage.isEmpty then s1
    else if cleanMessage.head? = some '/' then handleCommand s1 (some c) cleanMessage
    else
      let activeChannel := (s1.heap c).active_channel_
      if !activeChannel.isEmpty then sendChannelMessage s1 (some c) activeChannel cleanMessage
      else
        sendServerMessage s1 (some c)
          "You are not in any channel. Join one with /join <#channel> or send a private message with /msg <user> <message>.".toList

end MessageManager

/-! ## Server (src/src/Server.cpp) -/

namespace Server

def MAX_CLIENT_BUFFER_SIZE : Nat := 8192

/-- `Server::initializeManagers`: the registries and the router, with the
removal callback that makes a removed Connection leave its channels. -/
def initializeManagers (heap : Heap) (maxUsers maxChannels : Int) (motd : Str) : Sys :=
  { heap := heap
    channelManager_ := ChannelManager.new maxChannels
    clientManager_ :=
      (ClientManager.new maxUsers).setOnClientRemovedCallback
        (some (fun client hw =>
          ((ChannelManager.removeClientFromAllChannels hw.2 hw.1 (some client)).2,
           (ChannelManager.removeClientFromAllChannels hw.2 hw.1 (some client)).1)))
    messageManager_ :=
      { motd_ := motd, processedMessages_ := 0, processedCommands_ := 0, sentMessages_ := 0,
        receivedBytes_ := 0, sentBytes_ := 0 } }

/-- The call `buffer.find('\n')`: the position of the first newline. -/
def findNewline : Str → Option Nat
  | [] => none
  | c :: rest => if c = '\n' then some 0 else (findNewline rest).map (· + 1)

/-- The extraction loop of `handleClient`,
`while ((pos = client->getReadBuffer().find('\n')) != npos)`, run for at most
`fuel` iterations. -/
def extractLines (client : ClientId) : Nat → Sys → Sys
  | 0, s => s
  | fuel + 1, s =>
    match findNewline (s.heap client).readBuffer_ with
    | none => s
    | some pos =>
      let message := (s.heap client).readBuffer_.take pos
      let h1 := s.heap.call client
        (fun c => { c with readBuffer_ := c.readBuffer_.drop (pos + 1) })
      let s1 := { s with heap := h1 }
      let s2 := if !message.isEmpty then MessageManager.handleMessage s1 (some client) message
        else s1
      extractLines client fuel s2

/-- The branch `bytesReceived > 0` of `handleClient` for the received bytes
`data`: the state afterwards, and whether the session goes on (`false` is the
`break` on an oversized buffer). Every iteration of the extraction loop
shortens the buffer, so its length bounds the number of iterations. -/
def receive (s : Sys) (client : ClientId) (data : Str) : Sys × Bool :=
  let s1 := { s with heap := s.heap.call client (fun c => c.appendToBuffer data) }
  if (s1.heap client).readBuffer_.length > MAX_CLIENT_BUFFER_SIZE then (s1, false)
  else (extractLines client (s1.heap client).readBuffer_.length s1, true)

/-- The end of `handleClient`: a Connection still registered is removed. -/
def endSession (s : Sys) (client : ClientId) : Sys :=
  if s.clientManager_.clientExists (some client) then (s.removeClient (some client)).2 else s

end Server

/-! ## The lines a session hands to the Router -/

namespace Server

/-- The extraction loop `extractLines`, keeping a log of the lines it passes
to `handleMessage`, in the order of the calls. -/
def extractLinesLog (client : ClientId) : Nat → Sys × List Str → Sys × List Str
  | 0, sl => sl
  | fuel + 1, (s, log) =>
    match findNewline (s.heap client).readBuffer_ with
    | none => (s, log)
    | some pos =>
      let message := (s.heap client).readBuffer_.take pos
      let h1 := s.heap.call client
        (fun c => { c with readBuffer_ := c.readBuffer_.drop (pos + 1) })
      let s1 := { s with heap := h1 }
      if !message.isEmpty then
        extractLinesLog client fuel
          (MessageManager.handleMessage s1 (some client) message, log ++ [message])
      else extractLinesLog client fuel (s1, log)

end Server

/-! ## Output of a session (src/src/Server.cpp) -/

namespace Server

/-- What a call of `send` on the non-blocking socket returns: the value
`bytesSent` and, for a value that is not positive, whether `errno` is
`EWOULDBLOCK` or `EAGAIN`. -/
structure SendResult where
  bytesSent : Int
  wouldBlock : Bool

/-- The loop of `Server::processClientOutput`. The call number `i` selects
the result of `send`; `wire` collects the bytes that the socket accepted, the
first `bytesSent` bytes of the message passed to `send`. Every iteration that
goes on pops a message, so the length of the queue bounds the number of
iterations (`fuel`). -/
def processOutputLoop (send : Nat → SendResult) (client : ClientId) :
    Nat → Nat → Sys × Str → Sys × Str
  | 0, _, sw => sw
  | fuel + 1, i, (s, wire) =>
    let message := (s.heap client).getNextMessageFromQueue
    if message.isEmpty then (s, wire)
    else
      let r := send i
      if r.bytesSent > 0 then
        let s1 := { s with heap := s.heap.call client (fun c => c.popMessageFromQueue) }
        processOutputLoop send client fuel (i + 1) (s1, wire ++ message.take r.bytesSent.toNat)
      else if !r.wouldBlock then ((s.removeClient (some client)).2, wire)
      else (s, wire)

/-- `Server::processClientOutput(client)`: the state afterwards and the bytes
that the socket accepted. -/
def processClientOutput (send : Nat → SendResult) (s : Sys) (client : ClientId) : Sys × Str :=
  processOutputLoop send client ((s.heap client).output_queue_.length + 1) 0 (s, [])

end Server

/-! ## Configuration (src/src/Server.cpp) -/

namespace Server

namespace ServerConfig

def MIN_PORT : Int := 1024
def MAX_PORT : Int := 65535
def MIN_USERS : Int := 1
def MAX_USERS : Int := 10000
def MIN_CHANNELS : Int := 0
def MAX_CHANNELS : Int := 1000

end ServerConfig

/-- `Server::validateConfig` on the members `port_`, `maxUsers_`, `maxChannels_`
and `servername_`: the message of the `ServerError` it throws, or nothing. -/
def validateConfig (port_ maxUsers_ maxChannels_ : Int) (servername_ : Str) : Except Str Unit :=
  if port_ < ServerConfig.MIN_PORT ∨ port_ > ServerConfig.MAX_PORT then
    .error "Invalid port number.".toList
  else if maxUsers_ < ServerConfig.MIN_USERS ∨ maxUsers_ > ServerConfig.MAX_USERS then
    .error "Invalid max users value".toList
  else if maxChannels_ < ServerConfig.MIN_CHANNELS ∨ maxChannels_ > ServerConfig.MAX_CHANNELS then
    .error "Invalid max channels value".toList
  else if servername_.isEmpty then
    .error "Server name cannot be empty".toList
  else .ok ()

/-- The removal callback that `initializeManagers` installs:
`channelManager_->removeClientFromAllChannels(client)`. -/
def onClientRemoved (client : ClientId) (hw : Heap × ChannelManager) : Heap × ChannelManager :=
  ((ChannelManager.removeClientFromAllChannels hw.2 hw.1 (some client)).2,
   (ChannelManager.removeClientFromAllChannels hw.2 hw.1 (some client)).1)

end Server

/-! ## ThreadPool (src/src/ThreadPool.cpp) -/

/-- The data members of `class ThreadPool` that `enqueue` and the workers
share under `mutex_`: the queue `tasks_` (front first) and the flag `running_`.
A task is a value of `τ`. -/
structure ThreadPool (τ : Type) where
  tasks_ : List τ
  running_ : Bool

namespace ThreadPool

variable {τ : Type}

def MAX_QUEUE_SIZE : Nat := 5000

/-- The constructor `ThreadPool::ThreadPool(int threadCount)`: it throws for a
count that is not positive. -/
def new (threadCount : Int) : Except Str (ThreadPool τ) :=
  if threadCount ≤ 0 then .error "threadCount must be greater than 0.".toList
  else .ok { tasks_ := [], running_ := true }

/-- `ThreadPool::enqueue`: the value returned and the pool afterwards. -/
def enqueue (p : ThreadPool τ) (task : τ) : Bool × ThreadPool τ :=
  if !p.running_ then (false, p)
  else if p.tasks_.length ≥ MAX_QUEUE_SIZE then (false, p)
  else (true, { p with tasks_ := p.tasks_ ++ [task] })

/-- The critical section of `workerLoop`: a worker that finds the queue empty
waits (pool running) or returns (pool stopped) and takes nothing; otherwise it
takes the task at the front. -/
def workerTake (p : ThreadPool τ) : Option τ × ThreadPool τ :=
  match p.tasks_ with
  | [] => (none, p)
  | task :: rest => (some task, { p with tasks_ := rest })

/-- The critical section of the destructor: `running_ = false`. -/
def shutdown (p : ThreadPool τ) : ThreadPool τ :=
  { p with running_ := false }

end ThreadPool

/-- A step on the shared state of the Worker Pool. -/
inductive PoolOp (τ : Type) where
  | enqueue (task : τ)
  | workerTake
  | shutdown

/-- The pool after one step. -/
def PoolOp.apply {τ : Type} (op : PoolOp τ) (p : ThreadPool τ) : ThreadPool τ :=
  match op with
  | .enqueue task => (p.enqueue task).2
  | .workerTake => p.workerTake.2
  | .shutdown => p.shutdown

/-- The pool after a sequence of steps. -/
def runPoolOps {τ : Type} (ops : List (PoolOp τ)) (p : ThreadPool τ) : ThreadPool τ :=
  ops.foldl (fun p op => op.apply p) p

/-! ## Sequences of registry calls -/

/-- A call of one of the mutating operations of the Channel Registry. -/
inductive ChannelOp where
  | createChannel (channelName : Str)
  | removeChannel (channelName : Str)
  | joinChannel (client : Option ClientId) (channelName : Str)
  | leaveChannel (client : Option ClientId) (channelName : Str)
  | removeClientFromAllChannels (client : Option ClientId)

/-- The registry and the `Client` objects after one call. -/
def ChannelOp.apply (op : ChannelOp) (s : ChannelManager × Heap) : ChannelManager × Heap :=
  match op with
  | .createChannel channelName => ((s.1.createChannel channelName).2, s.2)
  | .removeChannel channelName => ((s.1.removeChannel channelName).2, s.2)
  | .joinChannel client channelName => (s.1.joinChannel s.2 client channelName).2
  | .leaveChannel client channelName => (s.1.leaveChannel s.2 client channelName).2
  | .removeClientFromAllChannels client => s.1.removeClientFromAllChannels s.2 client

/-- The registry and the `Client` objects after a sequence of calls. -/
def runChannelOps (ops : List ChannelOp) (s : ChannelManager × Heap) : ChannelManager × Heap :=
  ops.foldl (fun s op => op.apply s) s

/-- Freshly constructed Connections: the object at address `i` was built for
socket `4 + i`. -/
def freshHeap : Heap :=
  fun i => Client.new (4 + (i : Int))

/-- A call of one of the mutating operations of the Client Registry. -/
inductive ClientOp where
  | addClient (client : Option ClientId)
  | removeClient (client : Option ClientId)
  | updateClientNickname (client : Option ClientId) (newNickname : Str)

/-- The registry, the `Client` objects and the callbacks' subsystems after one call. -/
def ClientOp.apply {W : Type} (op : ClientOp) (s : ClientManager W × Heap × W) :
    ClientManager W × Heap × W :=
  match op with
  | .addClient client => (s.1.addClient s.2.1 s.2.2 client).2
  | .removeClient client => (s.1.removeClient s.2.1 s.2.2 client).2
  | .updateClientNickname client newNickname =>
    ((s.1.updateClientNickname s.2.1 client newNickname).2.1,
     (s.1.updateClientNickname s.2.1 client newNickname).2.2, s.2.2)

/-- The registry, the `Client` objects and the callbacks' subsystems after a
sequence of calls. -/
def runClientOps {W : Type} (ops : List ClientOp) (s : ClientManager W × Heap × W) :
    ClientManager W × Heap × W :=
  ops.foldl (fun s op => op.apply s) s

/-- Membership as a Channel records it is mirrored by the Connection: every
entry of the registry is keyed by the name of its Channel, and each member of
the Channel has that name in its joined-channel set. -/
def MembersJoined (s : ChannelManager × Heap) : Prop :=
  ∀ e ∈ s.1.channels_, e.1 = e.2.name_ ∧
    ∀ c ∈ e.2.members_, e.2.name_ ∈ (s.2 c).joined_channels_

/-- The registry keeps its capacity and holds at most `maxClients` Connections. -/
def WithinClients {W : Type} (maxClients : Int) (s : ClientManager W × Heap × W) : Prop :=
  s.1.maxClients_ = maxClients ∧ (s.1.clients_.length : Int) ≤ maxClients

/-- The registry keeps its capacity and holds at most `maxChannels` channels. -/
def WithinChannels (maxChannels : Int) (s : ChannelManager × Heap) : Prop :=
  s.1.maxChannels_ = maxChannels ∧ (s.1.channels_.length : Int) ≤ maxChannels

/-! ## Lines and replies -/

/-- A word as `iss >> arg` reads one: not empty and free of white space. -/
def IsToken (t : Str) : Prop :=
  t ≠ [] ∧ ∀ ch ∈ t, isspace ch = false

/-- The statistics update at the head of `handleMessage`. -/
def Sys.received (s : Sys) (message : Str) : Sys :=
  { s with messageManager_ := { s.messageManager_ with
      processedMessages_ := s.messageManager_.processedMessages_ + 1
      receivedBytes_ := s.messageManager_.receivedBytes_ + message.length } }

/-- The statistics update at the head of `handleCommand`. -/
def Sys.commandSeen (s : Sys) : Sys :=
  { s with messageManager_ := { s.messageManager_ with
      processedCommands_ := s.messageManager_.processedCommands_ + 1 } }

/-- The state `s'` is `s` after a server message to `c` and changes of the
statistics, nothing else. -/
def IsReply (s s' : Sys) (c : ClientId) : Prop :=
  ∃ (s0 : Sys) (msg : Str), s0.clientManager_ = s.clientManager_ ∧
    s0.channelManager_ = s.channelManager_ ∧ s0.heap = s.heap ∧
    s' = MessageManager.sendServerMessage s0 (some c) msg

/-- Between `s` and `s'` both registries and every `Client` object other than
`c` are the same, `c` has the nickname, joined-channel set and active channel
it had, and its outbound queue has grown by one line, made of `*** `, a text
and one newline. -/
def ServerReply (s s' : Sys) (c : ClientId) : Prop :=
  s'.clientManager_ = s.clientManager_ ∧ s'.channelManager_ = s.channelManager_ ∧
  (∀ d, d ≠ c → s'.heap d = s.heap d) ∧
  (s'.heap c).nickname_ = (s.heap c).nickname_ ∧
  (s'.heap c).joined_channels_ = (s.heap c).joined_channels_ ∧
  (s'.heap c).active_channel_ = (s.heap c).active_channel_ ∧
  ∃ text : Str,
    (s'.heap c).output_queue_ = (s.heap c).output_queue_ ++ ["*** ".toList ++ text ++ ['\n']]

/-- The state with another heap. -/
def Sys.withHeap (s : Sys) (h : Heap) : Sys :=
  { s with heap := h }

/-- The state after `updateClientNickname(c, X)` returned true. -/
def Sys.renamed (s : Sys) (c : ClientId) (X : Str) : Sys :=
  let index := UMap.set (UMap.erase s.clientManager_.nicknameToClient_ (s.heap c).nickname_) X c
  let h := Heap.call s.heap c (fun cl => cl.setNickname X)
  { s with clientManager_ := { s.clientManager_ with nicknameToClient_ := index }, heap := h }

/-- The names under which `setupDefaultCommands` registers a handler. -/
def commandNames : List Str :=
  ["nick".toList, "join".toList, "part".toList, "quit".toList, "list".toList, "who".toList,
   "msg".toList, "motd".toList, "help".toList]

/-- The Connection with `lines` appended to its outbound queue. -/
def Client.received (c : Client) (lines : List Str) : Client :=
  { c with output_queue_ := c.output_queue_ ++ lines }

/-- The string that `ClientManager::broadcastMessage` pushes. -/
def ClientManager.broadcastLine (h : Heap) (text : Str) (sender : Option ClientId) : Str :=
  (match sender with
    | some sd => "<".toList ++ (h sd).nickname_ ++ "> ".toList ++ text
    | none => text) ++ ['\n']

/-- The number of times a line broadcast to each channel of `names` in turn
reaches the Connection `d`: once for each listing of `d` in a channel that
exists. -/
def ChannelManager.copies (m : ChannelManager) (names : List Str) (d : ClientId) : Nat :=
  (names.map (fun name =>
    match UMap.find m.channels_ name with
    | some ch => ch.members_.count d
    | none => 0)).sum

/-- The reason that `/quit` announces. -/
def MessageManager.quitReason (args : List Str) : Str :=
  if args.isEmpty then "Client quit.".toList else MessageManager.joinWords args

/-- An outbound line terminated by exactly one newline: the string is not
empty, ends with a newline and holds no other newline. -/
def EndsLine (x : Str) : Prop :=
  x ≠ [] ∧ x.getLast? = some '\n' ∧ '\n' ∉ x.dropLast

/-- Between the heaps `h` and `h'` every outbound queue has grown by strings
that each end a line. -/
def Grows (h h' : Heap) : Prop :=
  ∀ d, ∃ new : List Str,
    (h' d).output_queue_ = (h d).output_queue_ ++ new ∧ ∀ x ∈ new, EndsLine x

/-- No nickname, no name of a joined or active channel, no name in the Channel
Registry and not the MOTD contains a newline. -/
def Sys.Clean (s : Sys) : Prop :=
  (∀ d, '\n' ∉ (s.heap d).nickname_) ∧
  (∀ d, ∀ name ∈ (s.heap d).joined_channels_, '\n' ∉ name) ∧
  (∀ d, '\n' ∉ (s.heap d).active_channel_) ∧
  (∀ name ∈ UMap.keys s.channelManager_.channels_, '\n' ∉ name) ∧
  '\n' ∉ s.messageManager_.motd_

/-- The removal callback, if one is installed, sends nothing: it leaves every
outbound queue as it is. -/
def Sys.QuietRemoval (s : Sys) : Prop :=
  ∀ cb, s.clientManager_.onClientRemovedCallback_ = some cb →
    ∀ (x : ClientId) (hw : Heap × ChannelManager) (d : ClientId),
      ((cb x hw).1 d).output_queue_ = (hw.1 d).output_queue_

/-- The state with other values of the counters `processedMessages_`,
`processedCommands_` and `receivedBytes_`. -/
def Sys.withCounters (s : Sys) (pm pc rb : Nat) : Sys :=
  { s with messageManager_ := { s.messageManager_ with
      processedMessages_ := pm, processedCommands_ := pc, receivedBytes_ := rb } }

/-- The part of `handleMessage` after the statistics update: what is done
with `cleanMessage`, the line without its carriage return, in the state `s1`. -/
def MessageManager.routeClean (s1 : Sys) (c : ClientId) (cleanMessage : Str) : Sys :=
  if cleanMessage.isEmpty then s1
  else if cleanMessage.head? = some '/' then MessageManager.handleCommand s1 (some c) cleanMessage
  else
    let activeChannel := (s1.heap c).active_channel_
    if !activeChannel.isEmpty then
      MessageManager.sendChannelMessage s1 (some c) activeChannel cleanMessage
    else
      MessageManager.sendServerMessage s1 (some c)
        "You are not in any channel. Join one with /join <#channel> or send a private message with /msg <user> <message>.".toList

/-- A relation between heaps that every change the Router and the Channel
Registry make to a `Client` object respects: it holds between a heap and
itself, it composes, and it holds across a push to an outbound queue, a change
of nickname, an insertion into a joined-channel set (alone, or followed by
making the name the active channel) and `Client::leaveChannel`. -/
structure HeapFrame (R : Heap → Heap → Prop) : Prop where
  refl : ∀ h, R h h
  trans : ∀ h1 h2 h3, R h1 h2 → R h2 h3 → R h1 h3
  push : ∀ (h : Heap) (d : ClientId) (x : Str), R h (h.call d (fun cl => cl.pushMessageToQueue x))
  nick : ∀ (h : Heap) (d : ClientId) (X : Str), R h (h.call d (fun cl => cl.setNickname X))
  join : ∀ (h : Heap) (d : ClientId) (name : Str),
    R h (h.call d (fun cl => cl.joinChannel name))
  joinActive : ∀ (h : Heap) (d : ClientId) (name : Str),
    R h ((h.call d (fun cl => cl.joinChannel name)).call d
      (fun cl => cl.setActiveChannel name))
  leave : ∀ (h : Heap) (d : ClientId) (name : Str),
    R h (h.call d (fun cl => cl.leaveChannel name))

/-- Between `s` and `s'` the heaps are related by `R` and the two callbacks of
the Client Registry are the same. -/
def Sys.Framed (R : Heap → Heap → Prop) (s s' : Sys) : Prop :=
  R s.heap s'.heap ∧
    (s'.clientManager_.onClientRemovedCallback_, s'.clientManager_.onClientAddedCallback_)
      = (s.clientManager_.onClientRemovedCallback_, s.clientManager_.onClientAddedCallback_)

/-- The removal callback, if one is installed, respects `R`. -/
def Sys.RemovalFramed (R : Heap → Heap → Prop) (s : Sys) : Prop :=
  ∀ cb, s.clientManager_.onClientRemovedCallback_ = some cb →
    ∀ (x : ClientId) (hw : Heap × ChannelManager), R hw.1 (cb x hw).1

/-- The callback for an added Connection, if one is installed, respects `R`. -/
def Sys.AdditionFramed (R : Heap → Heap → Prop) (s : Sys) : Prop :=
  ∀ cb, s.clientManager_.onClientAddedCallback_ = some cb →
    ∀ (x : ClientId) (hw : Heap × ChannelManager), R hw.1 (cb x hw).1

/-- A step of a server: the registration of a Connection with the Client
Registry, its removal from it, a line handed to the Router for a Connection,
or a call of an operation of the Channel Registry. -/
inductive SessionOp where
  | register (client : ClientId)
  | unregister (client : ClientId)
  | line (sender : ClientId) (text : Str)
  | registry (op : ChannelOp)

/-- The state after one step. -/
def SessionOp.apply (op : SessionOp) (s : Sys) : Sys :=
  match op with
  | .register client => (s.addClient (some client)).2
  | .unregister client => (s.removeClient (some client)).2
  | .line sender text => MessageManager.handleMessage s (some sender) text
  | .registry r =>
    { s with channelManager_ := (r.apply (s.channelManager_, s.heap)).1,
             heap := (r.apply (s.channelManager_, s.heap)).2 }

/-- The state after a sequence of steps. -/
def runSession (ops : List SessionOp) (s : Sys) : Sys :=
  ops.foldl (fun s op => op.apply s) s

/-- The active channel of every Connection is empty or in the joined-channel
set of that Connection. -/
def ActiveJoined (h : Heap) : Prop :=
  ∀ d, (h d).active_channel_ = [] ∨ (h d).active_channel_ ∈ (h d).joined_channels_

/-- The inbound buffers are the same in both heaps. -/
def SameBuffers (h h' : Heap) : Prop :=
  ∀ d, (h' d).readBuffer_ = (h d).readBuffer_

/-! ## Example states -/

/-- A registry for at most one channel that holds the channel `#a`. -/
def fullRegistry : ChannelManager :=
  { channels_ := [("#a".toList, Channel.new "#a".toList)], maxChannels_ := 1 }

/-- The state after Connection `0` joined `#c` in an empty registry. -/
def joinedOnce : ChannelManager × Heap :=
  ((ChannelManager.new 10).joinChannel freshHeap (some 0) "#c".toList).2

/-- Connection `0` is a member of `#a` and also has `#gone`, a name without a
Channel, in its joined-channel set; Connection `1` is a member of `#a` too. -/
def staleState : ChannelManager × Heap :=
  ({ channels_ := [("#a".toList, { name_ := "#a".toList, members_ := [0, 1] })],
     maxChannels_ := 10 },
   fun i => { Client.new (4 + (i : Int)) with
     joined_channels_ := if i = 0 then ["#gone".toList, "#a".toList] else ["#a".toList] })

/-- The Connection on socket 6 registers and renames itself to `guest5`; then
the Connection on socket 5, whose default nickname is `guest5`, registers. -/
def renameThenAccept : List ClientOp :=
  [.addClient (some 2), .updateClientNickname (some 2) "guest5".toList, .addClient (some 1)]

/-- A server with Connection `0` registered. -/
def oneSession : Sys :=
  ((Server.initializeManagers freshHeap 2000 1000 "Welcome to test Server!".toList).addClient
    (some 0)).2

/-- The registry in which Connection `0`, on socket 4, is the one registered
Connection, under its default nickname `guest4`. -/
def oneClient : ClientManager Unit × Heap × Unit :=
  runClientOps [.addClient (some 0)] (ClientManager.new 10, freshHeap, ())

/-- A server with the Connections `0` and `1` registered, both of which sent
`/join #room`. -/
def twoInRoom : Sys :=
  MessageManager.handleMessage
    (MessageManager.handleMessage (oneSession.addClient (some 1)).2 (some 0)
      "/join #room".toList)
    (some 1) "/join #room".toList

/-- The channel `#a` with the one member `0`. -/
def soloChannel : Channel :=
  { name_ := "#a".toList, members_ := [0] }

/-- The server `twoInRoom` after Connection `0` also sent `/join #b` and
`/join #a`. -/
def threeChannels : Sys :=
  MessageManager.handleMessage
    (MessageManager.handleMessage twoInRoom (some 0) "/join #b".toList)
    (some 0) "/join #a".toList

/-- The server `oneSession` after Connection `0` sent `/motd`: two lines are
waiting in its outbound queue. -/
def motdQueued : Sys :=
  MessageManager.handleMessage oneSession (some 0) "/motd".toList

/-- A socket that accepts five bytes on the first call of `send` and 28 bytes
on every later call. -/
def partialSend : Nat → Server.SendResult :=
  fun i => if i = 0 then { bytesSent := 5, wouldBlock := false }
    else { bytesSent := 28, wouldBlock := false }

/-- A server on which the Connection on socket 6 registered and sent
`/nick guest5`, and then the Connections on socket 5, whose default nickname
is `guest5`, and on socket 4 registered. -/
def sharedNickname : Sys :=
  ((((MessageManager.handleMessage
    ((Server.initializeManagers freshHeap 2000 1000 "Welcome to test Server!".toList).addClient
      (some 2)).2 (some 2) "/nick guest5".toList).addClient (some 1)).2).addClient (some 0)).2

/-- The server `sharedNickname` after Connection `1` sent `/quit`. -/
def afterNamesakeQuit : Sys :=
  MessageManager.handleMessage sharedNickname (some 1) "/quit".toList

/-! ## Container lemmas -/

namespace USet

variable {α : Type} [DecidableEq α]

theorem mem_insert (s : List α) (x y : α) : y ∈ (insert s x).1 ↔ y = x ∨ y ∈ s := by
  unfold insert
  by_cases hx : x ∈ s
  · simp only [hx, if_true]
    constructor
    · exact fun h => Or.inr h
    · rintro (rfl | h)
      · exact hx
      · exact h
  · simp [hx, or_comm]

theorem mem_erase (s : List α) (x y : α) : y ∈ erase s x ↔ y ∈ s ∧ y ≠ x := by
  simp [erase]

theorem erase_of_not_mem (s : List α) (x : α) (hx : x ∉ s) : erase s x = s := by
  unfold erase
  rw [List.filter_eq_self]
  intro y hy
  have : y ≠ x := fun e => hx (e ▸ hy)
  simpa using this

theorem erase_insert_of_not_mem (s : List α) (x : α) (hx : x ∉ s) :
    erase (insert s x).1 x = s := by
  have h1 : (insert s x).1 = s ++ [x] := by simp [insert, hx]
  rw [h1]
  unfold erase
  rw [List.filter_append]
  have h2 : List.filter (fun y => decide (y ≠ x)) s = s := erase_of_not_mem s x hx
  rw [h2]
  simp

theorem erase_insert (s : List α) (x : α) : erase (insert s x).1 x = erase s x := by
  by_cases hx : x ∈ s
  · simp [insert, hx]
  · rw [erase_insert_of_not_mem s x hx, erase_of_not_mem s x hx]

theorem nodup_insert (s : List α) (x : α) (h : s.Nodup) : (insert s x).1.Nodup := by
  unfold insert
  split
  · exact h
  · rename_i hx
    exact List.Nodup.append h (List.nodup_singleton x) (by
      intro y hy hy'
      rw [List.mem_singleton] at hy'
      exact hx (hy' ▸ hy))

theorem nodup_erase (s : List α) (x : α) (h : s.Nodup) : (erase s x).Nodup :=
  h.filter _

end USet

namespace UMap

variable {κ β : Type} [DecidableEq κ]

theorem find_eq_none_iff (m : List (κ × β)) (k : κ) : find m k = none ↔ k ∉ keys m := by
  induction m with
  | nil => simp [find, keys]
  | cons e m ih =>
    by_cases he : e.1 = k
    · simp [find, keys, he]
    · have hk : ¬ k = e.1 := fun h => he h.symm
      simpa [find, keys, he, hk] using ih

theorem find_mem (m : List (κ × β)) (k : κ) (v : β) (h : find m k = some v) : (k, v) ∈ m := by
  induction m with
  | nil => simp [find] at h
  | cons e m ih =>
    by_cases he : e.1 = k
    · simp only [find, he, if_true, Option.some.injEq] at h
      subst h
      subst he
      simp
    · simp only [find, he, if_false] at h
      exact List.mem_cons_of_mem _ (ih h)

theorem find_modify (m : List (κ × β)) (k k' : κ) (f : β → β) :
    find (modify m k f) k' = if k' = k then (find m k').map f else find m k' := by
  induction m with
  | nil => simp [find, modify]
  | cons e m ih =>
    have ih' : find (List.map (fun e => if e.1 = k then (e.1, f e.2) else e) m) k'
        = if k' = k then (find m k').map f else find m k' := ih
    simp only [modify, List.map_cons, find, ih']
    by_cases hk : k' = k
    · subst hk
      by_cases he : e.1 = k'
      · simp [he]
      · simp [he]
    · have hk2 : ¬ k = k' := fun h => hk h.symm
      by_cases he : e.1 = k
      · simp [he, hk, hk2]
      · simp [he, hk]

theorem keys_modify (m : List (κ × β)) (k : κ) (f : β → β) : keys (modify m k f) = keys m := by
  unfold keys modify
  rw [List.map_map]
  apply List.map_congr_left
  intro e _
  by_cases he : e.1 = k <;> simp [he]

theorem find_append (m n : List (κ × β)) (k : κ) :
    find (m ++ n) k = (find m k).orElse (fun _ => find n k) := by
  induction m with
  | nil => simp [find]
  | cons e m ih =>
    by_cases he : e.1 = k
    · simp [find, he]
    · simp [find, he, ih]

theorem set_of_find_none (m : List (κ × β)) (k : κ) (v : β) (h : find m k = none) :
    set m k v = m ++ [(k, v)] := by
  simp [set, h]

theorem find_set_of_none (m : List (κ × β)) (k k' : κ) (v : β) (h : find m k = none) :
    find (set m k v) k' = if k' = k then some v else find m k' := by
  rw [set_of_find_none m k v h, find_append]
  by_cases hk : k' = k
  · subst hk
    simp [h, find]
  · have hk' : ¬ k = k' := fun e => hk e.symm
    cases hf : find m k' <;> simp [find, hk, hk']

theorem nodup_keys_set (m : List (κ × β)) (k : κ) (v : β) (h : (keys m).Nodup) :
    (keys (set m k v)).Nodup := by
  unfold set
  split
  · have hk : keys (List.map (fun e => if e.1 = k then (e.1, v) else e) m) = keys m :=
      keys_modify m k (fun _ => v)
    rw [hk]
    exact h
  · rename_i hf
    have hnone : find m k = none := by
      cases hfk : find m k with
      | none => rfl
      | some x => simp [hfk] at hf
    have hk : k ∉ keys m := (find_eq_none_iff m k).1 hnone
    have : keys (m ++ [(k, v)]) = keys m ++ [k] := by simp [keys]
    rw [this]
    exact List.Nodup.append h (List.nodup_singleton k) (by
      intro x hx hx'
      rw [List.mem_singleton] at hx'
      exact hk (hx' ▸ hx))

theorem nodup_keys_erase (m : List (κ × β)) (k : κ) (h : (keys m).Nodup) :
    (keys (erase m k)).Nodup := by
  unfold keys erase at *
  exact (List.filter_sublist m).map Prod.fst |>.nodup h

end UMap

/-! ## The Channel Registry: join and leave -/

namespace ChannelManager

theorem count_eq_zero_iff (m : ChannelManager) (name : Str) :
    UMap.count m.channels_ name = 0 ↔ UMap.find m.channels_ name = none := by
  unfold UMap.count
  cases UMap.find m.channels_ name <;> simp

/-- The three outcomes of `joinChannel` for a non-null Connection. -/
theorem joinChannel_eq (m : ChannelManager) (h : Heap) (c : ClientId) (name : Str) :
    m.joinChannel h (some c) name =
      if isValidChannelName name = false then (false, m, h)
      else if UMap.find m.channels_ name = none then
        if (m.channels_.length : Int) < m.maxChannels_ then
          joinExisting { m with channels_ := m.channels_ ++ [(name, Channel.new name)] } h c name
        else (false, m, h)
      else joinExisting m h c name := by
  unfold joinChannel
  by_cases hv : isValidChannelName name = false
  · simp [hv]
  · have hv' : isValidChannelName name = true := by simpa using hv
    by_cases hf : UMap.find m.channels_ name = none
    · have hc : UMap.count m.channels_ name = 0 := (count_eq_zero_iff m name).2 hf
      by_cases hcap : (m.channels_.length : Int) < m.maxChannels_
      · simp [hv', hf, hc, hcap, createChannel_UNLOCKED, canCreateNewChannel_UNLOCKED,
          UMap.set_of_find_none]
      · simp [hv', hf, hc, hcap, createChannel_UNLOCKED, canCreateNewChannel_UNLOCKED]
    · have hc : ¬ UMap.count m.channels_ name = 0 := fun e => hf ((count_eq_zero_iff m name).1 e)
      simp [hv', hf, hc]

theorem leaveChannel_eq (m : ChannelManager) (h : Heap) (c : ClientId) (name : Str) :
    m.leaveChannel h (some c) name =
      if UMap.find m.channels_ name = none then (false, m, h)
      else
        (true,
         { m with channels_ := UMap.modify m.channels_ name (fun ch => ch.removeClient c) },
         h.call c (fun cl => cl.leaveChannel name)) := by
  unfold leaveChannel
  cases UMap.find m.channels_ name <;> simp

end ChannelManager

/-- C5. For a non-null Connection, `joinChannel` returns false exactly when the
name is not a valid channel name, or no channel of that name exists and the
registry already holds `maxChannels_` channels; and when it returns false the
registry (the channels and their member sets) and every `Client` object (so
the Connection's joined-channel set) are what they were. -/
theorem joinChannel_false_iff (m : ChannelManager) (h : Heap) (c : ClientId) (name : Str) :
    ((m.joinChannel h (some c) name).1 = false ↔
      (ChannelManager.isValidChannelName name = false ∨
        (UMap.find m.channels_ name = none ∧ m.maxChannels_ ≤ (m.channels_.length : Int)))) ∧
    ((m.joinChannel h (some c) name).1 = false →
      (m.joinChannel h (some c) name).2.1 = m ∧ (m.joinChannel h (some c) name).2.2 = h) := by
  rw [ChannelManager.joinChannel_eq]
  by_cases hv : ChannelManager.isValidChannelName name = false
  · simp [hv]
  · by_cases hf : UMap.find m.channels_ name = none
    · by_cases hcap : (m.channels_.length : Int) < m.maxChannels_
      · have hcap' : ¬ m.maxChannels_ ≤ (m.channels_.length : Int) := not_le.mpr hcap
        simp [hv, hf, hcap, hcap', ChannelManager.joinExisting]
      · have hcap' : m.maxChannels_ ≤ (m.channels_.length : Int) := not_lt.mp hcap
        simp [hv, hf, hcap, hcap']
    · simp [hv, hf, ChannelManager.joinExisting]

/-- What a successful `joinChannel` leaves behind. -/
theorem ChannelManager.joinChannel_true_core (m : ChannelManager) (h : Heap) (c : ClientId) (name : Str)
    (hok : (m.joinChannel h (some c) name).1 = true) :
    (∃ ch, UMap.find (m.joinChannel h (some c) name).2.1.channels_ name = some ch
        ∧ c ∈ ch.members_) ∧
    name ∈ ((m.joinChannel h (some c) name).2.2 c).joined_channels_ ∧
    (UMap.keys (m.joinChannel h (some c) name).2.1.channels_ = UMap.keys m.channels_ ∨
      (UMap.find m.channels_ name = none ∧
        UMap.keys (m.joinChannel h (some c) name).2.1.channels_
          = UMap.keys m.channels_ ++ [name])) ∧
    (∀ n, n ≠ name →
      UMap.find (m.joinChannel h (some c) name).2.1.channels_ n = UMap.find m.channels_ n) ∧
    (∀ (m2 : ChannelManager) (h2 : Heap), ChannelManager.isValidChannelName name = true →
      UMap.find m2.channels_ name ≠ none → (m2.joinChannel h2 (some c) name).1 = true) := by
  have hlast : ∀ (m2 : ChannelManager) (h2 : Heap),
      ChannelManager.isValidChannelName name = true →
      UMap.find m2.channels_ name ≠ none → (m2.joinChannel h2 (some c) name).1 = true := by
    intro m2 h2 hv hf
    rw [ChannelManager.joinChannel_eq]
    simp [hv, hf, ChannelManager.joinExisting]
  have hjoined : ∀ g : Heap,
      name ∈ ((g.call c (fun cl => cl.joinChannel name)) c).joined_channels_ := by
    intro g
    simp [Heap.call, Client.joinChannel, USet.mem_insert]
  have heq := ChannelManager.joinChannel_eq m h c name
  by_cases hv : ChannelManager.isValidChannelName name = false
  · rw [heq] at hok
    simp [hv] at hok
  · by_cases hf : UMap.find m.channels_ name = none
    · by_cases hcap : (m.channels_.length : Int) < m.maxChannels_
      · have hres : m.joinChannel h (some c) name = ChannelManager.joinExisting
            { m with channels_ := m.channels_ ++ [(name, Channel.new name)] } h c name := by
          rw [heq]; simp [hv, hf, hcap]
        rw [hres]
        dsimp only [ChannelManager.joinExisting]
        refine ⟨?_, hjoined h, ?_, ?_, hlast⟩
        · refine ⟨(Channel.new name).addClient c, ?_, ?_⟩
          · rw [UMap.find_modify, UMap.find_append]
            simp [hf, UMap.find]
          · simp [Channel.addClient, Channel.new, USet.insert]
        · right
          refine ⟨hf, ?_⟩
          rw [UMap.keys_modify]
          simp [UMap.keys]
        · intro n hn
          have hn' : ¬ name = n := fun e => hn e.symm
          rw [UMap.find_modify, UMap.find_append]
          cases hfn : UMap.find m.channels_ n <;> simp [hn, hn', UMap.find]
      · rw [heq] at hok
        simp [hv, hf, hcap] at hok
    · have hres : m.joinChannel h (some c) name = ChannelManager.joinExisting m h c name := by
        rw [heq]; simp [hv, hf]
      rw [hres]
      dsimp only [ChannelManager.joinExisting]
      refine ⟨?_, hjoined h, ?_, ?_, hlast⟩
      · obtain ⟨ch, hch⟩ := Option.ne_none_iff_exists'.mp hf
        refine ⟨ch.addClient c, ?_, ?_⟩
        · rw [UMap.find_modify]
          simp [hch]
        · simp [Channel.addClient, USet.mem_insert]
      · left
        rw [UMap.keys_modify]
      · intro n hn
        rw [UMap.find_modify]
        simp [hn]

/-- The two outcomes of `leaveChannel`. -/
theorem ChannelManager.leaveChannel_core (m : ChannelManager) (h : Heap) (c : ClientId) (name : Str) :
    (UMap.find m.channels_ name = none → m.leaveChannel h (some c) name = (false, m, h)) ∧
    (UMap.find m.channels_ name ≠ none →
      (m.leaveChannel h (some c) name).1 = true ∧
      (∃ ch, UMap.find (m.leaveChannel h (some c) name).2.1.channels_ name = some ch
        ∧ c ∉ ch.members_) ∧
      name ∉ ((m.leaveChannel h (some c) name).2.2 c).joined_channels_) ∧
    UMap.keys (m.leaveChannel h (some c) name).2.1.channels_ = UMap.keys m.channels_ := by
  rw [ChannelManager.leaveChannel_eq]
  by_cases hf : UMap.find m.channels_ name = none
  · simp [hf]
  · simp only [hf, if_false, UMap.keys_modify, and_true, not_false_eq_true, true_and,
      false_implies, ne_eq, forall_const]
    obtain ⟨ch, hch⟩ := Option.ne_none_iff_exists'.mp hf
    refine ⟨⟨ch.removeClient c, ?_, ?_⟩, ?_⟩
    · rw [UMap.find_modify]
      simp [hch]
    · simp [Channel.removeClient, USet.mem_erase]
    · simp [Heap.call, Client.leaveChannel, USet.mem_erase]

/-- C6. When `joinChannel` returns true, the registry maps the name to a Channel
whose member set contains the Connection, and the Connection's joined-channel
set contains the name; the keys of the registry are the old ones, or the old
ones followed by the name when it was absent (at most one Channel is created,
and only for an absent name); every other name is mapped as before. Joining a
channel that exists succeeds for every valid name, whatever the number of
channels. -/
theorem joinChannel_true (m : ChannelManager) (h : Heap) (c : ClientId) (name : Str)
    (hok : (m.joinChannel h (some c) name).1 = true) :
    (∃ ch, UMap.find (m.joinChannel h (some c) name).2.1.channels_ name = some ch
        ∧ c ∈ ch.members_) ∧
    name ∈ ((m.joinChannel h (some c) name).2.2 c).joined_channels_ ∧
    (UMap.keys (m.joinChannel h (some c) name).2.1.channels_ = UMap.keys m.channels_ ∨
      (UMap.find m.channels_ name = none ∧
        UMap.keys (m.joinChannel h (some c) name).2.1.channels_
          = UMap.keys m.channels_ ++ [name])) ∧
    (∀ n, n ≠ name →
      UMap.find (m.joinChannel h (some c) name).2.1.channels_ n = UMap.find m.channels_ n) ∧
    (∀ (m2 : ChannelManager) (h2 : Heap), ChannelManager.isValidChannelName name = true →
      UMap.find m2.channels_ name ≠ none → (m2.joinChannel h2 (some c) name).1 = true) :=
  ChannelManager.joinChannel_true_core m h c name hok

/-- C7. For a non-null Connection, `leaveChannel` returns false and changes
nothing when no channel of that name exists; otherwise it returns true, the
Channel under that name no longer lists the Connection and the name is no
longer in the Connection's joined-channel set; in both cases the registry has
the same channel names as before (a channel left empty is still there). -/
theorem leaveChannel_spec (m : ChannelManager) (h : Heap) (c : ClientId) (name : Str) :
    (UMap.find m.channels_ name = none → m.leaveChannel h (some c) name = (false, m, h)) ∧
    (UMap.find m.channels_ name ≠ none →
      (m.leaveChannel h (some c) name).1 = true ∧
      (∃ ch, UMap.find (m.leaveChannel h (some c) name).2.1.channels_ name = some ch
        ∧ c ∉ ch.members_) ∧
      name ∉ ((m.leaveChannel h (some c) name).2.2 c).joined_channels_) ∧
    UMap.keys (m.leaveChannel h (some c) name).2.1.channels_ = UMap.keys m.channels_ :=
  ChannelManager.leaveChannel_core m h c name

/-! ## The Channel Registry: leaving every channel -/

namespace ChannelManager

theorem removeClient_idem (ch : Channel) (c : ClientId) :
    (ch.removeClient c).removeClient c = ch.removeClient c := by
  simp [Channel.removeClient, USet.erase]

theorem removeClient_of_not_mem (ch : Channel) (c : ClientId) (hc : c ∉ ch.members_) :
    ch.removeClient c = ch := by
  cases ch with
  | mk name members =>
    simp only [Channel.removeClient]
    congr 1
    exact USet.erase_of_not_mem members c hc

theorem find_leaveChannel (m : ChannelManager) (h : Heap) (c : ClientId) (name n : Str) :
    UMap.find (m.leaveChannel h (some c) name).2.1.channels_ n =
      if n = name then (UMap.find m.channels_ n).map (fun ch => ch.removeClient c)
      else UMap.find m.channels_ n := by
  rw [leaveChannel_eq]
  by_cases hf : UMap.find m.channels_ name = none
  · by_cases hn : n = name
    · subst hn
      simp [hf]
    · simp [hf, hn]
  · simp only [hf, if_false]
    rw [UMap.find_modify]

theorem keys_leaveChannel (m : ChannelManager) (h : Heap) (c : ClientId) (name : Str) :
    UMap.keys (m.leaveChannel h (some c) name).2.1.channels_ = UMap.keys m.channels_ :=
  (leaveChannel_core m h c name).2.2

theorem find_leaveAll (c : ClientId) (names : List Str) :
    ∀ (s : ChannelManager × Heap) (n : Str),
      UMap.find (leaveAll c names s).1.channels_ n =
        if n ∈ names then (UMap.find s.1.channels_ n).map (fun ch => ch.removeClient c)
        else UMap.find s.1.channels_ n := by
  induction names with
  | nil => intro s n; simp [leaveAll]
  | cons name rest ih =>
    intro s n
    simp only [leaveAll]
    rw [ih, find_leaveChannel]
    by_cases h1 : n = name
    · subst h1
      by_cases h2 : n ∈ rest
      · cases hf : UMap.find s.1.channels_ n <;> simp [h2, removeClient_idem]
      · simp [h2]
    · by_cases h2 : n ∈ rest
      · simp [h1, h2]
      · simp [h1, h2]

theorem keys_leaveAll (c : ClientId) (names : List Str) :
    ∀ (s : ChannelManager × Heap),
      UMap.keys (leaveAll c names s).1.channels_ = UMap.keys s.1.channels_ := by
  induction names with
  | nil => intro s; simp [leaveAll]
  | cons name rest ih =>
    intro s
    simp only [leaveAll]
    rw [ih, keys_leaveChannel]

end ChannelManager

/-- C8. In a state where each Channel that lists the Connection is registered
under a name of the Connection's joined-channel set (names of that set without
a Channel are allowed), `removeClientFromAllChannels` returns a registry in
which no Channel lists the Connection, with the channel names it had, and in
which every name is mapped to the Channel it was mapped to with the Connection
removed from the member set. -/
theorem removeClientFromAllChannels_spec (m : ChannelManager) (h : Heap) (c : ClientId)
    (hsym : ∀ name ch, UMap.find m.channels_ name = some ch → c ∈ ch.members_ →
      name ∈ (h c).joined_channels_) :
    (∀ name ch, UMap.find (m.removeClientFromAllChannels h (some c)).1.channels_ name = some ch →
      c ∉ ch.members_) ∧
    UMap.keys (m.removeClientFromAllChannels h (some c)).1.channels_ = UMap.keys m.channels_ ∧
    (∀ name, UMap.find (m.removeClientFromAllChannels h (some c)).1.channels_ name =
      (UMap.find m.channels_ name).map (fun ch => ch.removeClient c)) := by
  have hfind : ∀ name, UMap.find (m.removeClientFromAllChannels h (some c)).1.channels_ name =
      (UMap.find m.channels_ name).map (fun ch => ch.removeClient c) := by
    intro name
    simp only [ChannelManager.removeClientFromAllChannels]
    rw [ChannelManager.find_leaveAll]
    by_cases hn : name ∈ (h c).joined_channels_
    · simp [hn]
    · simp only [hn, if_false]
      cases hf : UMap.find m.channels_ name with
      | none => rfl
      | some ch =>
        have hc : c ∉ ch.members_ := fun hmem => hn (hsym name ch hf hmem)
        simp [ChannelManager.removeClient_of_not_mem ch c hc]
  refine ⟨?_, ?_, hfind⟩
  · intro name ch hch
    rw [hfind] at hch
    cases hf : UMap.find m.channels_ name with
    | none => simp [hf] at hch
    | some ch0 =>
      simp only [hf, Option.map_some', Option.some.injEq] at hch
      subst hch
      simp [Channel.removeClient, USet.mem_erase]
  · simp only [ChannelManager.removeClientFromAllChannels]
    exact ChannelManager.keys_leaveAll c _ (m, h)

/-- C9 (as amended). When `joinChannel` succeeds, `joinChannel` followed by
`leaveChannel` for the same name succeeds too and leaves the Connection's
joined-channel set equal to the set before the join with the name removed,
which is the set before the join when the name was not in it; and the channel
still exists. -/
theorem join_then_leave (m : ChannelManager) (h : Heap) (c : ClientId) (name : Str)
    (hok : (m.joinChannel h (some c) name).1 = true) :
    ((m.joinChannel h (some c) name).2.1.leaveChannel
        (m.joinChannel h (some c) name).2.2 (some c) name).1 = true ∧
    (((m.joinChannel h (some c) name).2.1.leaveChannel
        (m.joinChannel h (some c) name).2.2 (some c) name).2.2 c).joined_channels_
      = USet.erase (h c).joined_channels_ name ∧
    (name ∉ (h c).joined_channels_ →
      (((m.joinChannel h (some c) name).2.1.leaveChannel
        (m.joinChannel h (some c) name).2.2 (some c) name).2.2 c).joined_channels_
      = (h c).joined_channels_) ∧
    UMap.find ((m.joinChannel h (some c) name).2.1.leaveChannel
        (m.joinChannel h (some c) name).2.2 (some c) name).2.1.channels_ name ≠ none := by
  obtain ⟨⟨ch, hch, _⟩, _, _, _, _⟩ := ChannelManager.joinChannel_true_core m h c name hok
  have hex : UMap.find (m.joinChannel h (some c) name).2.1.channels_ name ≠ none := by
    rw [hch]; simp
  have hheap : (m.joinChannel h (some c) name).2.2 = h.call c (fun cl => cl.joinChannel name) := by
    have heq := ChannelManager.joinChannel_eq m h c name
    rw [heq] at hok ⊢
    by_cases hv : ChannelManager.isValidChannelName name = false
    · simp [hv] at hok
    · by_cases hf : UMap.find m.channels_ name = none
      · by_cases hcap : (m.channels_.length : Int) < m.maxChannels_
        · simp [hv, hf, hcap, ChannelManager.joinExisting]
        · simp [hv, hf, hcap] at hok
      · simp [hv, hf, ChannelManager.joinExisting]
  have hjoined : (((m.joinChannel h (some c) name).2.1.leaveChannel
        (m.joinChannel h (some c) name).2.2 (some c) name).2.2 c).joined_channels_
      = USet.erase (h c).joined_channels_ name := by
    rw [ChannelManager.leaveChannel_eq]
    simp only [hex, if_false]
    rw [hheap]
    simp [Heap.call, Client.leaveChannel, Client.joinChannel, USet.erase_insert]
  refine ⟨?_, hjoined, ?_, ?_⟩
  · exact ((ChannelManager.leaveChannel_core _ _ c name).2.1 hex).1
  · intro hn
    rw [hjoined, USet.erase_of_not_mem _ _ hn]
  · obtain ⟨ch2, hch2, _⟩ := ((ChannelManager.leaveChannel_core (m.joinChannel h (some c) name).2.1
      (m.joinChannel h (some c) name).2.2 c name).2.1 hex).2.1
    rw [hch2]; simp

/-- A state in which `joinChannel` succeeds on a registry that is at capacity. -/
theorem joinChannel_true_witness :
    (fullRegistry.joinChannel freshHeap (some 0) "#a".toList).1 = true ∧
    "#a".toList ∈ ((fullRegistry.joinChannel freshHeap (some 0) "#a".toList).2.2 0).joined_channels_ :=
  ⟨by decide, (joinChannel_true fullRegistry freshHeap 0 "#a".toList (by decide)).2.1⟩

/-- A state with a stale name in the joined-channel set, where
`removeClientFromAllChannels` still empties the Connection's memberships. -/
theorem removeClientFromAllChannels_spec_witness :
    (∀ name ch, UMap.find staleState.1.channels_ name = some ch → 0 ∈ ch.members_ →
      name ∈ (staleState.2 0).joined_channels_) ∧
    UMap.find staleState.1.channels_ "#gone".toList = none ∧
    "#gone".toList ∈ (staleState.2 0).joined_channels_ ∧
    UMap.keys (staleState.1.removeClientFromAllChannels staleState.2 (some 0)).1.channels_
      = UMap.keys staleState.1.channels_ :=
  have hsym : ∀ name ch, UMap.find staleState.1.channels_ name = some ch → 0 ∈ ch.members_ →
      name ∈ (staleState.2 0).joined_channels_ := by
    intro name ch hf _
    have hk : name ∈ UMap.keys staleState.1.channels_ := by
      by_contra hk
      rw [(UMap.find_eq_none_iff _ _).2 hk] at hf
      exact Option.noConfusion hf
    have hname : name = "#a".toList := by
      simpa [staleState, UMap.keys] using hk
    subst hname
    decide
  ⟨hsym, by decide, by decide,
    (removeClientFromAllChannels_spec staleState.1 staleState.2 0 hsym).2.1⟩

/-- C9 (counterexample). A Connection that is already in `#c` joins `#c` again,
which succeeds, and then leaves it: its joined-channel set, `#c` before the
join, is empty afterwards. -/
theorem join_then_leave_counterexample :
    (joinedOnce.1.joinChannel joinedOnce.2 (some 0) "#c".toList).1 = true ∧
    (joinedOnce.2 0).joined_channels_ = ["#c".toList] ∧
    (((joinedOnce.1.joinChannel joinedOnce.2 (some 0) "#c".toList).2.1.leaveChannel
        (joinedOnce.1.joinChannel joinedOnce.2 (some 0) "#c".toList).2.2
        (some 0) "#c".toList).2.2 0).joined_channels_ = [] ∧
    (((joinedOnce.1.joinChannel joinedOnce.2 (some 0) "#c".toList).2.1.leaveChannel
        (joinedOnce.1.joinChannel joinedOnce.2 (some 0) "#c".toList).2.2
        (some 0) "#c".toList).2.2 0).joined_channels_ ≠ (joinedOnce.2 0).joined_channels_ := by
  decide

/-- A first join of `#c` in an empty registry, followed by leaving it. -/
theorem join_then_leave_witness :
    ((ChannelManager.new 10).joinChannel freshHeap (some 0) "#c".toList).1 = true ∧
    ((((ChannelManager.new 10).joinChannel freshHeap (some 0) "#c".toList).2.1.leaveChannel
        ((ChannelManager.new 10).joinChannel freshHeap (some 0) "#c".toList).2.2
        (some 0) "#c".toList).2.2 0).joined_channels_ = (freshHeap 0).joined_channels_ :=
  ⟨by decide,
    (join_then_leave (ChannelManager.new 10) freshHeap 0 "#c".toList (by decide)).2.2.1
      (by decide)⟩

/-! ## Membership recorded by a Channel is recorded by the Connection -/

namespace MembersJoined

theorem of_empty (maxChannels : Int) (h : Heap) : MembersJoined (ChannelManager.new maxChannels, h) := by
  intro e he
  simp [ChannelManager.new] at he

theorem of_append_new (m : ChannelManager) (h : Heap) (name : Str) (hs : MembersJoined (m, h)) :
    MembersJoined ({ m with channels_ := m.channels_ ++ [(name, Channel.new name)] }, h) := by
  intro e he
  simp only [List.mem_append, List.mem_singleton] at he
  rcases he with he | he
  · exact hs e he
  · subst he
    simp [Channel.new]

theorem of_createChannel (m : ChannelManager) (h : Heap) (name : Str) (hs : MembersJoined (m, h)) :
    MembersJoined ((m.createChannel name).2, h) := by
  unfold ChannelManager.createChannel ChannelManager.createChannel_UNLOCKED
  split
  · exact hs
  · rename_i hcond
    have hf : UMap.find m.channels_ name = none := by
      cases hfn : UMap.find m.channels_ name with
      | none => rfl
      | some ch => simp [UMap.count, hfn] at hcond
    simp only [UMap.set_of_find_none _ _ _ hf]
    exact of_append_new m h name hs

theorem of_removeChannel (m : ChannelManager) (h : Heap) (name : Str) (hs : MembersJoined (m, h)) :
    MembersJoined ((m.removeChannel name).2, h) := by
  unfold ChannelManager.removeChannel
  cases UMap.find m.channels_ name with
  | none => exact hs
  | some ch =>
    intro e he
    simp only [UMap.erase, List.mem_filter] at he
    exact hs e he.1

theorem of_joinExisting (m : ChannelManager) (h : Heap) (c : ClientId) (name : Str)
    (hs : MembersJoined (m, h)) : MembersJoined (m.joinExisting h c name).2 := by
  intro e he
  simp only [ChannelManager.joinExisting, UMap.modify, List.mem_map] at he
  obtain ⟨e0, he0, rfl⟩ := he
  obtain ⟨hkey, hmem⟩ := hs e0 he0
  have hmono : ∀ (c' : ClientId) (n : Str), n ∈ (h c').joined_channels_ →
      n ∈ ((h.call c (fun cl => cl.joinChannel name)) c').joined_channels_ := by
    intro c' n hn
    by_cases hc : c' = c
    · subst hc
      simp [Heap.call, Client.joinChannel, USet.mem_insert, hn]
    · simp [Heap.call, Function.update_noteq hc, hn]
  by_cases hk : e0.1 = name
  · simp only [hk, if_true, ChannelManager.joinExisting]
    refine ⟨by rw [← hk]; exact hkey, ?_⟩
    intro c' hc'
    simp only [Channel.addClient, USet.mem_insert] at hc' ⊢
    rcases hc' with rfl | hc'
    · have : name = e0.2.name_ := by rw [← hk]; exact hkey
      simp [Heap.call, Client.joinChannel, USet.mem_insert, this]
    · exact hmono c' _ (hmem c' hc')
  · simp only [hk, if_false, ChannelManager.joinExisting]
    exact ⟨hkey, fun c' hc' => hmono c' _ (hmem c' hc')⟩

theorem of_joinChannel (m : ChannelManager) (h : Heap) (client : Option ClientId) (name : Str)
    (hs : MembersJoined (m, h)) : MembersJoined (m.joinChannel h client name).2 := by
  cases client with
  | none => exact hs
  | some c =>
    rw [ChannelManager.joinChannel_eq]
    split
    · exact hs
    · split
      · split
        · exact of_joinExisting _ h c name (of_append_new m h name hs)
        · exact hs
      · exact of_joinExisting m h c name hs

theorem of_leaveChannel (m : ChannelManager) (h : Heap) (client : Option ClientId) (name : Str)
    (hs : MembersJoined (m, h)) : MembersJoined (m.leaveChannel h client name).2 := by
  cases client with
  | none => exact hs
  | some c =>
    rw [ChannelManager.leaveChannel_eq]
    split
    · exact hs
    · intro e he
      simp only [UMap.modify, List.mem_map] at he
      obtain ⟨e0, he0, rfl⟩ := he
      obtain ⟨hkey, hmem⟩ := hs e0 he0
      by_cases hk : e0.1 = name
      · simp only [hk, if_true]
        refine ⟨by rw [← hk]; exact hkey, ?_⟩
        intro c' hc'
        simp only [Channel.removeClient, USet.mem_erase] at hc' ⊢
        have hne : c' ≠ c := hc'.2
        simpa [Heap.call, Function.update_noteq hne] using hmem c' hc'.1
      · simp only [hk, if_false]
        refine ⟨hkey, ?_⟩
        intro c' hc'
        have hn : e0.2.name_ ≠ name := fun e => hk (hkey.trans e)
        by_cases hc : c' = c
        · subst hc
          simpa [Heap.call, Client.leaveChannel, USet.mem_erase, hn] using hmem c' hc'
        · simpa [Heap.call, Function.update_noteq hc] using hmem c' hc'

theorem of_leaveAll (c : ClientId) (names : List Str) :
    ∀ s : ChannelManager × Heap, MembersJoined s → MembersJoined (ChannelManager.leaveAll c names s) := by
  induction names with
  | nil => intro s hs; exact hs
  | cons name rest ih =>
    intro s hs
    exact ih _ (of_leaveChannel s.1 s.2 (some c) name hs)

theorem of_apply (op : ChannelOp) (s : ChannelManager × Heap) (hs : MembersJoined s) :
    MembersJoined (op.apply s) := by
  cases op with
  | createChannel name => exact of_createChannel s.1 s.2 name hs
  | removeChannel name => exact of_removeChannel s.1 s.2 name hs
  | joinChannel client name => exact of_joinChannel s.1 s.2 client name hs
  | leaveChannel client name => exact of_leaveChannel s.1 s.2 client name hs
  | removeClientFromAllChannels client =>
    cases client with
    | none => exact hs
    | some c => exact of_leaveAll c _ (s.1, s.2) hs

theorem of_run (ops : List ChannelOp) :
    ∀ s : ChannelManager × Heap, MembersJoined s → MembersJoined (runChannelOps ops s) := by
  induction ops with
  | nil => intro s hs; exact hs
  | cons op rest ih =>
    intro s hs
    exact ih _ (of_apply op s hs)

end MembersJoined

/-- C2. From an empty Channel Registry (of any capacity, with the `Client`
objects in any state), after every finite sequence of `createChannel`,
`removeChannel`, `joinChannel`, `leaveChannel` and
`removeClientFromAllChannels` calls: whenever a Channel of the registry lists a
Connection as a member, the Connection's joined-channel set contains the
Channel's name (which is also the key the Channel is registered under). -/
theorem members_joined_invariant (maxChannels : Int) (h0 : Heap) (ops : List ChannelOp)
    (key : Str) (ch : Channel) (c : ClientId) :
    (key, ch) ∈ (runChannelOps ops (ChannelManager.new maxChannels, h0)).1.channels_ →
    c ∈ ch.members_ →
    ch.name_ ∈ ((runChannelOps ops (ChannelManager.new maxChannels, h0)).2 c).joined_channels_
      ∧ key = ch.name_ := by
  intro hmem hc
  have hinv := MembersJoined.of_run ops _ (MembersJoined.of_empty maxChannels h0)
  exact ⟨(hinv (key, ch) hmem).2 c hc, (hinv (key, ch) hmem).1⟩

/-- A run in which two Connections join a channel and one of them leaves. -/
theorem members_joined_invariant_witness :
    ("#a".toList, ({ name_ := "#a".toList, members_ := [1] } : Channel)) ∈
      (runChannelOps
        [.joinChannel (some 0) "#a".toList, .joinChannel (some 1) "#a".toList,
         .leaveChannel (some 0) "#a".toList]
        (ChannelManager.new 10, freshHeap)).1.channels_ ∧
    "#a".toList ∈ ((runChannelOps
        [.joinChannel (some 0) "#a".toList, .joinChannel (some 1) "#a".toList,
         .leaveChannel (some 0) "#a".toList]
        (ChannelManager.new 10, freshHeap)).2 1).joined_channels_ :=
  ⟨by decide,
    (members_joined_invariant 10 freshHeap
      [.joinChannel (some 0) "#a".toList, .joinChannel (some 1) "#a".toList,
       .leaveChannel (some 0) "#a".toList]
      "#a".toList { name_ := "#a".toList, members_ := [1] } 1 (by decide) (by decide)).1⟩

/-- C3 (the code at the failing input). Connection `0` joins `#a` and the
channel is then removed with `removeChannel`: the joined-channel set of the
Connection still contains `#a`, and the registry has no channel of that name. -/
theorem removeChannel_keeps_joined_name :
    "#a".toList ∈ ((runChannelOps
        [.joinChannel (some 0) "#a".toList, .removeChannel "#a".toList]
        (ChannelManager.new 10, freshHeap)).2 0).joined_channels_ ∧
    UMap.find (runChannelOps
        [.joinChannel (some 0) "#a".toList, .removeChannel "#a".toList]
        (ChannelManager.new 10, freshHeap)).1.channels_ "#a".toList = none ∧
    (runChannelOps
        [.joinChannel (some 0) "#a".toList, .removeChannel "#a".toList]
        (ChannelManager.new 10, freshHeap)).1.channels_ = [] := by
  decide

/-! ## The Client Registry -/

/-- C1 (the code at the failing input). The Connection on socket 6 registers
and takes the nickname `guest5`; the Connection on socket 5 then registers
under its default nickname `guest5`. Both are registered with the same
nickname, and the index maps that nickname to the second Connection only. -/
theorem addClient_overwrites_index :
    (runClientOps renameThenAccept
      (ClientManager.new 10, freshHeap, ())).1.clients_ = [2, 1] ∧
    ((runClientOps renameThenAccept
      (ClientManager.new 10, freshHeap, ())).2.1 2).nickname_ = "guest5".toList ∧
    ((runClientOps renameThenAccept
      (ClientManager.new 10, freshHeap, ())).2.1 1).nickname_ = "guest5".toList ∧
    (runClientOps renameThenAccept
      (ClientManager.new 10, freshHeap, ())).1.nicknameToClient_ = [("guest5".toList, 1)] ∧
    (runClientOps renameThenAccept
      (ClientManager.new 10, freshHeap, ())).1.getClientByNickname "guest5".toList ≠ some 2 := by
  decide

theorem static_cast_size_t_of_nonneg (i : Int) (h0 : 0 ≤ i) (h1 : i ≤ 2147483647) (n : Nat) :
    n ≥ static_cast_size_t i ↔ i ≤ (n : Int) := by
  unfold static_cast_size_t
  have hlt : i < 2 ^ 64 := lt_of_le_of_lt h1 (by norm_num)
  rw [Int.emod_eq_of_lt h0 hlt]
  exact Int.toNat_le

namespace UMap

variable {κ β : Type} [DecidableEq κ]

theorem find_set_self (m : List (κ × β)) (k : κ) (v : β) : find (set m k v) k = some v := by
  unfold set
  cases hf : find m k with
  | none =>
    simp only [Option.isSome_none, Bool.false_eq_true, if_false]
    rw [find_append]
    simp [hf, find]
  | some v0 =>
    simp only [Option.isSome_some, if_true]
    have := find_modify m k k (fun _ => v)
    simp only [modify, if_true, hf, Option.map_some'] at this
    exact this

end UMap

/-- C10. For a registry whose capacity `maxClients_` is a non-negative `int`:
when the registry already holds `maxClients_` Connections (or more), or the
Connection is already registered, `addClient` returns false and leaves the
registry (client set and nickname index), the `Client` objects and the
callbacks' subsystems as they were, so that no callback ran; otherwise it
returns true, the client set is the old one with the Connection added, the
index maps the Connection's current nickname to the Connection, and the add
callback, if one is installed, has been applied exactly once to the state the
insertion left (nothing else happened to the `Client` objects). -/
theorem addClient_spec {W : Type} (m : ClientManager W) (h : Heap) (w : W) (c : ClientId)
    (hcap : 0 ≤ m.maxClients_) (hint : m.maxClients_ ≤ 2147483647) :
    ((m.maxClients_ ≤ (m.clients_.length : Int) ∨ c ∈ m.clients_) →
      m.addClient h w (some c) = (false, m, h, w)) ∧
    (¬ (m.maxClients_ ≤ (m.clients_.length : Int) ∨ c ∈ m.clients_) →
      (m.addClient h w (some c)).1 = true ∧
      (m.addClient h w (some c)).2.1.clients_ = m.clients_ ++ [c] ∧
      UMap.find (m.addClient h w (some c)).2.1.nicknameToClient_ (h c).nickname_ = some c ∧
      (∀ f, m.onClientAddedCallback_ = some f → (m.addClient h w (some c)).2.2 = f c (h, w)) ∧
      (m.onClientAddedCallback_ = none → (m.addClient h w (some c)).2.2 = (h, w))) := by
  have hsz := static_cast_size_t_of_nonneg m.maxClients_ hcap hint m.clients_.length
  constructor
  · intro hcond
    unfold ClientManager.addClient
    by_cases hfull : m.clients_.length ≥ static_cast_size_t m.maxClients_
    · simp [hfull]
    · have hreg : c ∈ m.clients_ := by
        rcases hcond with hc | hc
        · exact absurd (hsz.2 hc) hfull
        · exact hc
      simp [hfull, USet.insert, hreg]
  · intro hcond
    have hfull : ¬ m.clients_.length ≥ static_cast_size_t m.maxClients_ :=
      fun hc => hcond (Or.inl (hsz.1 hc))
    have hreg : c ∉ m.clients_ := fun hc => hcond (Or.inr hc)
    have hres : m.addClient h w (some c) =
        (true,
         { m with
           clients_ := m.clients_ ++ [c]
           nicknameToClient_ := UMap.set m.nicknameToClient_ (h c).nickname_ c },
         ClientManager.invoke m.onClientAddedCallback_ c (h, w)) := by
      unfold ClientManager.addClient
      simp [hfull, USet.insert, hreg]
    rw [hres]
    refine ⟨rfl, rfl, UMap.find_set_self _ _ _, ?_, ?_⟩
    · intro f hf
      simp [ClientManager.invoke, hf]
    · intro hf
      simp [ClientManager.invoke, hf]

/-- A registry with room for ten Connections accepts a first Connection, and a
registry without room refuses it. -/
theorem addClient_spec_witness :
    ((ClientManager.new 10 : ClientManager Unit).addClient freshHeap () (some 0)).1 = true ∧
    ((ClientManager.new 10 : ClientManager Unit).addClient freshHeap () (some 0)).2.1.clients_
      = [0] ∧
    (ClientManager.new 0 : ClientManager Unit).addClient freshHeap () (some 0)
      = (false, ClientManager.new 0, freshHeap, ()) :=
  ⟨((addClient_spec (ClientManager.new 10 : ClientManager Unit) freshHeap () 0
      (by decide) (by decide)).2 (by decide)).1,
   ((addClient_spec (ClientManager.new 10 : ClientManager Unit) freshHeap () 0
      (by decide) (by decide)).2 (by decide)).2.1,
   (addClient_spec (ClientManager.new 0 : ClientManager Unit) freshHeap () 0
      (by decide) (by decide)).1 (Or.inl (by decide))⟩

/-! ## The session loop -/

/-- C4 (the code at the failing input). A registered Connection sends the
chunk `/quit`, `/join #x`, `/nick bob` (three lines). The extraction loop hands
all three lines to the Router: when it finishes the Connection is not
registered, yet the channel `#x` lists it as a member and the nickname index
maps `bob` to it; the end of the session, which removes only a Connection that
is still registered, leaves both in place. -/
theorem lines_after_quit_are_routed :
    oneSession.clientManager_.clientExists (some 0) = true ∧
    (Server.receive oneSession 0 "/quit\n/join #x\n/nick bob\n".toList).2 = true ∧
    (Server.receive oneSession 0
      "/quit\n/join #x\n/nick bob\n".toList).1.clientManager_.clientExists (some 0) = false ∧
    (Server.receive oneSession 0
      "/quit\n/join #x\n/nick bob\n".toList).1.channelManager_.channels_
        = [("#x".toList, { name_ := "#x".toList, members_ := [0] })] ∧
    (Server.receive oneSession 0
      "/quit\n/join #x\n/nick bob\n".toList).1.clientManager_.nicknameToClient_
        = [("bob".toList, 0)] ∧
    (Server.endSession (Server.receive oneSession 0
      "/quit\n/join #x\n/nick bob\n".toList).1 0).channelManager_.channels_
        = [("#x".toList, { name_ := "#x".toList, members_ := [0] })] ∧
    (Server.endSession (Server.receive oneSession 0
      "/quit\n/join #x\n/nick bob\n".toList).1 0).clientManager_.nicknameToClient_
        = [("bob".toList, 0)] := by
  decide

/-! ## The Client Registry: removal and renaming -/

namespace UMap

variable {κ β : Type} [DecidableEq κ]

theorem find_erase (m : List (κ × β)) (k k' : κ) :
    find (erase m k) k' = if k' = k then none else find m k' := by
  induction m with
  | nil => simp [find, erase]
  | cons e m ih =>
    have ih' : find (List.filter (fun e => decide (e.1 ≠ k)) m) k'
        = if k' = k then none else find m k' := ih
    by_cases he : e.1 = k
    · have hfil : List.filter (fun e => decide (e.1 ≠ k)) (e :: m)
          = List.filter (fun e => decide (e.1 ≠ k)) m := by
        simp [List.filter_cons, he]
      simp only [erase, hfil, ih', find]
      by_cases hk : k' = k
      · simp [hk]
      · have : ¬ e.1 = k' := fun h => hk (h.symm.trans he)
        simp [hk, this]
    · have hfil : List.filter (fun e => decide (e.1 ≠ k)) (e :: m)
          = e :: List.filter (fun e => decide (e.1 ≠ k)) m := by
        simp [List.filter_cons, he]
      simp only [erase, hfil, ih', find]
      by_cases hk : k' = k
      · have : ¬ e.1 = k' := fun h => he (h.trans hk)
        simp [hk, this]
        intro h
        exact absurd h he
      · simp [hk]

theorem find_set (m : List (κ × β)) (k k' : κ) (v : β) :
    find (set m k v) k' = if k' = k then some v else find m k' := by
  by_cases hk : k' = k
  · subst hk
    simp [find_set_self]
  · simp only [hk, if_false]
    unfold set
    split
    · have := find_modify m k k' (fun _ => v)
      simp only [modify, hk, if_false] at this
      exact this
    · rw [find_append]
      have hk' : ¬ k = k' := fun e => hk e.symm
      cases hf : find m k' <;> simp [find, hk']

end UMap

namespace ClientManager

variable {W : Type}

theorem removeClient_eq (m : ClientManager W) (h : Heap) (w : W) (c : ClientId) :
    m.removeClient h w (some c) =
      if c ∈ m.clients_ then
        (true,
         { m with
           nicknameToClient_ := UMap.erase m.nicknameToClient_ (h c).nickname_
           clients_ := USet.erase m.clients_ c },
         invoke m.onClientRemovedCallback_ c (h, w))
      else (false, m, h, w) := by
  unfold removeClient
  by_cases hc : c ∈ m.clients_ <;> simp [hc]

theorem updateClientNickname_eq (m : ClientManager W) (h : Heap) (c : ClientId) (newNickname : Str) :
    m.updateClientNickname h (some c) newNickname =
      if isValidNickname newNickname = true ∧ UMap.find m.nicknameToClient_ newNickname = none then
        (true,
         { m with nicknameToClient_ :=
             UMap.set (UMap.erase m.nicknameToClient_ (h c).nickname_) newNickname c },
         h.call c (fun cl => cl.setNickname newNickname))
      else (false, m, h) := by
  unfold updateClientNickname
  by_cases hv : isValidNickname newNickname = true
  · cases hf : UMap.find m.nicknameToClient_ newNickname <;> simp [hv, hf]
  · simp [hv]

end ClientManager

/-- C11 (the code at the failing input). After the calls of `renameThenAccept`
the Connections `2` and `1` are registered, both under the nickname `guest5`,
and the index maps `guest5` to Connection `1`. `removeClient` on Connection `2`
returns true and erases the key `guest5`: Connection `1` is still registered,
still has the nickname `guest5`, and has lost its index entry. -/
theorem removeClient_erases_namesake_entry :
    (runClientOps renameThenAccept (ClientManager.new 10, freshHeap, ())).1.clients_ = [2, 1] ∧
    UMap.find (runClientOps renameThenAccept
      (ClientManager.new 10, freshHeap, ())).1.nicknameToClient_ "guest5".toList = some 1 ∧
    ((runClientOps renameThenAccept (ClientManager.new 10, freshHeap, ())).1.removeClient
      (runClientOps renameThenAccept (ClientManager.new 10, freshHeap, ())).2.1 ()
      (some 2)).1 = true ∧
    ((runClientOps renameThenAccept (ClientManager.new 10, freshHeap, ())).1.removeClient
      (runClientOps renameThenAccept (ClientManager.new 10, freshHeap, ())).2.1 ()
      (some 2)).2.1.clients_ = [1] ∧
    ((((runClientOps renameThenAccept (ClientManager.new 10, freshHeap, ())).1.removeClient
      (runClientOps renameThenAccept (ClientManager.new 10, freshHeap, ())).2.1 ()
      (some 2)).2.2.1) 1).nickname_ = "guest5".toList ∧
    UMap.find ((runClientOps renameThenAccept (ClientManager.new 10, freshHeap, ())).1.removeClient
      (runClientOps renameThenAccept (ClientManager.new 10, freshHeap, ())).2.1 ()
      (some 2)).2.1.nicknameToClient_ "guest5".toList = none := by
  decide

/-- The two outcomes of `removeClient`. On a registered Connection it returns
true; the client set is the old one without the Connection, so every other
Connection is registered exactly when it was; the index has no entry under the
Connection's nickname and every entry under another key is what it was, so
that another registered Connection with a different nickname keeps its entry;
and the remove callback, if one is installed, has been applied exactly once,
to the Connection and the state it found. On a Connection that is not
registered `removeClient` returns false and the registry, the `Client` objects
and the callbacks' subsystems are what they were (no callback ran). -/
theorem removeClient_spec {W : Type} (m : ClientManager W) (h : Heap) (w : W) (c : ClientId) :
    (c ∈ m.clients_ →
      (m.removeClient h w (some c)).1 = true ∧
      (m.removeClient h w (some c)).2.1.clients_ = USet.erase m.clients_ c ∧
      c ∉ (m.removeClient h w (some c)).2.1.clients_ ∧
      (∀ d, d ≠ c → (d ∈ (m.removeClient h w (some c)).2.1.clients_ ↔ d ∈ m.clients_)) ∧
      UMap.find (m.removeClient h w (some c)).2.1.nicknameToClient_ (h c).nickname_ = none ∧
      (∀ k, k ≠ (h c).nickname_ →
        UMap.find (m.removeClient h w (some c)).2.1.nicknameToClient_ k
          = UMap.find m.nicknameToClient_ k) ∧
      (∀ d, d ∈ m.clients_ → d ≠ c → (h d).nickname_ ≠ (h c).nickname_ →
        d ∈ (m.removeClient h w (some c)).2.1.clients_ ∧
        UMap.find (m.removeClient h w (some c)).2.1.nicknameToClient_ (h d).nickname_
          = UMap.find m.nicknameToClient_ (h d).nickname_) ∧
      (∀ f, m.onClientRemovedCallback_ = some f →
        (m.removeClient h w (some c)).2.2 = f c (h, w)) ∧
      (m.onClientRemovedCallback_ = none → (m.removeClient h w (some c)).2.2 = (h, w))) ∧
    (c ∉ m.clients_ → m.removeClient h w (some c) = (false, m, h, w)) := by
  rw [ClientManager.removeClient_eq]
  constructor
  · intro hc
    simp only [hc, if_true]
    refine ⟨trivial, trivial, ?_, ?_, ?_, ?_, ?_, ?_, ?_⟩
    · simp [USet.mem_erase]
    · intro d hd
      simp [USet.mem_erase, hd]
    · rw [UMap.find_erase]; simp
    · intro k hk
      rw [UMap.find_erase]; simp [hk]
    · intro d hd hne hnick
      refine ⟨by simp [USet.mem_erase, hd, hne], ?_⟩
      rw [UMap.find_erase]; simp [hnick]
    · intro f hf
      simp [ClientManager.invoke, hf]
    · intro hf
      simp [ClientManager.invoke, hf]
  · intro hc
    simp [hc]

/-- C12 (counterexample). Connection `0` is the one registered Connection and
holds `guest4`, a valid nickname that no other Connection holds; renaming it
to `guest4` returns false. -/
theorem updateClientNickname_self_counterexample :
    oneClient.1.clients_ = [0] ∧
    oneClient.1.nicknameToClient_ = [("guest4".toList, 0)] ∧
    (oneClient.2.1 0).nickname_ = "guest4".toList ∧
    ClientManager.isValidNickname "guest4".toList = true ∧
    (oneClient.1.updateClientNickname oneClient.2.1 (some 0) "guest4".toList).1 = false := by
  decide

/-- C12 (as amended). For every Connection and every new nickname that is valid
and is not a key of the nickname index (the index records it for no
Connection, the renamed one included), `updateClientNickname` returns true,
and afterwards the Connection's nickname is the new one, the index maps the
new nickname to the Connection, the previous nickname, unless it equals the
new one, is not a key, every entry under another key is what it was, the
client set is what it was and so is every other `Client` object. For a new
nickname that is a key of the index, whichever Connection it maps to, the
renamed one included, and for one that is not valid, `updateClientNickname`
returns false and changes nothing; so a Connection whose own nickname is a key
of the index is refused that nickname. -/
theorem updateClientNickname_spec {W : Type} (m : ClientManager W) (h : Heap) (c : ClientId)
    (newNick : Str) :
    (ClientManager.isValidNickname newNick = true →
      UMap.find m.nicknameToClient_ newNick = none →
      (m.updateClientNickname h (some c) newNick).1 = true ∧
      ((m.updateClientNickname h (some c) newNick).2.2 c).nickname_ = newNick ∧
      UMap.find (m.updateClientNickname h (some c) newNick).2.1.nicknameToClient_ newNick
        = some c ∧
      ((h c).nickname_ ≠ newNick →
        UMap.find (m.updateClientNickname h (some c) newNick).2.1.nicknameToClient_
          (h c).nickname_ = none) ∧
      (∀ k, k ≠ newNick → k ≠ (h c).nickname_ →
        UMap.find (m.updateClientNickname h (some c) newNick).2.1.nicknameToClient_ k
          = UMap.find m.nicknameToClient_ k) ∧
      (m.updateClientNickname h (some c) newNick).2.1.clients_ = m.clients_ ∧
      (∀ d, d ≠ c → (m.updateClientNickname h (some c) newNick).2.2 d = h d)) ∧
    (∀ d, UMap.find m.nicknameToClient_ newNick = some d →
      m.updateClientNickname h (some c) newNick = (false, m, h)) ∧
    (ClientManager.isValidNickname newNick = false →
      m.updateClientNickname h (some c) newNick = (false, m, h)) ∧
    (∀ d, UMap.find m.nicknameToClient_ (h c).nickname_ = some d →
      m.updateClientNickname h (some c) (h c).nickname_ = (false, m, h)) := by
  have hrefuse : ∀ (X : Str) (d : ClientId), UMap.find m.nicknameToClient_ X = some d →
      m.updateClientNickname h (some c) X = (false, m, h) := by
    intro X d hd
    rw [ClientManager.updateClientNickname_eq]
    simp [hd]
  refine ⟨?_, hrefuse newNick, ?_, hrefuse (h c).nickname_⟩
  · intro hvalid hfree
    rw [ClientManager.updateClientNickname_eq]
    simp only [hvalid, hfree, and_self, if_true]
    refine ⟨trivial, ?_, ?_, ?_, ?_, trivial, ?_⟩
    · simp [Heap.call, Client.setNickname]
    · rw [UMap.find_set]; simp
    · intro hne
      rw [UMap.find_set, UMap.find_erase]; simp [hne]
    · intro k hk1 hk2
      rw [UMap.find_set, UMap.find_erase]; simp [hk1, hk2]
    · intro d hd
      simp [Heap.call, Function.update_noteq hd]
  · intro hinvalid
    rw [ClientManager.updateClientNickname_eq]
    simp [hinvalid]

/-- The registered Connection `0` takes the free nickname `alice`; it is
refused `guest4`, the nickname it holds. -/
theorem updateClientNickname_spec_witness :
    (oneClient.1.updateClientNickname oneClient.2.1 (some 0) "alice".toList).1 = true ∧
    UMap.find (oneClient.1.updateClientNickname oneClient.2.1 (some 0)
      "alice".toList).2.1.nicknameToClient_ "alice".toList = some 0 ∧
    oneClient.1.updateClientNickname oneClient.2.1 (some 0) "guest4".toList
      = (false, oneClient.1, oneClient.2.1) :=
  ⟨((updateClientNickname_spec oneClient.1 oneClient.2.1 0 "alice".toList).1
      (by decide) (by decide)).1,
   ((updateClientNickname_spec oneClient.1 oneClient.2.1 0 "alice".toList).1
      (by decide) (by decide)).2.2.1,
   (updateClientNickname_spec oneClient.1 oneClient.2.1 0 "guest4".toList).2.1 0 (by decide)⟩

/-! ## Capacity of the two registries -/

namespace WithinClients

variable {W : Type}

theorem clients_addClient (maxClients : Int) (h0 : 0 ≤ maxClients) (h1 : maxClients ≤ 2147483647)
    (s : ClientManager W × Heap × W) (client : Option ClientId) (hs : WithinClients maxClients s) :
    WithinClients maxClients (s.1.addClient s.2.1 s.2.2 client).2 := by
  obtain ⟨hmax, hlen⟩ := hs
  cases client with
  | none => exact ⟨hmax, hlen⟩
  | some c =>
    unfold ClientManager.addClient
    by_cases hfull : s.1.clients_.length ≥ static_cast_size_t s.1.maxClients_
    · simp only [hfull, if_true]
      exact ⟨hmax, hlen⟩
    · simp only [hfull, if_false]
      by_cases hc : c ∈ s.1.clients_
      · simp only [USet.insert, hc, if_true]
        exact ⟨hmax, hlen⟩
      · simp only [USet.insert, hc, if_false]
        refine ⟨hmax, ?_⟩
        have hlt : ¬ s.1.maxClients_ ≤ (s.1.clients_.length : Int) := fun hle =>
          hfull ((static_cast_size_t_of_nonneg s.1.maxClients_ (hmax ▸ h0) (hmax ▸ h1) _).2 hle)
        simp only [List.length_append, List.length_singleton, Nat.cast_add, Nat.cast_one]
        omega

theorem clients_removeClient (maxClients : Int) (s : ClientManager W × Heap × W)
    (client : Option ClientId) (hs : WithinClients maxClients s) :
    WithinClients maxClients (s.1.removeClient s.2.1 s.2.2 client).2 := by
  obtain ⟨hmax, hlen⟩ := hs
  cases client with
  | none => exact ⟨hmax, hlen⟩
  | some c =>
    rw [ClientManager.removeClient_eq]
    split
    · refine ⟨hmax, ?_⟩
      have hle : (USet.erase s.1.clients_ c).length ≤ s.1.clients_.length :=
        List.length_filter_le _ _
      have : ((USet.erase s.1.clients_ c).length : Int) ≤ (s.1.clients_.length : Int) := by
        exact_mod_cast hle
      exact le_trans this hlen
    · exact ⟨hmax, hlen⟩

theorem clients_updateClientNickname (maxClients : Int) (s : ClientManager W × Heap × W)
    (client : Option ClientId) (newNickname : Str) (hs : WithinClients maxClients s) :
    WithinClients maxClients
      ((s.1.updateClientNickname s.2.1 client newNickname).2.1,
       (s.1.updateClientNickname s.2.1 client newNickname).2.2, s.2.2) := by
  obtain ⟨hmax, hlen⟩ := hs
  cases client with
  | none => exact ⟨hmax, hlen⟩
  | some c =>
    rw [ClientManager.updateClientNickname_eq]
    split
    · exact ⟨hmax, hlen⟩
    · exact ⟨hmax, hlen⟩

theorem clients_run (maxClients : Int) (h0 : 0 ≤ maxClients) (h1 : maxClients ≤ 2147483647)
    (ops : List ClientOp) :
    ∀ s : ClientManager W × Heap × W, WithinClients maxClients s →
      WithinClients maxClients (runClientOps ops s) := by
  induction ops with
  | nil => intro s hs; exact hs
  | cons op rest ih =>
    intro s hs
    apply ih
    cases op with
    | addClient client => exact clients_addClient maxClients h0 h1 s client hs
    | removeClient client => exact clients_removeClient maxClients s client hs
    | updateClientNickname client newNickname =>
      exact clients_updateClientNickname maxClients s client newNickname hs

end WithinClients

namespace WithinChannels

theorem channels_joinExisting (maxChannels : Int) (m : ChannelManager) (h : Heap) (c : ClientId)
    (name : Str) (hs : WithinChannels maxChannels (m, h)) :
    WithinChannels maxChannels (m.joinExisting h c name).2 := by
  obtain ⟨hmax, hlen⟩ := hs
  refine ⟨hmax, ?_⟩
  simpa [ChannelManager.joinExisting, UMap.modify] using hlen

theorem channels_append_new (maxChannels : Int) (m : ChannelManager) (h : Heap) (name : Str)
    (hs : WithinChannels maxChannels (m, h))
    (hroom : (m.channels_.length : Int) < m.maxChannels_) :
    WithinChannels maxChannels
      ({ m with channels_ := m.channels_ ++ [(name, Channel.new name)] }, h) := by
  obtain ⟨hmax, _⟩ := hs
  refine ⟨hmax, ?_⟩
  have hmax' : m.maxChannels_ = maxChannels := hmax
  simp only [List.length_append, List.length_singleton, Nat.cast_add, Nat.cast_one]
  omega

theorem channels_createChannel (maxChannels : Int) (m : ChannelManager) (h : Heap) (name : Str)
    (hs : WithinChannels maxChannels (m, h)) :
    WithinChannels maxChannels ((m.createChannel name).2, h) := by
  unfold ChannelManager.createChannel ChannelManager.createChannel_UNLOCKED
  split
  · exact hs
  · rename_i hcond
    have hf : UMap.find m.channels_ name = none := by
      cases hfn : UMap.find m.channels_ name with
      | none => rfl
      | some ch => simp [UMap.count, hfn] at hcond
    have hroom : (m.channels_.length : Int) < m.maxChannels_ := by
      by_contra hno
      exact hcond (by simp [ChannelManager.canCreateNewChannel_UNLOCKED, hno])
    simp only [UMap.set_of_find_none _ _ _ hf]
    exact channels_append_new maxChannels m h name hs hroom

theorem channels_removeChannel (maxChannels : Int) (m : ChannelManager) (h : Heap) (name : Str)
    (hs : WithinChannels maxChannels (m, h)) :
    WithinChannels maxChannels ((m.removeChannel name).2, h) := by
  obtain ⟨hmax, hlen⟩ := hs
  unfold ChannelManager.removeChannel
  cases UMap.find m.channels_ name with
  | none => exact ⟨hmax, hlen⟩
  | some ch =>
    refine ⟨hmax, ?_⟩
    have hle : (UMap.erase m.channels_ name).length ≤ m.channels_.length :=
      List.length_filter_le _ _
    have : ((UMap.erase m.channels_ name).length : Int) ≤ (m.channels_.length : Int) := by
      exact_mod_cast hle
    exact le_trans this hlen

theorem channels_joinChannel (maxChannels : Int) (m : ChannelManager) (h : Heap)
    (client : Option ClientId) (name : Str) (hs : WithinChannels maxChannels (m, h)) :
    WithinChannels maxChannels (m.joinChannel h client name).2 := by
  cases client with
  | none => exact hs
  | some c =>
    rw [ChannelManager.joinChannel_eq]
    split
    · exact hs
    · split
      · split
        · rename_i hroom
          exact channels_joinExisting maxChannels _ h c name (channels_append_new maxChannels m h name hs hroom)
        · exact hs
      · exact channels_joinExisting maxChannels m h c name hs

theorem channels_leaveChannel (maxChannels : Int) (m : ChannelManager) (h : Heap)
    (client : Option ClientId) (name : Str) (hs : WithinChannels maxChannels (m, h)) :
    WithinChannels maxChannels (m.leaveChannel h client name).2 := by
  cases client with
  | none => exact hs
  | some c =>
    rw [ChannelManager.leaveChannel_eq]
    split
    · exact hs
    · obtain ⟨hmax, hlen⟩ := hs
      refine ⟨hmax, ?_⟩
      simpa [UMap.modify] using hlen

theorem channels_leaveAll (maxChannels : Int) (c : ClientId) (names : List Str) :
    ∀ s : ChannelManager × Heap, WithinChannels maxChannels s →
      WithinChannels maxChannels (ChannelManager.leaveAll c names s) := by
  induction names with
  | nil => intro s hs; exact hs
  | cons name rest ih =>
    intro s hs
    exact ih _ (channels_leaveChannel maxChannels s.1 s.2 (some c) name hs)

theorem channels_run (maxChannels : Int) (ops : List ChannelOp) :
    ∀ s : ChannelManager × Heap, WithinChannels maxChannels s →
      WithinChannels maxChannels (runChannelOps ops s) := by
  induction ops with
  | nil => intro s hs; exact hs
  | cons op rest ih =>
    intro s hs
    apply ih
    cases op with
    | createChannel name => exact channels_createChannel maxChannels s.1 s.2 name hs
    | removeChannel name => exact channels_removeChannel maxChannels s.1 s.2 name hs
    | joinChannel client name => exact channels_joinChannel maxChannels s.1 s.2 client name hs
    | leaveChannel client name => exact channels_leaveChannel maxChannels s.1 s.2 client name hs
    | removeClientFromAllChannels client =>
      cases client with
      | none => exact hs
      | some c => exact channels_leaveAll maxChannels c _ (s.1, s.2) hs

end WithinChannels

/-- C14. For every capacity `maxClients ≥ 0` (an `int`), whatever callbacks are
installed: from an empty Client Registry, after every finite sequence of
`addClient`, `removeClient` and `updateClientNickname` calls, the number of
registered Connections is at most `maxClients`. -/
theorem client_count_le_max {W : Type} (maxClients : Int) (h0 : 0 ≤ maxClients)
    (h1 : maxClients ≤ 2147483647)
    (onAdded onRemoved : Option (ClientId → Heap × W → Heap × W))
    (heap : Heap) (w : W) (ops : List ClientOp) :
    ((runClientOps ops
      (((ClientManager.new maxClients).setOnClientAddedCallback
          onAdded).setOnClientRemovedCallback onRemoved, heap, w)).1.clients_.length : Int)
      ≤ maxClients :=
  (WithinClients.clients_run maxClients h0 h1 ops _ ⟨rfl, by simpa [ClientManager.new,
    ClientManager.setOnClientAddedCallback, ClientManager.setOnClientRemovedCallback]
    using h0⟩).2

/-- A registry for one Connection that is asked to register two. -/
theorem client_count_le_max_witness :
    ((runClientOps [.addClient (some 0), .addClient (some 1)]
      (((ClientManager.new 1 : ClientManager Unit).setOnClientAddedCallback
          none).setOnClientRemovedCallback none, freshHeap, ())).1.clients_.length : Int) ≤ 1 :=
  client_count_le_max 1 (by decide) (by decide) none none freshHeap ()
    [.addClient (some 0), .addClient (some 1)]

/-- C15. For every capacity `maxChannels ≥ 0`: from an empty Channel Registry,
after every finite sequence of `createChannel`, `removeChannel`, `joinChannel`,
`leaveChannel` and `removeClientFromAllChannels` calls, the number of channels
is at most `maxChannels`, and every key of the registry is the name stored in
the Channel it maps to. -/
theorem channel_count_le_max (maxChannels : Int) (h0 : 0 ≤ maxChannels) (heap : Heap)
    (ops : List ChannelOp) :
    ((runChannelOps ops (ChannelManager.new maxChannels, heap)).1.channels_.length : Int)
      ≤ maxChannels ∧
    (∀ key ch, (key, ch) ∈ (runChannelOps ops (ChannelManager.new maxChannels, heap)).1.channels_ →
      key = ch.name_) ∧
    (∀ key ch, UMap.find (runChannelOps ops (ChannelManager.new maxChannels, heap)).1.channels_ key
      = some ch → key = ch.name_) := by
  have hkeys := MembersJoined.of_run ops _ (MembersJoined.of_empty maxChannels heap)
  refine ⟨(WithinChannels.channels_run maxChannels ops _
    ⟨rfl, by simpa [ChannelManager.new] using h0⟩).2, ?_, ?_⟩
  · intro key ch hmem
    exact (hkeys (key, ch) hmem).1
  · intro key ch hfind
    exact (hkeys (key, ch) (UMap.find_mem _ _ _ hfind)).1

/-- A registry for one channel in which two channels are asked for. -/
theorem channel_count_le_max_witness :
    ((runChannelOps [.createChannel "#a".toList, .joinChannel (some 0) "#b".toList]
      (ChannelManager.new 1, freshHeap)).1.channels_.length : Int) ≤ 1 :=
  (channel_count_le_max 1 (by decide) freshHeap
    [.createChannel "#a".toList, .joinChannel (some 0) "#b".toList]).1

/-! ## Valid names -/

theorem isprint_and_not_isspace (c : Char) :
    (isprint c && !isspace c) = true ↔ 33 ≤ c.toNat ∧ c.toNat ≤ 126 := by
  simp only [isprint, isspace, Bool.and_eq_true, Bool.not_eq_true', Bool.or_eq_false_iff,
    decide_eq_true_eq, decide_eq_false_iff_not, Bool.and_eq_false_imp]
  omega

theorem isalnum_or_underscore (c : Char) :
    (isalnum c || c == '_') = true ↔
      (48 ≤ c.toNat ∧ c.toNat ≤ 57) ∨ (65 ≤ c.toNat ∧ c.toNat ≤ 90)
        ∨ (97 ≤ c.toNat ∧ c.toNat ≤ 122) ∨ c = '_' := by
  simp only [isalnum, Bool.or_eq_true, Bool.and_eq_true, decide_eq_true_eq, beq_iff_eq]
  tauto

theorem isValidChannelName_iff (s : Str) :
    ChannelManager.isValidChannelName s = true ↔
      s ≠ [] ∧ s.length ≤ 50 ∧ s.head? = some '#' ∧ ' ' ∉ s ∧ ',' ∉ s ∧
        ∀ c ∈ s.tail, 33 ≤ c.toNat ∧ c.toNat ≤ 126 := by
  unfold ChannelManager.isValidChannelName
  by_cases h1 : s = []
  · simp [h1]
  · by_cases h2 : s.length > 50
    · have : ¬ s.length ≤ 50 := by omega
      simp [h2, this]
    · have h2' : s.length ≤ 50 := by omega
      by_cases h3 : ' ' ∈ s
      · simp [h3]
      · by_cases h4 : ',' ∈ s
        · simp [h4]
        · by_cases h5 : s.head? = some '#'
          · have he : s.isEmpty = false := by cases s <;> simp_all
            simp only [he, h1, h2, decide_False, Bool.or_self, Bool.false_eq_true,
              if_false, h3, h4, h5, ne_eq, not_true_eq_false, List.all_eq_true,
              isprint_and_not_isspace, not_false_eq_true, h2', true_and]
          · simp [h1, h2, h3, h4, h5]

theorem isValidNickname_iff (s : Str) :
    ClientManager.isValidNickname s = true ↔
      s ≠ [] ∧ s.length ≤ 32 ∧
        ∀ c ∈ s, (48 ≤ c.toNat ∧ c.toNat ≤ 57) ∨ (65 ≤ c.toNat ∧ c.toNat ≤ 90)
          ∨ (97 ≤ c.toNat ∧ c.toNat ≤ 122) ∨ c = '_' := by
  unfold ClientManager.isValidNickname
  by_cases h1 : s = []
  · simp [h1]
  · by_cases h2 : s.length > 32
    · have : ¬ s.length ≤ 32 := by omega
      simp [h2, this]
    · have h2' : s.length ≤ 32 := by omega
      have he : s.isEmpty = false := by cases s <;> simp_all
      simp only [he, h1, h2, decide_False, Bool.or_self, Bool.false_eq_true,
        if_false, List.all_eq_true, isalnum_or_underscore, ne_eq, not_false_eq_true, h2',
        true_and]

/-- C16. `isValidChannelName` is true exactly for the strings that are not
empty, have at most 50 characters, start with `#`, contain no space and no
comma, and whose characters after the first all have a code from 33 to 126
(printable and not white space). So `#` is valid, and the empty string, `abc`,
`#a b`, `#a,b` and every name of 51 characters are not. -/
theorem isValidChannelName_spec :
    (∀ s : Str, ChannelManager.isValidChannelName s = true ↔
      s ≠ [] ∧ s.length ≤ 50 ∧ s.head? = some '#' ∧ ' ' ∉ s ∧ ',' ∉ s ∧
        ∀ c ∈ s.tail, 33 ≤ c.toNat ∧ c.toNat ≤ 126) ∧
    (∀ c : Char, (isprint c = true ∧ isspace c = false) ↔ 33 ≤ c.toNat ∧ c.toNat ≤ 126) ∧
    ChannelManager.isValidChannelName "#".toList = true ∧
    ChannelManager.isValidChannelName "".toList = false ∧
    ChannelManager.isValidChannelName "abc".toList = false ∧
    ChannelManager.isValidChannelName "#a b".toList = false ∧
    ChannelManager.isValidChannelName "#a,b".toList = false ∧
    (∀ s : Str, s.length = 51 → ChannelManager.isValidChannelName s = false) := by
  refine ⟨isValidChannelName_iff, ?_, by decide, by decide, by decide, by decide, by decide, ?_⟩
  · intro c
    have := isprint_and_not_isspace c
    simpa [Bool.and_eq_true] using this
  · intro s hs
    cases hv : ChannelManager.isValidChannelName s with
    | false => rfl
    | true =>
      have := ((isValidChannelName_iff s).1 hv).2.1
      omega

/-- C17. `isValidNickname` is true exactly for the strings that are not empty,
have at most 32 characters and consist of ASCII digits (codes 48 to 57), ASCII
letters (65 to 90 and 97 to 122) and `_`. So `__` is valid, and the empty
string, `x y` and every string of 33 characters are not. -/
theorem isValidNickname_spec :
    (∀ s : Str, ClientManager.isValidNickname s = true ↔
      s ≠ [] ∧ s.length ≤ 32 ∧
        ∀ c ∈ s, (48 ≤ c.toNat ∧ c.toNat ≤ 57) ∨ (65 ≤ c.toNat ∧ c.toNat ≤ 90)
          ∨ (97 ≤ c.toNat ∧ c.toNat ≤ 122) ∨ c = '_') ∧
    ClientManager.isValidNickname "__".toList = true ∧
    ClientManager.isValidNickname "".toList = false ∧
    ClientManager.isValidNickname "x y".toList = false ∧
    (∀ s : Str, s.length = 33 → ClientManager.isValidNickname s = false) := by
  refine ⟨isValidNickname_iff, by decide, by decide, by decide, ?_⟩
  intro s hs
  cases hv : ClientManager.isValidNickname s with
  | false => rfl
  | true =>
    have := ((isValidNickname_iff s).1 hv).2.1
    omega

/-! ## Lines made of words -/

namespace MessageManager

theorem readArgs_word (t : Str) (ht : ∀ ch ∈ t, isspace ch = false) :
    ∀ (rest cur : Str), readArgs (t ++ rest) cur = readArgs rest (cur ++ t) := by
  induction t with
  | nil => intro rest cur; simp
  | cons ch t ih =>
    intro rest cur
    have hch : isspace ch = false := ht ch (List.mem_cons_self _ _)
    have ht' : ∀ x ∈ t, isspace x = false := fun x hx => ht x (List.mem_cons_of_mem _ hx)
    simp only [List.cons_append, readArgs, hch, Bool.false_eq_true, if_false]
    show readArgs (t ++ rest) (cur ++ [ch]) = readArgs rest (cur ++ ch :: t)
    rw [ih ht']
    simp

theorem isspace_space : isspace ' ' = true := by decide

theorem parse_joinWords (toks : List Str) (htok : ∀ t ∈ toks, IsToken t) :
    parseCommandArgs (joinWords toks) = toks := by
  unfold parseCommandArgs
  induction toks with
  | nil => simp [joinWords, readArgs]
  | cons w rest ih =>
    have hw : IsToken w := htok w (List.mem_cons_self _ _)
    have hrest : ∀ t ∈ rest, IsToken t := fun t ht => htok t (List.mem_cons_of_mem _ ht)
    have hempty : w.isEmpty = false := by
      cases w with
      | nil => exact absurd rfl hw.1
      | cons a b => rfl
    cases rest with
    | nil =>
      have h := readArgs_word w hw.2 [] []
      simp only [List.append_nil, List.nil_append] at h
      simp [joinWords, h, readArgs, hempty]
    | cons w2 rest2 =>
      have h := readArgs_word w hw.2 (' ' :: joinWords (w2 :: rest2)) []
      simp only [List.nil_append] at h
      simp only [joinWords, h, readArgs, isspace_space, if_true, hempty, Bool.false_eq_true,
        if_false]
      rw [ih hrest]

theorem joinWords_ne_nil (w : Str) (rest : List Str) (hw : w ≠ []) : joinWords (w :: rest) ≠ [] := by
  cases rest with
  | nil => simpa [joinWords] using hw
  | cons w2 rest2 => simp [joinWords, hw]

theorem head_joinWords (w : Str) (rest : List Str) (hw : w ≠ []) :
    (joinWords (w :: rest)).head? = w.head? := by
  cases w with
  | nil => exact absurd rfl hw
  | cons a b =>
    cases rest with
    | nil => simp [joinWords]
    | cons w2 rest2 => simp [joinWords]

theorem getLast_joinWords (toks : List Str) (htok : ∀ t ∈ toks, IsToken t) (hne : toks ≠ []) :
    ∃ ch, (joinWords toks).getLast? = some ch ∧ isspace ch = false := by
  induction toks with
  | nil => exact absurd rfl hne
  | cons w rest ih =>
    have hw : IsToken w := htok w (List.mem_cons_self _ _)
    have hrest : ∀ t ∈ rest, IsToken t := fun t ht => htok t (List.mem_cons_of_mem _ ht)
    cases rest with
    | nil =>
      simp only [joinWords]
      have hlast : w.getLast? = some (w.getLast hw.1) := List.getLast?_eq_getLast _ hw.1
      exact ⟨w.getLast hw.1, hlast, hw.2 _ (List.getLast_mem hw.1)⟩
    | cons w2 rest2 =>
      obtain ⟨ch, hch, hsp⟩ := ih hrest (by simp)
      refine ⟨ch, ?_, hsp⟩
      have hne2 : joinWords (w2 :: rest2) ≠ [] := joinWords_ne_nil w2 rest2 (hrest w2 (by simp)).1
      simp only [joinWords]
      rw [List.getLast?_append_of_ne_nil _ (by simp)]
      obtain ⟨a, b, hJ⟩ := List.exists_cons_of_ne_nil hne2
      rw [hJ] at hch ⊢
      rw [List.getLast?_cons_cons]
      exact hch

end MessageManager

/-! ## Dispatch of a command line -/

namespace MessageManager

theorem isEmpty_eq_false {α : Type} (l : List α) (h : l ≠ []) : l.isEmpty = false := by
  cases l with
  | nil => exact absurd rfl h
  | cons a b => rfl

/-- `handleMessage` on a line made of the words `first :: args`, the first of
which starts with a slash: the statistics are updated and the handler of the
command, if it has one, gets the other words. -/
theorem handleMessage_command (s : Sys) (c : ClientId) (first : Str) (args : List Str)
    (htok : ∀ t ∈ first :: args, IsToken t) (hslash : first.head? = some '/') :
    handleMessage s (some c) (joinWords (first :: args)) =
      match setupDefaultCommands (first.drop 1) with
      | some handler => handler (s.received (joinWords (first :: args))).commandSeen c args
      | none =>
        sendServerMessage (s.received (joinWords (first :: args))).commandSeen (some c)
          ("Unknown command: ".toList ++ first.drop 1) := by
  have hfirst : first ≠ [] := (htok first (List.mem_cons_self _ _)).1
  have hne : joinWords (first :: args) ≠ [] := joinWords_ne_nil first args hfirst
  have hhead : (joinWords (first :: args)).head? = some '/' := by
    rw [head_joinWords first args hfirst]; exact hslash
  have hlast : ¬ (joinWords (first :: args)).getLast? = some '\r' := by
    obtain ⟨ch, hch, hsp⟩ := getLast_joinWords (first :: args) htok (by simp)
    intro h
    rw [hch] at h
    have : ch = '\r' := by simpa using h
    rw [this] at hsp
    exact absurd hsp (by decide)
  have hparse := parse_joinWords (first :: args) htok
  unfold handleMessage
  simp only [hlast, if_false, isEmpty_eq_false _ hne, Bool.false_eq_true, hhead, if_true]
  unfold handleCommand
  simp only [isEmpty_eq_false _ hne, Bool.false_eq_true, if_false, hparse]
  rfl

theorem sendServerMessage_clientManager (s : Sys) (c : ClientId) (msg : Str) :
    (sendServerMessage s (some c) msg).clientManager_ = s.clientManager_ := rfl

theorem sendServerMessage_channelManager (s : Sys) (c : ClientId) (msg : Str) :
    (sendServerMessage s (some c) msg).channelManager_ = s.channelManager_ := rfl

/-- The line that `sendServerMessage` puts on the queue. -/
theorem sendServerMessage_heap (s : Sys) (c : ClientId) (msg : Str) :
    (sendServerMessage s (some c) msg).heap =
      s.heap.call c (fun cl => cl.pushMessageToQueue
        (if ("*** ".toList ++ msg).getLast? ≠ some '\n' then "*** ".toList ++ msg ++ ['\n']
         else "*** ".toList ++ msg)) := rfl

theorem sendServerMessage_line (msg : Str) :
    ∃ text : Str,
      (if ("*** ".toList ++ msg).getLast? ≠ some '\n' then "*** ".toList ++ msg ++ ['\n']
       else "*** ".toList ++ msg) = "*** ".toList ++ text ++ ['\n'] := by
  by_cases h : ("*** ".toList ++ msg).getLast? ≠ some '\n'
  · exact ⟨msg, by rw [if_pos h]⟩
  · have h' : ("*** ".toList ++ msg).getLast? = some '\n' := not_not.mp h
    have hmsg : msg ≠ [] := by
      intro he
      rw [he] at h'
      exact absurd h' (by decide)
    rw [List.getLast?_append_of_ne_nil _ hmsg] at h'
    refine ⟨msg.dropLast, ?_⟩
    rw [if_neg h]
    have : msg = msg.dropLast ++ ['\n'] :=
      (List.dropLast_append_getLast? '\n' (Option.mem_def.mpr h')).symm
    rw [List.append_assoc, ← this]

end MessageManager

theorem IsReply.serverReply (s s' : Sys) (c : ClientId) (h : IsReply s s' c) :
    ServerReply s s' c := by
  obtain ⟨s0, msg, hcm, hch, hheap, rfl⟩ := h
  obtain ⟨text, htext⟩ := MessageManager.sendServerMessage_line msg
  refine ⟨hcm, hch, ?_, ?_, ?_, ?_, text, ?_⟩
  · intro d hd
    rw [MessageManager.sendServerMessage_heap, hheap]
    simp [Heap.call, Function.update_noteq hd]
  · rw [MessageManager.sendServerMessage_heap, hheap]
    simp [Heap.call, Client.pushMessageToQueue]
  · rw [MessageManager.sendServerMessage_heap, hheap]
    simp [Heap.call, Client.pushMessageToQueue]
  · rw [MessageManager.sendServerMessage_heap, hheap]
    simp [Heap.call, Client.pushMessageToQueue]
  · rw [MessageManager.sendServerMessage_heap, hheap]
    simp only [Heap.call, Function.update_same, Client.pushMessageToQueue]
    rw [htext]

/-! ## The command `/nick` -/

theorem IsReply.of_agree (s t s' : Sys) (c : ClientId)
    (hcm : s.clientManager_ = t.clientManager_) (hch : s.channelManager_ = t.channelManager_)
    (hheap : s.heap = t.heap) (h : IsReply s s' c) : IsReply t s' c := by
  obtain ⟨s0, msg, h1, h2, h3, h4⟩ := h
  exact ⟨s0, msg, h1.trans hcm, h2.trans hch, h3.trans hheap, h4⟩

theorem IsReply.of_send (s : Sys) (c : ClientId) (msg : Str) :
    IsReply s (MessageManager.sendServerMessage s (some c) msg) c :=
  ⟨s, msg, rfl, rfl, rfl, rfl⟩

/-- A reply to a command: the handler saw the state with updated statistics. -/
theorem IsReply.of_command (s : Sys) (line : Str) (s' : Sys) (c : ClientId)
    (h : IsReply (s.received line).commandSeen s' c) : IsReply s s' c :=
  IsReply.of_agree _ s s' c rfl rfl rfl h

namespace MessageManager

theorem setup_nick : setupDefaultCommands "nick".toList = some handleNickCommand := rfl

/-- `/nick X` when `X` is not valid or is a key of the index: a reply, nothing else. -/
theorem handleNickCommand_refused (s : Sys) (c : ClientId) (X : Str) (rest : List Str)
    (h : ¬ (ClientManager.isValidNickname X = true
      ∧ UMap.find s.clientManager_.nicknameToClient_ X = none)) :
    IsReply s (handleNickCommand s c (X :: rest)) c := by
  unfold handleNickCommand
  simp only
  split
  · exact IsReply.of_send s c _
  · rw [ClientManager.updateClientNickname_eq, if_neg h]
    exact IsReply.of_send s c _

/-- `/nick X` when `X` is valid and not a key of the index. -/
theorem handleNickCommand_ok (s : Sys) (c : ClientId) (X : Str) (rest : List Str)
    (hv : ClientManager.isValidNickname X = true)
    (hf : UMap.find s.clientManager_.nicknameToClient_ X = none) :
    handleNickCommand s c (X :: rest) =
      (sendServerMessage (s.renamed c X) (some c)
        ("Nickname switched to '".toList ++ X ++ "'".toList)).withHeap
        ((s.renamed c X).clientManager_.broadcastMessage
          (sendServerMessage (s.renamed c X) (some c)
            ("Nickname switched to '".toList ++ X ++ "'".toList)).heap
          ("User '".toList ++ (s.heap c).nickname_ ++ "' is now known as '".toList ++ X
            ++ "'".toList) none) := by
  unfold handleNickCommand
  simp only [ClientManager.clientExistsByNickname, hf, Option.isSome_none, Bool.false_and,
    Bool.false_eq_true, if_false]
  rw [ClientManager.updateClientNickname_eq, if_pos ⟨hv, hf⟩]
  rfl

/-- After `/nick X` the nickname `X` cannot be taken: it is not valid, or it is
a key of the index. -/
theorem handleNickCommand_taken (s : Sys) (c : ClientId) (X : Str) (rest : List Str) :
    ¬ (ClientManager.isValidNickname X = true ∧
      UMap.find (handleNickCommand s c (X :: rest)).clientManager_.nicknameToClient_ X = none) := by
  by_cases hok : ClientManager.isValidNickname X = true
      ∧ UMap.find s.clientManager_.nicknameToClient_ X = none
  · rw [handleNickCommand_ok s c X rest hok.1 hok.2]
    intro h
    have h2 : UMap.find (UMap.set (UMap.erase s.clientManager_.nicknameToClient_
        (s.heap c).nickname_) X c) X = none := h.2
    rw [UMap.find_set_self] at h2
    exact Option.noConfusion h2
  · obtain ⟨s0, msg, hcm, _, _, heq⟩ := handleNickCommand_refused s c X rest hok
    rw [heq, sendServerMessage_clientManager, hcm]
    exact hok

/-- The second of two `/nick X` in a row is answered by a reply, nothing else. -/
theorem nick_twice_reply (s : Sys) (c : ClientId) (X : Str) (hX : IsToken X) :
    IsReply (handleMessage s (some c) (joinWords ["/nick".toList, X]))
      (handleMessage (handleMessage s (some c) (joinWords ["/nick".toList, X])) (some c)
        (joinWords ["/nick".toList, X])) c := by
  have htok : ∀ t ∈ ["/nick".toList, X], IsToken t := by
    intro t ht
    simp only [List.mem_cons, List.mem_singleton, List.not_mem_nil, or_false] at ht
    rcases ht with rfl | rfl
    · exact ⟨by decide, by decide⟩
    · exact hX
  have hcmd : ∀ t : Sys, handleMessage t (some c) (joinWords ["/nick".toList, X]) =
      handleNickCommand (t.received (joinWords ["/nick".toList, X])).commandSeen c [X] := by
    intro t
    rw [handleMessage_command t c "/nick".toList [X] htok rfl]
    rfl
  rw [hcmd (handleMessage s (some c) (joinWords ["/nick".toList, X])), hcmd s]
  apply IsReply.of_command
  apply handleNickCommand_refused
  exact handleNickCommand_taken _ c X []

end MessageManager

/-- C13. When the Router handles the line `/nick X` twice in succession for a
Connection, whatever the state and the word `X`: after the second handling
the Client Registry (its client set and its nickname index) and the nickname
of every Connection are what they were after the first; the second handling
only puts one server message on the Connection's queue. -/
theorem nick_twice (s : Sys) (c : ClientId) (X : Str) (hX : IsToken X) :
    (MessageManager.handleMessage
      (MessageManager.handleMessage s (some c) (MessageManager.joinWords ["/nick".toList, X]))
      (some c) (MessageManager.joinWords ["/nick".toList, X])).clientManager_.clients_
      = (MessageManager.handleMessage s (some c)
          (MessageManager.joinWords ["/nick".toList, X])).clientManager_.clients_ ∧
    (MessageManager.handleMessage
      (MessageManager.handleMessage s (some c) (MessageManager.joinWords ["/nick".toList, X]))
      (some c) (MessageManager.joinWords ["/nick".toList, X])).clientManager_.nicknameToClient_
      = (MessageManager.handleMessage s (some c)
          (MessageManager.joinWords ["/nick".toList, X])).clientManager_.nicknameToClient_ ∧
    (∀ d, ((MessageManager.handleMessage
      (MessageManager.handleMessage s (some c) (MessageManager.joinWords ["/nick".toList, X]))
      (some c) (MessageManager.joinWords ["/nick".toList, X])).heap d).nickname_
      = ((MessageManager.handleMessage s (some c)
          (MessageManager.joinWords ["/nick".toList, X])).heap d).nickname_) ∧
    ServerReply
      (MessageManager.handleMessage s (some c) (MessageManager.joinWords ["/nick".toList, X]))
      (MessageManager.handleMessage
        (MessageManager.handleMessage s (some c) (MessageManager.joinWords ["/nick".toList, X]))
        (some c) (MessageManager.joinWords ["/nick".toList, X])) c := by
  have hr := IsReply.serverReply _ _ c (MessageManager.nick_twice_reply s c X hX)
  refine ⟨by rw [hr.1], by rw [hr.1], ?_, hr⟩
  intro d
  by_cases hd : d = c
  · subst hd
    exact hr.2.2.2.1
  · rw [hr.2.2.1 d hd]

/-- The registered Connection `0` sends `/nick bob` twice: the first line
renames it, and the state after the second has the registry of the first. -/
theorem nick_twice_witness :
    MessageManager.joinWords ["/nick".toList, "bob".toList] = "/nick bob".toList ∧
    ((MessageManager.handleMessage oneSession (some 0) "/nick bob".toList).heap 0).nickname_
      = "bob".toList ∧
    (MessageManager.handleMessage
      (MessageManager.handleMessage oneSession (some 0)
        (MessageManager.joinWords ["/nick".toList, "bob".toList]))
      (some 0) (MessageManager.joinWords ["/nick".toList, "bob".toList])).clientManager_.nicknameToClient_
      = (MessageManager.handleMessage oneSession (some 0)
          (MessageManager.joinWords ["/nick".toList, "bob".toList])).clientManager_.nicknameToClient_ :=
  ⟨by decide, by decide,
    (nick_twice oneSession 0 "bob".toList ⟨by decide, by decide⟩).2.1⟩

/-! ## Messages to a channel -/

theorem mem_sortStrings (v : List Str) (x : Str) : x ∈ sortStrings v ↔ x ∈ v :=
  (List.perm_insertionSort _ v).mem_iff

/-- Pushing `line` to each Connection of a list in turn: a Connection receives
it as many times as it occurs in the list. -/
theorem push_each (line : Str) (members : List ClientId) :
    ∀ (h : Heap) (d : ClientId),
      (members.foldl (fun h member => h.call member (fun c => c.pushMessageToQueue line)) h) d =
        { h d with output_queue_ := (h d).output_queue_ ++ List.replicate (members.count d) line } := by
  induction members with
  | nil => intro h d; simp
  | cons m rest ih =>
    intro h d
    rw [List.foldl_cons, ih]
    by_cases hm : m = d
    · subst hm
      simp [Heap.call, Client.pushMessageToQueue, List.replicate_succ]
    · have hm' : ¬ d = m := fun e => hm e.symm
      have hcount : List.count d (m :: rest) = List.count d rest := by
        rw [List.count_cons]; simp [hm]
      simp [Heap.call, Function.update_noteq hm', hcount]

theorem broadcastMessage_member (ch : Channel) (message : Str) (h : Heap) (d : ClientId)
    (hset : ch.members_.Nodup) (hd : d ∈ ch.members_) :
    (ch.broadcastMessage message h) d =
      { h d with output_queue_ := (h d).output_queue_ ++ [message ++ ['\n']] } := by
  unfold Channel.broadcastMessage
  rw [push_each, List.count_eq_one_of_mem hset hd]
  rfl

theorem broadcastMessage_other (ch : Channel) (message : Str) (h : Heap) (d : ClientId)
    (hd : d ∉ ch.members_) : (ch.broadcastMessage message h) d = h d := by
  unfold Channel.broadcastMessage
  rw [push_each, List.count_eq_zero_of_not_mem hd]
  simp

namespace MessageManager

theorem channelExists_of_find (m : ChannelManager) (name : Str) (ch : Channel)
    (h : UMap.find m.channels_ name = some ch) : m.channelExists name = true := by
  simp [ChannelManager.channelExists, UMap.count, h]

theorem channelExists_of_find_none (m : ChannelManager) (name : Str)
    (h : UMap.find m.channels_ name = none) : m.channelExists name = false := by
  simp [ChannelManager.channelExists, UMap.count, h]

/-- `sendChannelMessage` to a channel that exists and is in the sender's
joined-channel set. -/
theorem sendChannelMessage_ok (s : Sys) (c : ClientId) (name message : Str) (ch : Channel)
    (hexists : UMap.find s.channelManager_.channels_ name = some ch)
    (hjoined : name ∈ (s.heap c).joined_channels_) :
    (sendChannelMessage s (some c) name message).heap =
      ch.broadcastMessage
        ("<".toList ++ (s.heap c).nickname_ ++ "@".toList ++ name ++ "> ".toList ++ message)
        s.heap := by
  unfold sendChannelMessage
  have hin : name ∈ ChannelManager.getClientChannels s.heap (some c) := by
    simp only [ChannelManager.getClientChannels]
    exact (mem_sortStrings _ _).2 hjoined
  simp only [channelExists_of_find _ _ _ hexists, Bool.not_true, Bool.false_eq_true, if_false,
    hin, decide_True]
  simp only [ChannelManager.broadcastToChannel, Sys.countSent, hexists]

/-- `handleMessage` on a line that is not a command. -/
theorem handleMessage_text (s : Sys) (c : ClientId) (t : Str)
    (ht : t ≠ []) (hslash : t.head? ≠ some '/') (hcr : t.getLast? ≠ some '\r') :
    handleMessage s (some c) t =
      if (s.heap c).active_channel_ ≠ [] then
        sendChannelMessage (s.received t) (some c) (s.heap c).active_channel_ t
      else
        sendServerMessage (s.received t) (some c)
          "You are not in any channel. Join one with /join <#channel> or send a private message with /msg <user> <message>.".toList := by
  unfold handleMessage
  simp only [hcr, if_false, isEmpty_eq_false _ ht, Bool.false_eq_true, hslash]
  by_cases ha : (s.heap c).active_channel_ = []
  · simp [ha, Sys.received]
  · simp [ha, isEmpty_eq_false _ ha, Sys.received]

end MessageManager

/-- C18. A Connection `c` with nickname `n` has a non-empty active channel
that exists, lists `c` as a member and is in the joined-channel set of `c`
(membership as both sides record it), and `t` is a non-empty line that does not
start with `/` and does not end with a carriage return. Then
`handleMessage(c, t)` appends exactly one string, `<n@channel> t` followed by
one newline, to the outbound queue of every member of the channel, `c`
included, and leaves every Connection that is not a member as it was. -/
theorem channel_message (s : Sys) (c : ClientId) (t : Str) (ch : Channel)
    (ht : t ≠ []) (hslash : t.head? ≠ some '/') (hcr : t.getLast? ≠ some '\r')
    (hactive : (s.heap c).active_channel_ ≠ [])
    (hexists : UMap.find s.channelManager_.channels_ (s.heap c).active_channel_ = some ch)
    (hmember : c ∈ ch.members_)
    (hjoined : (s.heap c).active_channel_ ∈ (s.heap c).joined_channels_)
    (hset : ch.members_.Nodup) :
    (∀ d ∈ ch.members_,
      ((MessageManager.handleMessage s (some c) t).heap d).output_queue_ =
        (s.heap d).output_queue_ ++
          ["<".toList ++ (s.heap c).nickname_ ++ "@".toList ++ (s.heap c).active_channel_
            ++ "> ".toList ++ t ++ ['\n']]) ∧
    ((MessageManager.handleMessage s (some c) t).heap c).output_queue_ =
      (s.heap c).output_queue_ ++
        ["<".toList ++ (s.heap c).nickname_ ++ "@".toList ++ (s.heap c).active_channel_
          ++ "> ".toList ++ t ++ ['\n']] ∧
    (∀ d, d ∉ ch.members_ → (MessageManager.handleMessage s (some c) t).heap d = s.heap d) := by
  have hheap : (MessageManager.handleMessage s (some c) t).heap =
      ch.broadcastMessage
        ("<".toList ++ (s.heap c).nickname_ ++ "@".toList ++ (s.heap c).active_channel_
          ++ "> ".toList ++ t) s.heap := by
    rw [MessageManager.handleMessage_text s c t ht hslash hcr, if_pos hactive]
    exact MessageManager.sendChannelMessage_ok (s.received t) c _ t ch hexists hjoined
  have hmem : ∀ d ∈ ch.members_,
      ((MessageManager.handleMessage s (some c) t).heap d).output_queue_ =
        (s.heap d).output_queue_ ++
          ["<".toList ++ (s.heap c).nickname_ ++ "@".toList ++ (s.heap c).active_channel_
            ++ "> ".toList ++ t ++ ['\n']] := by
    intro d hd
    rw [hheap, broadcastMessage_member ch _ s.heap d hset hd]
  refine ⟨hmem, hmem c hmember, ?_⟩
  intro d hd
  rw [hheap, broadcastMessage_other ch _ s.heap d hd]

set_option maxRecDepth 100000 in
/-- Two members of `#room`: a line of the first reaches the second. -/
theorem channel_message_witness :
    (twoInRoom.heap 0).active_channel_ = "#room".toList ∧
    (twoInRoom.heap 0).nickname_ = "guest4".toList ∧
    UMap.find twoInRoom.channelManager_.channels_ "#room".toList
      = some { name_ := "#room".toList, members_ := [0, 1] } ∧
    ((MessageManager.handleMessage twoInRoom (some 0) "hello".toList).heap 1).output_queue_ =
      (twoInRoom.heap 1).output_queue_ ++
        ["<".toList ++ (twoInRoom.heap 0).nickname_ ++ "@".toList
          ++ (twoInRoom.heap 0).active_channel_ ++ "> ".toList ++ "hello".toList ++ ['\n']] :=
  ⟨by decide, by decide, by decide,
    (channel_message twoInRoom 0 "hello".toList { name_ := "#room".toList, members_ := [0, 1] }
      (by decide) (by decide) (by decide) (by decide) (by decide) (by decide) (by decide)
      (by decide)).1 1 (by decide)⟩

/-! ## Private messages -/

namespace MessageManager

theorem setup_msg : setupDefaultCommands "msg".toList = some handlePrivmsgCommand := rfl

theorem sendMessageToClient_line (h : Heap) (r : ClientId) (message : Str)
    (hlast : message.getLast? ≠ some '\n') :
    ClientManager.sendMessageToClient h (some r) message =
      h.call r (fun cl => cl.pushMessageToQueue (message ++ ['\n'])) := by
  unfold ClientManager.sendMessageToClient
  simp only [hlast, ne_eq, not_false_eq_true, if_true]

/-- A text that ends with the words `ws` does not end with a newline. -/
theorem getLast_words (pre : Str) (ws : List Str) (hws : ∀ w ∈ ws, IsToken w) (hne : ws ≠ []) :
    (pre ++ joinWords ws).getLast? ≠ some '\n' := by
  obtain ⟨ch, hch, hsp⟩ := getLast_joinWords ws hws hne
  have hnil : joinWords ws ≠ [] := by
    intro h
    rw [h] at hch
    exact Option.noConfusion hch
  rw [List.getLast?_append_of_ne_nil _ hnil, hch]
  intro h
  have : ch = '\n' := by simpa using h
  rw [this] at hsp
  exact absurd hsp (by decide)

/-- `sendPrivateMessage` to a nickname that the index maps to `r`. -/
theorem sendPrivateMessage_ok (s : Sys) (c r : ClientId) (b : Str) (ws : List Str)
    (hws : ∀ w ∈ ws, IsToken w) (hne : ws ≠ [])
    (hindex : s.clientManager_.getClientByNickname b = some r) :
    (sendPrivateMessage s (some c) b (joinWords ws)).heap =
      (s.heap.call r (fun cl => cl.pushMessageToQueue
        ("*Private from ".toList ++ (s.heap c).nickname_ ++ ": ".toList ++ joinWords ws
          ++ ['\n']))).call c
        (fun cl => cl.pushMessageToQueue
          ("*Private to ".toList ++ b ++ ": ".toList ++ joinWords ws ++ ['\n'])) := by
  unfold sendPrivateMessage
  simp only [hindex, Sys.countSent]
  rw [sendMessageToClient_line _ r _ (getLast_words _ ws hws hne),
    sendMessageToClient_line _ c _ (getLast_words _ ws hws hne)]

end MessageManager

set_option maxRecDepth 100000 in
/-- C19 (the code at the failing input). On the server `sharedNickname` the
Connections `2`, `1` and `0` are registered; `2` and `1` both have the
nickname `guest5`, which the index maps to `1`, and `0` has the nickname
`guest4`. Connection `0` sends `/msg guest5 hi`: Connection `1` receives
`*Private from guest4: hi`, and Connection `2`, registered under the nickname
`guest5` as well, receives nothing. -/
theorem private_message_misses_namesake :
    sharedNickname.clientManager_.clients_ = [2, 1, 0] ∧
    (sharedNickname.heap 2).nickname_ = "guest5".toList ∧
    (sharedNickname.heap 1).nickname_ = "guest5".toList ∧
    (sharedNickname.heap 0).nickname_ = "guest4".toList ∧
    sharedNickname.clientManager_.getClientByNickname "guest5".toList = some 1 ∧
    ((MessageManager.handleMessage sharedNickname (some 0)
        "/msg guest5 hi".toList).heap 1).output_queue_
      = (sharedNickname.heap 1).output_queue_ ++ ["*Private from guest4: hi\n".toList] ∧
    ((MessageManager.handleMessage sharedNickname (some 0)
        "/msg guest5 hi".toList).heap 2).output_queue_
      = (sharedNickname.heap 2).output_queue_ ∧
    ((MessageManager.handleMessage sharedNickname (some 0)
        "/msg guest5 hi".toList).heap 0).output_queue_
      = (sharedNickname.heap 0).output_queue_ ++ ["*Private to guest5: hi\n".toList] := by
  decide

/-- Private messages through the index. The index maps the nickname `b` to the Connection `r`, another
Connection `c` has the nickname `a`, and `w1 .. wk` is a non-empty list of
words. Handling the line `/msg b w1 ... wk` of `c` appends exactly
`*Private from a: w1 ... wk` plus a newline to the queue of `r` and exactly
`*Private to b: w1 ... wk` plus a newline to the queue of `c`, and leaves
every other Connection as it was. -/
theorem private_message (s : Sys) (c r : ClientId) (b : Str) (ws : List Str)
    (hdist : r ≠ c) (hb : IsToken b) (hhash : b.head? ≠ some '#')
    (hws : ∀ w ∈ ws, IsToken w) (hne : ws ≠ [])
    (hindex : s.clientManager_.getClientByNickname b = some r) :
    ((MessageManager.handleMessage s (some c)
        (MessageManager.joinWords ("/msg".toList :: b :: ws))).heap r).output_queue_ =
      (s.heap r).output_queue_ ++
        ["*Private from ".toList ++ (s.heap c).nickname_ ++ ": ".toList
          ++ MessageManager.joinWords ws ++ ['\n']] ∧
    ((MessageManager.handleMessage s (some c)
        (MessageManager.joinWords ("/msg".toList :: b :: ws))).heap c).output_queue_ =
      (s.heap c).output_queue_ ++
        ["*Private to ".toList ++ b ++ ": ".toList ++ MessageManager.joinWords ws ++ ['\n']] ∧
    (∀ d, d ≠ r → d ≠ c →
      (MessageManager.handleMessage s (some c)
        (MessageManager.joinWords ("/msg".toList :: b :: ws))).heap d = s.heap d) := by
  have htok : ∀ t ∈ "/msg".toList :: b :: ws, IsToken t := by
    intro t ht
    simp only [List.mem_cons] at ht
    rcases ht with rfl | rfl | ht
    · exact ⟨by decide, by decide⟩
    · exact hb
    · exact hws t ht
  obtain ⟨w, rest, hwsEq⟩ := List.exists_cons_of_ne_nil hne
  have hheap : (MessageManager.handleMessage s (some c)
      (MessageManager.joinWords ("/msg".toList :: b :: ws))).heap =
      (s.heap.call r (fun cl => cl.pushMessageToQueue
        ("*Private from ".toList ++ (s.heap c).nickname_ ++ ": ".toList
          ++ MessageManager.joinWords ws ++ ['\n']))).call c
        (fun cl => cl.pushMessageToQueue
          ("*Private to ".toList ++ b ++ ": ".toList ++ MessageManager.joinWords ws ++ ['\n'])) := by
    rw [MessageManager.handleMessage_command s c "/msg".toList (b :: ws) htok rfl]
    have hsetup : MessageManager.setupDefaultCommands ("/msg".toList.drop 1)
        = some MessageManager.handlePrivmsgCommand := rfl
    simp only [hsetup]
    subst hwsEq
    simp only [MessageManager.handlePrivmsgCommand, hhash, if_false]
    exact MessageManager.sendPrivateMessage_ok _ c r b (w :: rest) hws hne hindex
  rw [hheap]
  refine ⟨?_, ?_, ?_⟩
  · simp [Heap.call, Function.update_noteq hdist, Client.pushMessageToQueue]
  · simp [Heap.call, Client.pushMessageToQueue, Function.update_noteq hdist.symm]
  · intro d hd1 hd2
    simp [Heap.call, Function.update_noteq hd1, Function.update_noteq hd2]

set_option maxRecDepth 100000 in
/-- Connection `0` (`guest4`) sends `/msg guest5 hi there` to Connection `1`. -/
theorem private_message_witness :
    MessageManager.joinWords ["/msg".toList, "guest5".toList, "hi".toList, "there".toList]
      = "/msg guest5 hi there".toList ∧
    ((MessageManager.handleMessage twoInRoom (some 0)
        (MessageManager.joinWords
          ("/msg".toList :: "guest5".toList :: ["hi".toList, "there".toList]))).heap 1).output_queue_ =
      (twoInRoom.heap 1).output_queue_ ++
        ["*Private from ".toList ++ (twoInRoom.heap 0).nickname_ ++ ": ".toList
          ++ MessageManager.joinWords ["hi".toList, "there".toList] ++ ['\n']] ∧
    "*Private from ".toList ++ (twoInRoom.heap 0).nickname_ ++ ": ".toList
          ++ MessageManager.joinWords ["hi".toList, "there".toList] ++ ['\n']
      = "*Private from guest4: hi there\n".toList :=
  ⟨by decide,
    (private_message twoInRoom 0 1 "guest5".toList ["hi".toList, "there".toList]
      (by decide) ⟨by decide, by decide⟩ (by decide)
      (by
        intro w hw
        simp only [List.mem_cons, List.mem_singleton, List.not_mem_nil, or_false] at hw
        rcases hw with rfl | rfl
        · exact ⟨by decide, by decide⟩
        · exact ⟨by decide, by decide⟩)
      (by decide) (by decide)).1,
    by decide⟩

/-! ## Errors in the input of a client -/

namespace MessageManager

theorem setup_none (command : Str) (h : command ∉ commandNames) :
    setupDefaultCommands command = none := by
  simp only [commandNames, List.mem_cons, List.mem_singleton, List.not_mem_nil, or_false,
    not_or] at h
  obtain ⟨h1, h2, h3, h4, h5, h6, h7, h8, h9⟩ := h
  simp only [setupDefaultCommands, h1, h2, h3, h4, h5, h6, h7, h8, h9, if_false]

theorem setup_join : setupDefaultCommands "join".toList = some handleJoinCommand := rfl

theorem setup_part : setupDefaultCommands "part".toList = some handlePartCommand := rfl

theorem setup_who : setupDefaultCommands "who".toList = some handleWhoCommand := rfl

theorem isToken_literal (t : Str) (h1 : t ≠ []) (h2 : t.all (fun ch => !isspace ch) = true) :
    IsToken t := by
  refine ⟨h1, ?_⟩
  intro ch hch
  have := List.all_eq_true.mp h2 ch hch
  simpa using this

theorem tokens_cons (first : Str) (args : List Str) (h1 : IsToken first)
    (h2 : ∀ t ∈ args, IsToken t) : ∀ t ∈ first :: args, IsToken t := by
  intro t ht
  rcases List.mem_cons.mp ht with rfl | ht
  · exact h1
  · exact h2 t ht

/-- An unknown command is answered by a reply. -/
theorem reply_unknown (s : Sys) (c : ClientId) (first : Str) (args : List Str)
    (htok : ∀ t ∈ first :: args, IsToken t) (hslash : first.head? = some '/')
    (hname : first.drop 1 ∉ commandNames) :
    IsReply s (handleMessage s (some c) (joinWords (first :: args))) c := by
  rw [handleMessage_command s c first args htok hslash, setup_none _ hname]
  exact IsReply.of_command s _ _ c (IsReply.of_send _ c _)

/-- A command whose handler is `handler`, when the handler only replies. -/
theorem reply_of_handler (s : Sys) (c : ClientId) (first : Str) (args : List Str)
    (handler : Sys → ClientId → List Str → Sys)
    (htok : ∀ t ∈ first :: args, IsToken t) (hslash : first.head? = some '/')
    (hsetup : setupDefaultCommands (first.drop 1) = some handler)
    (hreply : ∀ t : Sys, t.clientManager_ = s.clientManager_ →
      t.channelManager_ = s.channelManager_ → t.heap = s.heap → IsReply t (handler t c args) c) :
    IsReply s (handleMessage s (some c) (joinWords (first :: args))) c := by
  rw [handleMessage_command s c first args htok hslash, hsetup]
  exact IsReply.of_command s _ _ c (hreply _ rfl rfl rfl)

theorem joinChannel_refused (m : ChannelManager) (h : Heap) (c : ClientId) (name : Str)
    (hno : ChannelManager.isValidChannelName name = false ∨
      (UMap.find m.channels_ name = none ∧ m.maxChannels_ ≤ (m.channels_.length : Int))) :
    m.joinChannel h (some c) name = (false, m, h) := by
  rw [ChannelManager.joinChannel_eq]
  rcases hno with hv | ⟨hf, hcap⟩
  · simp [hv]
  · by_cases hv : ChannelManager.isValidChannelName name = false
    · simp [hv]
    · have hcap' : ¬ (m.channels_.length : Int) < m.maxChannels_ := not_lt.mpr hcap
      simp [hv, hf, hcap']

theorem handleJoinCommand_refused (s : Sys) (c : ClientId) (X : Str) (rest : List Str)
    (hno : ChannelManager.isValidChannelName (withHash X) = false ∨
      (UMap.find s.channelManager_.channels_ (withHash X) = none ∧
        s.channelManager_.maxChannels_ ≤ (s.channelManager_.channels_.length : Int))) :
    IsReply s (handleJoinCommand s c (X :: rest)) c := by
  unfold handleJoinCommand
  simp only [joinChannel_refused s.channelManager_ s.heap c (withHash X) hno]
  exact IsReply.of_send s c _

theorem handlePartCommand_refused (s : Sys) (c : ClientId) (X : Str) (rest : List Str)
    (hno : withHash X ∉ (s.heap c).joined_channels_) :
    IsReply s (handlePartCommand s c (X :: rest)) c := by
  unfold handlePartCommand
  have hin : withHash X ∉ ChannelManager.getClientChannels s.heap (some c) := by
    simp only [ChannelManager.getClientChannels]
    exact fun h => hno ((mem_sortStrings _ _).1 h)
  simp only [hin, decide_False, Bool.not_false, if_true]
  exact IsReply.of_send s c _

theorem handleWhoCommand_missing (s : Sys) (c : ClientId) (X : Str) (rest : List Str)
    (hno : UMap.find s.channelManager_.channels_ (withHash X) = none) :
    IsReply s (handleWhoCommand s c (X :: rest)) c := by
  unfold handleWhoCommand
  simp only [ChannelManager.getChannel, hno]
  exact IsReply.of_send s c _

theorem sendChannelMessage_refused (s : Sys) (c : ClientId) (name message : Str)
    (hno : UMap.find s.channelManager_.channels_ name = none ∨
      name ∉ (s.heap c).joined_channels_) :
    IsReply s (sendChannelMessage s (some c) name message) c := by
  unfold sendChannelMessage
  cases hf : UMap.find s.channelManager_.channels_ name with
  | none =>
    simp only [channelExists_of_find_none _ _ hf, Bool.not_false, if_true]
    exact IsReply.of_send s c _
  | some ch =>
    have hnotin : name ∉ (s.heap c).joined_channels_ := by
      rcases hno with h | h
      · rw [hf] at h; exact Option.noConfusion h
      · exact h
    have hin : name ∉ ChannelManager.getClientChannels s.heap (some c) := by
      simp only [ChannelManager.getClientChannels]
      exact fun h => hnotin ((mem_sortStrings _ _).1 h)
    simp only [channelExists_of_find _ _ _ hf, Bool.not_true, Bool.false_eq_true, if_false, hin,
      decide_False, Bool.not_false, if_true]
    exact IsReply.of_send s c _

theorem sendPrivateMessage_unknown (s : Sys) (c : ClientId) (X message : Str)
    (hno : UMap.find s.clientManager_.nicknameToClient_ X = none) :
    IsReply s (sendPrivateMessage s (some c) X message) c := by
  unfold sendPrivateMessage
  simp only [ClientManager.getClientByNickname, hno]
  exact IsReply.of_send s c _

theorem handlePrivmsgCommand_refused (s : Sys) (c : ClientId) (X w : Str) (rest : List Str)
    (hno : (X.head? = some '#' ∧ (UMap.find s.channelManager_.channels_ X = none ∨
        X ∉ (s.heap c).joined_channels_)) ∨
      (X.head? ≠ some '#' ∧ UMap.find s.clientManager_.nicknameToClient_ X = none)) :
    IsReply s (handlePrivmsgCommand s c (X :: w :: rest)) c := by
  unfold handlePrivmsgCommand
  rcases hno with ⟨hh, hch⟩ | ⟨hh, hnick⟩
  · simp only [hh, if_true]
    exact sendChannelMessage_refused s c X _ hch
  · simp only [hh, if_false]
    exact sendPrivateMessage_unknown s c X _ hnick

theorem reply_text (s : Sys) (c : ClientId) (t : Str)
    (ht : t ≠ []) (hslash : t.head? ≠ some '/') (hcr : t.getLast? ≠ some '\r')
    (hactive : (s.heap c).active_channel_ ≠ [])
    (hno : UMap.find s.channelManager_.channels_ (s.heap c).active_channel_ = none ∨
      (s.heap c).active_channel_ ∉ (s.heap c).joined_channels_) :
    IsReply s (handleMessage s (some c) t) c := by
  rw [handleMessage_text s c t ht hslash hcr, if_pos hactive]
  exact IsReply.of_agree (s.received t) s _ c rfl rfl rfl
    (sendChannelMessage_refused (s.received t) c _ t hno)

end MessageManager

set_option maxRecDepth 100000 in
/-- C20 (the code at the failing input). On the server `sharedNickname` the
Connections `2` and `1` both have the nickname `guest5`, under which the index
holds Connection `1`. After Connection `1` sent `/quit`, Connection `2` is
registered with the nickname `guest5` and the index has no key `guest5`.
Connection `0` then sends `/nick guest5`, a name held by another Connection:
the command is accepted. The nickname of Connection `0` becomes `guest5`, the
index maps `guest5` to `0`, and the queue of Connection `2` grows by the
announcement of the change. -/
theorem nick_collision_accepted :
    afterNamesakeQuit.clientManager_.clients_ = [2, 0] ∧
    (afterNamesakeQuit.heap 2).nickname_ = "guest5".toList ∧
    (afterNamesakeQuit.heap 0).nickname_ = "guest4".toList ∧
    afterNamesakeQuit.clientManager_.nicknameToClient_ = [("guest4".toList, 0)] ∧
    ((MessageManager.handleMessage afterNamesakeQuit (some 0)
        "/nick guest5".toList).heap 0).nickname_ = "guest5".toList ∧
    (MessageManager.handleMessage afterNamesakeQuit (some 0)
        "/nick guest5".toList).clientManager_.nicknameToClient_ = [("guest5".toList, 0)] ∧
    ((MessageManager.handleMessage afterNamesakeQuit (some 0)
        "/nick guest5".toList).heap 0).output_queue_
      = (afterNamesakeQuit.heap 0).output_queue_ ++
        ["*** Nickname switched to 'guest5'\n".toList,
         "User 'guest4' is now known as 'guest5'\n".toList] ∧
    ((MessageManager.handleMessage afterNamesakeQuit (some 0)
        "/nick guest5".toList).heap 2).output_queue_
      = (afterNamesakeQuit.heap 2).output_queue_ ++
        ["User 'guest4' is now known as 'guest5'\n".toList] := by
  decide

/-- Errors in the input of a client. Every error in the input of a client that the Router handles is
answered by `ServerReply`: both registries and every other Connection are what
they were, the sender keeps its nickname, joined-channel set and active
channel, and the sender's queue grows by one line `*** <text>` plus a newline.
The errors, for a sender `c`, with `X` a word and `ws` a non-empty list of
words: a command whose name is none of the nine registered ones; `/nick`,
`/join`, `/part`, `/msg` without argument and `/msg X` without text; `/nick X`
with `X` not a valid nickname or held by another Connection; `/join X` with a
name that is not valid, or that is absent while the registry is full;
`/part X` for a channel that is not in the sender's joined-channel set; a
channel message (`/msg #ch ws`, or a plain line to the active channel) for a
channel that does not exist or is not in the sender's joined-channel set;
`/who X` for a channel that does not exist; `/msg X ws` for a nickname that
is not in the index. -/
theorem client_input_errors (s : Sys) (c : ClientId) :
    (∀ (first : Str) (args : List Str), (∀ t ∈ first :: args, IsToken t) →
      first.head? = some '/' → first.drop 1 ∉ commandNames →
      ServerReply s (MessageManager.handleMessage s (some c)
        (MessageManager.joinWords (first :: args))) c) ∧
    ServerReply s (MessageManager.handleMessage s (some c) "/nick".toList) c ∧
    ServerReply s (MessageManager.handleMessage s (some c) "/join".toList) c ∧
    ServerReply s (MessageManager.handleMessage s (some c) "/part".toList) c ∧
    ServerReply s (MessageManager.handleMessage s (some c) "/msg".toList) c ∧
    (∀ X : Str, IsToken X →
      ServerReply s (MessageManager.handleMessage s (some c)
        (MessageManager.joinWords ["/msg".toList, X])) c) ∧
    (∀ X : Str, IsToken X →
      (ClientManager.isValidNickname X = false ∨
        ∃ d, d ≠ c ∧ s.clientManager_.getClientByNickname X = some d) →
      ServerReply s (MessageManager.handleMessage s (some c)
        (MessageManager.joinWords ["/nick".toList, X])) c) ∧
    (∀ X : Str, IsToken X →
      (ChannelManager.isValidChannelName (MessageManager.withHash X) = false ∨
        (UMap.find s.channelManager_.channels_ (MessageManager.withHash X) = none ∧
          s.channelManager_.maxChannels_ ≤ (s.channelManager_.channels_.length : Int))) →
      ServerReply s (MessageManager.handleMessage s (some c)
        (MessageManager.joinWords ["/join".toList, X])) c) ∧
    (∀ X : Str, IsToken X → MessageManager.withHash X ∉ (s.heap c).joined_channels_ →
      ServerReply s (MessageManager.handleMessage s (some c)
        (MessageManager.joinWords ["/part".toList, X])) c) ∧
    (∀ (X : Str) (ws : List Str), IsToken X → X.head? = some '#' → (∀ w ∈ ws, IsToken w) →
      ws ≠ [] →
      (UMap.find s.channelManager_.channels_ X = none ∨ X ∉ (s.heap c).joined_channels_) →
      ServerReply s (MessageManager.handleMessage s (some c)
        (MessageManager.joinWords ("/msg".toList :: X :: ws))) c) ∧
    (∀ t : Str, t ≠ [] → t.head? ≠ some '/' → t.getLast? ≠ some '\r' →
      (s.heap c).active_channel_ ≠ [] →
      (UMap.find s.channelManager_.channels_ (s.heap c).active_channel_ = none ∨
        (s.heap c).active_channel_ ∉ (s.heap c).joined_channels_) →
      ServerReply s (MessageManager.handleMessage s (some c) t) c) ∧
    (∀ X : Str, IsToken X →
      UMap.find s.channelManager_.channels_ (MessageManager.withHash X) = none →
      ServerReply s (MessageManager.handleMessage s (some c)
        (MessageManager.joinWords ["/who".toList, X])) c) ∧
    (∀ (X : Str) (ws : List Str), IsToken X → X.head? ≠ some '#' → (∀ w ∈ ws, IsToken w) →
      ws ≠ [] → UMap.find s.clientManager_.nicknameToClient_ X = none →
      ServerReply s (MessageManager.handleMessage s (some c)
        (MessageManager.joinWords ("/msg".toList :: X :: ws))) c) := by
  have hnick : IsToken "/nick".toList := ⟨by decide, by decide⟩
  have hjoin : IsToken "/join".toList := ⟨by decide, by decide⟩
  have hpart : IsToken "/part".toList := ⟨by decide, by decide⟩
  have hmsg : IsToken "/msg".toList := ⟨by decide, by decide⟩
  have hwho : IsToken "/who".toList := ⟨by decide, by decide⟩
  have hnone : ∀ t ∈ ([] : List Str), IsToken t := fun t ht => absurd ht (List.not_mem_nil t)
  have hone : ∀ X : Str, IsToken X → ∀ t ∈ [X], IsToken t := by
    intro X hX t ht
    rw [List.mem_singleton] at ht
    exact ht ▸ hX
  refine ⟨?_, ?_, ?_, ?_, ?_, ?_, ?_, ?_, ?_, ?_, ?_, ?_, ?_⟩
  · intro first args htok hslash hname
    exact IsReply.serverReply _ _ c (MessageManager.reply_unknown s c first args htok hslash hname)
  · exact IsReply.serverReply _ _ c
      (MessageManager.reply_of_handler s c "/nick".toList [] _
        (MessageManager.tokens_cons _ _ hnick hnone) rfl MessageManager.setup_nick
        (fun t _ _ _ => IsReply.of_send t c _))
  · exact IsReply.serverReply _ _ c
      (MessageManager.reply_of_handler s c "/join".toList [] _
        (MessageManager.tokens_cons _ _ hjoin hnone) rfl MessageManager.setup_join
        (fun t _ _ _ => IsReply.of_send t c _))
  · exact IsReply.serverReply _ _ c
      (MessageManager.reply_of_handler s c "/part".toList [] _
        (MessageManager.tokens_cons _ _ hpart hnone) rfl MessageManager.setup_part
        (fun t _ _ _ => IsReply.of_send t c _))
  · exact IsReply.serverReply _ _ c
      (MessageManager.reply_of_handler s c "/msg".toList [] _
        (MessageManager.tokens_cons _ _ hmsg hnone) rfl MessageManager.setup_msg
        (fun t _ _ _ => IsReply.of_send t c _))
  · intro X hX
    exact IsReply.serverReply _ _ c
      (MessageManager.reply_of_handler s c "/msg".toList [X] _
        (MessageManager.tokens_cons _ _ hmsg (hone X hX)) rfl MessageManager.setup_msg
        (fun t _ _ _ => IsReply.of_send t c _))
  · intro X hX hbad
    refine IsReply.serverReply _ _ c
      (MessageManager.reply_of_handler s c "/nick".toList [X] _
        (MessageManager.tokens_cons _ _ hnick (hone X hX)) rfl MessageManager.setup_nick ?_)
    intro t hcm _ _
    apply MessageManager.handleNickCommand_refused
    rw [hcm]
    rintro ⟨hv, hf⟩
    rcases hbad with hinv | ⟨d, _, hd⟩
    · rw [hv] at hinv
      exact Bool.noConfusion hinv
    · have hd' : UMap.find s.clientManager_.nicknameToClient_ X = some d := hd
      rw [hf] at hd'
      exact Option.noConfusion hd'
  · intro X hX hbad
    refine IsReply.serverReply _ _ c
      (MessageManager.reply_of_handler s c "/join".toList [X] _
        (MessageManager.tokens_cons _ _ hjoin (hone X hX)) rfl MessageManager.setup_join ?_)
    intro t _ hch _
    apply MessageManager.handleJoinCommand_refused
    rw [hch]
    exact hbad
  · intro X hX hbad
    refine IsReply.serverReply _ _ c
      (MessageManager.reply_of_handler s c "/part".toList [X] _
        (MessageManager.tokens_cons _ _ hpart (hone X hX)) rfl MessageManager.setup_part ?_)
    intro t _ _ hheap
    apply MessageManager.handlePartCommand_refused
    rw [hheap]
    exact hbad
  · intro X ws hX hhash hws hne hbad
    obtain ⟨w, rest, rfl⟩ := List.exists_cons_of_ne_nil hne
    refine IsReply.serverReply _ _ c
      (MessageManager.reply_of_handler s c "/msg".toList (X :: w :: rest) _
        (MessageManager.tokens_cons _ _ hmsg (MessageManager.tokens_cons _ _ hX hws)) rfl
        MessageManager.setup_msg ?_)
    intro t _ hch hheap
    apply MessageManager.handlePrivmsgCommand_refused
    left
    rw [hch, hheap]
    exact ⟨hhash, hbad⟩
  · intro t ht hslash hcr hactive hbad
    exact IsReply.serverReply _ _ c (MessageManager.reply_text s c t ht hslash hcr hactive hbad)
  · intro X hX hbad
    refine IsReply.serverReply _ _ c
      (MessageManager.reply_of_handler s c "/who".toList [X] _
        (MessageManager.tokens_cons _ _ hwho (hone X hX)) rfl MessageManager.setup_who ?_)
    intro t _ hch _
    apply MessageManager.handleWhoCommand_missing
    rw [hch]
    exact hbad
  · intro X ws hX hhash hws hne hbad
    obtain ⟨w, rest, rfl⟩ := List.exists_cons_of_ne_nil hne
    refine IsReply.serverReply _ _ c
      (MessageManager.reply_of_handler s c "/msg".toList (X :: w :: rest) _
        (MessageManager.tokens_cons _ _ hmsg (MessageManager.tokens_cons _ _ hX hws)) rfl
        MessageManager.setup_msg ?_)
    intro t hcm _ _
    apply MessageManager.handlePrivmsgCommand_refused
    right
    rw [hcm]
    exact ⟨hhash, hbad⟩

/-- The registered Connection `0` sends `/NICK x`, a command in upper case:
it gets the reply for an unknown command, and nothing else changes. -/
theorem client_input_errors_witness :
    MessageManager.joinWords ["/NICK".toList, "x".toList] = "/NICK x".toList ∧
    ((MessageManager.handleMessage oneSession (some 0) "/NICK x".toList).heap 0).output_queue_
      = ["*** Unknown command: NICK\n".toList] ∧
    ServerReply oneSession
      (MessageManager.handleMessage oneSession (some 0)
        (MessageManager.joinWords ("/NICK".toList :: ["x".toList]))) 0 :=
  ⟨by decide, by decide,
    (client_input_errors oneSession 0).1 "/NICK".toList ["x".toList]
      (by
        intro t ht
        simp only [List.mem_cons, List.mem_singleton, List.not_mem_nil, or_false] at ht
        rcases ht with rfl | rfl
        · exact ⟨by decide, by decide⟩
        · exact ⟨by decide, by decide⟩)
      (by decide) (by decide)⟩

/-! ## Validation of the configuration -/

/-- C30. For all integers `port`, `maxusers`, `maxchannels` and every server
name, `validateConfig` raises nothing exactly when `1024 ≤ port ≤ 65535`,
`1 ≤ maxusers ≤ 10000`, `0 ≤ maxchannels ≤ 1000` and the name is not empty.
With the other values in range, the ports 1023 and 65536 are rejected and the
port 1024 is accepted. -/
theorem validateConfig_spec :
    (∀ (port maxusers maxchannels : Int) (servername : Str),
      Server.validateConfig port maxusers maxchannels servername = .ok () ↔
        (1024 ≤ port ∧ port ≤ 65535) ∧ (1 ≤ maxusers ∧ maxusers ≤ 10000) ∧
          (0 ≤ maxchannels ∧ maxchannels ≤ 1000) ∧ servername ≠ []) ∧
    (∀ (maxusers maxchannels : Int) (servername : Str),
      Server.validateConfig 1023 maxusers maxchannels servername
        = .error "Invalid port number.".toList) ∧
    (∀ (maxusers maxchannels : Int) (servername : Str),
      Server.validateConfig 65536 maxusers maxchannels servername
        = .error "Invalid port number.".toList) ∧
    Server.validateConfig 1024 2000 1000 "Test-Server".toList = .ok () := by
  refine ⟨?_, ?_, ?_, by rfl⟩
  · intro port maxusers maxchannels servername
    unfold Server.validateConfig
    simp only [Server.ServerConfig.MIN_PORT, Server.ServerConfig.MAX_PORT,
      Server.ServerConfig.MIN_USERS, Server.ServerConfig.MAX_USERS,
      Server.ServerConfig.MIN_CHANNELS, Server.ServerConfig.MAX_CHANNELS]
    by_cases h1 : port < 1024 ∨ port > 65535
    · simp only [h1, if_true]
      constructor
      · intro h; exact Except.noConfusion h
      · intro h; omega
    · by_cases h2 : maxusers < 1 ∨ maxusers > 10000
      · simp only [h1, h2, if_true, if_false]
        constructor
        · intro h; exact Except.noConfusion h
        · intro h; omega
      · by_cases h3 : maxchannels < 0 ∨ maxchannels > 1000
        · simp only [h1, h2, h3, if_true, if_false]
          constructor
          · intro h; exact Except.noConfusion h
          · intro h; omega
        · cases servername with
          | nil =>
            simp only [h1, h2, h3, if_false, List.isEmpty_nil, if_true]
            constructor
            · intro h; exact Except.noConfusion h
            · intro h; exact absurd rfl h.2.2.2
          | cons a b =>
            simp only [h1, h2, h3, if_false, List.isEmpty_cons, Bool.false_eq_true]
            constructor
            · intro _
              refine ⟨by omega, by omega, by omega, by simp⟩
            · intro _; trivial
  · intro maxusers maxchannels servername
    simp [Server.validateConfig, Server.ServerConfig.MIN_PORT]
  · intro maxusers maxchannels servername
    simp [Server.validateConfig, Server.ServerConfig.MIN_PORT, Server.ServerConfig.MAX_PORT]

/-! ## Broadcasts -/

/-- C25 (the code at the failing input). The channel `#a` has the one member
`0`, whose queue is empty; the broadcast of `hi` followed by a newline, a text
that already ends with a newline, puts `hi` followed by two newlines on the
queue, where `sendMessageToClient` queues the text as it is. -/
theorem broadcastMessage_doubles_newline :
    "hi\n".toList.getLast? = some '\n' ∧
    (freshHeap 0).output_queue_ = [] ∧
    ((soloChannel.broadcastMessage "hi\n".toList freshHeap) 0).output_queue_
      = ["hi\n\n".toList] ∧
    ((soloChannel.broadcastMessage "hi\n".toList freshHeap) 0).output_queue_
      ≠ (freshHeap 0).output_queue_ ++ ["hi\n".toList] ∧
    ((ClientManager.sendMessageToClient freshHeap (some 0) "hi\n".toList) 0).output_queue_
      = ["hi\n".toList] := by
  decide

/-- What `Channel::broadcastMessage` queues. For every text and every member set (a set: no member is
listed twice), `Channel::broadcastMessage` appends exactly one string to the
back of the queue of every member and leaves every other Connection as it
was; the string is the text followed by one newline, whether or not the text
ends with a newline. -/
theorem broadcastMessage_spec (ch : Channel) (text : Str) (h : Heap)
    (hset : ch.members_.Nodup) :
    (∀ d ∈ ch.members_,
      ((ch.broadcastMessage text h) d).output_queue_ = (h d).output_queue_ ++ [text ++ ['\n']]) ∧
    (∀ d, d ∉ ch.members_ → (ch.broadcastMessage text h) d = h d) := by
  constructor
  · intro d hd
    rw [broadcastMessage_member ch text h d hset hd]
  · intro d hd
    exact broadcastMessage_other ch text h d hd

/-- The two members of `#room` both receive a broadcast. -/
theorem broadcastMessage_spec_witness :
    ((({ name_ := "#room".toList, members_ := [0, 1] } : Channel).broadcastMessage
      "hello".toList freshHeap) 1).output_queue_
      = (freshHeap 1).output_queue_ ++ ["hello".toList ++ ['\n']] :=
  (broadcastMessage_spec { name_ := "#room".toList, members_ := [0, 1] } "hello".toList
    freshHeap (by decide)).1 1 (by decide)

/-- Pushing `line` to each Connection of a list other than the sender. -/
theorem push_each_except (line : Str) (sender : Option ClientId) (clients : List ClientId) :
    ∀ (h : Heap) (d : ClientId),
      (clients.foldl
        (fun h client =>
          if some client ≠ sender then h.call client (fun c => c.pushMessageToQueue line)
          else h) h) d =
        (h d).received (List.replicate (if some d ≠ sender then clients.count d else 0) line) := by
  induction clients with
  | nil => intro h d; simp [Client.received]
  | cons m rest ih =>
    intro h d
    rw [List.foldl_cons, ih]
    by_cases hs : some d ≠ sender
    · by_cases hm : m = d
      · subst hm
        simp [hs, Heap.call, Client.pushMessageToQueue, List.replicate_succ, Client.received]
      · have hm' : ¬ d = m := fun e => hm e.symm
        have hcount : List.count d (m :: rest) = List.count d rest := by
          rw [List.count_cons]; simp [hm]
        by_cases hms : some m ≠ sender
        · simp [hs, hms, Heap.call, Function.update_noteq hm', hcount]
        · simp [hs, hms, hcount]
    · have hs' : some d = sender := not_not.mp hs
      by_cases hm : m = d
      · subst hm
        simp [hs']
      · have hm' : ¬ d = m := fun e => hm e.symm
        by_cases hms : some m ≠ sender
        · simp [hs', hms, Heap.call, Function.update_noteq hm']
        · simp [hs', hms]

theorem Client.received_nil (c : Client) : c.received [] = c := by
  simp [Client.received]

theorem ClientManager.broadcastMessage_apply {W : Type} (m : ClientManager W) (h : Heap)
    (text : Str) (sender : Option ClientId) (d : ClientId) :
    (m.broadcastMessage h text sender) d =
      (h d).received (List.replicate (if some d ≠ sender then m.clients_.count d else 0)
        (ClientManager.broadcastLine h text sender)) := by
  unfold ClientManager.broadcastMessage
  exact push_each_except _ sender m.clients_ h d

/-- C26. For every text and every client set (a set: no Connection is listed
twice), `ClientManager::broadcastMessage(text, sender)` appends exactly one
string to the queue of every registered Connection other than the sender and
leaves the sender, and every Connection that is not registered, as it was.
With a sender the string is `<nick> text` plus a newline, `nick` being the
sender's nickname; without a sender it is the text plus a newline, and every
registered Connection receives it. -/
theorem broadcast_to_clients {W : Type} (m : ClientManager W) (h : Heap) (text : Str)
    (hset : m.clients_.Nodup) :
    (∀ sd : ClientId,
      (∀ d ∈ m.clients_, d ≠ sd →
        ((m.broadcastMessage h text (some sd)) d).output_queue_ =
          (h d).output_queue_ ++
            ["<".toList ++ (h sd).nickname_ ++ "> ".toList ++ text ++ ['\n']]) ∧
      (m.broadcastMessage h text (some sd)) sd = h sd ∧
      (∀ d, d ∉ m.clients_ → (m.broadcastMessage h text (some sd)) d = h d)) ∧
    (∀ d ∈ m.clients_,
      ((m.broadcastMessage h text none) d).output_queue_ =
        (h d).output_queue_ ++ [text ++ ['\n']]) ∧
    (∀ d, d ∉ m.clients_ → (m.broadcastMessage h text none) d = h d) := by
  refine ⟨?_, ?_, ?_⟩
  · intro sd
    refine ⟨?_, ?_, ?_⟩
    · intro d hd hne
      have hs : some d ≠ some sd := fun e => hne (Option.some.inj e)
      rw [ClientManager.broadcastMessage_apply, if_pos hs, List.count_eq_one_of_mem hset hd]
      simp [Client.received, ClientManager.broadcastLine]
    · rw [ClientManager.broadcastMessage_apply]
      simp [Client.received_nil]
    · intro d hd
      rw [ClientManager.broadcastMessage_apply, List.count_eq_zero_of_not_mem hd]
      simp [Client.received_nil]
  · intro d hd
    rw [ClientManager.broadcastMessage_apply, List.count_eq_one_of_mem hset hd]
    simp [Client.received, ClientManager.broadcastLine]
  · intro d hd
    rw [ClientManager.broadcastMessage_apply, List.count_eq_zero_of_not_mem hd]
    simp [Client.received_nil]

set_option maxRecDepth 100000 in
/-- Connection `0` broadcasts `hello` in a registry that holds `0` and `1`. -/
theorem broadcast_to_clients_witness :
    twoInRoom.clientManager_.clients_ = [0, 1] ∧
    ((twoInRoom.clientManager_.broadcastMessage twoInRoom.heap "hello".toList (some 0))
        1).output_queue_ =
      (twoInRoom.heap 1).output_queue_ ++
        ["<".toList ++ (twoInRoom.heap 0).nickname_ ++ "> ".toList ++ "hello".toList ++ ['\n']] :=
  ⟨by decide,
    ((broadcast_to_clients twoInRoom.clientManager_ twoInRoom.heap "hello".toList
      (by decide)).1 0).1 1 (by decide) (by decide)⟩

/-! ## Lines that end without a newline -/

theorem last_append (pre tail : Str) (ch : Char) (h : tail.getLast? = some ch) :
    (pre ++ tail).getLast? = some ch := by
  have hne : tail ≠ [] := by
    intro he
    rw [he] at h
    exact Option.noConfusion h
  rw [List.getLast?_append_of_ne_nil _ hne, h]

theorem token_last (t : Str) (ht : IsToken t) :
    ∃ ch, t.getLast? = some ch ∧ isspace ch = false :=
  ⟨t.getLast ht.1, List.getLast?_eq_getLast _ ht.1, ht.2 _ (List.getLast_mem ht.1)⟩

theorem ne_newline_of_not_space (ch : Char) (h : isspace ch = false) : ch ≠ '\n' := by
  intro he
  rw [he] at h
  exact absurd h (by decide)

namespace MessageManager

/-- `sendServerMessage` with a text whose last character is not a newline. -/
theorem sendServerMessage_heap_of_last (s : Sys) (c : ClientId) (msg : Str) (ch : Char)
    (hlast : msg.getLast? = some ch) (hch : ch ≠ '\n') :
    (sendServerMessage s (some c) msg).heap =
      s.heap.call c (fun cl => cl.pushMessageToQueue ("*** ".toList ++ msg ++ ['\n'])) := by
  rw [sendServerMessage_heap]
  have h1 : ("*** ".toList ++ msg).getLast? ≠ some '\n' := by
    rw [last_append _ msg ch hlast]
    intro h
    exact hch (Option.some.inj h)
  rw [if_pos h1]

theorem isToken_of_validNickname (X : Str) (h : ClientManager.isValidNickname X = true) :
    IsToken X := by
  obtain ⟨hne, _, hchars⟩ := (isValidNickname_iff X).1 h
  refine ⟨hne, ?_⟩
  intro ch hch
  rcases hchars ch hch with h1 | h1 | h1 | h1
  · simp only [isspace, Bool.or_eq_false_iff, decide_eq_false_iff_not, Bool.and_eq_false_imp,
      decide_eq_true_eq]
    omega
  · simp only [isspace, Bool.or_eq_false_iff, decide_eq_false_iff_not, Bool.and_eq_false_imp,
      decide_eq_true_eq]
    omega
  · simp only [isspace, Bool.or_eq_false_iff, decide_eq_false_iff_not, Bool.and_eq_false_imp,
      decide_eq_true_eq]
    omega
  · rw [h1]; decide

theorem isToken_of_validChannelName (X : Str) (h : ChannelManager.isValidChannelName X = true) :
    IsToken X ∧ X.head? = some '#' := by
  obtain ⟨hne, _, hhead, _, _, hchars⟩ := (isValidChannelName_iff X).1 h
  refine ⟨⟨hne, ?_⟩, hhead⟩
  intro ch hch
  cases X with
  | nil => exact absurd rfl hne
  | cons a rest =>
    rcases List.mem_cons.mp hch with rfl | hmem
    · have : ch = '#' := by simpa using hhead
      rw [this]; decide
    · have := hchars ch hmem
      simp only [isspace, Bool.or_eq_false_iff, decide_eq_false_iff_not, Bool.and_eq_false_imp,
        decide_eq_true_eq]
      omega

theorem tokens_pair (a b : Str) (ha : IsToken a) (hb : IsToken b) : ∀ t ∈ [a, b], IsToken t := by
  intro t ht
  simp only [List.mem_cons, List.mem_singleton, List.not_mem_nil, or_false] at ht
  rcases ht with rfl | rfl
  · exact ha
  · exact hb

/-- The heap after a successful `/nick X`, Connection by Connection. -/
theorem nick_ok_heap (s : Sys) (c : ClientId) (X : Str)
    (hv : ClientManager.isValidNickname X = true)
    (hf : UMap.find s.clientManager_.nicknameToClient_ X = none) (d : ClientId) :
    (handleMessage s (some c) (joinWords ["/nick".toList, X])).heap d =
      (((s.heap.call c (fun cl => cl.setNickname X)).call c
          (fun cl => cl.pushMessageToQueue
            ("*** ".toList ++ ("Nickname switched to '".toList ++ X ++ "'".toList) ++ ['\n'])))
        d).received
        (List.replicate (s.clientManager_.clients_.count d)
          ("User '".toList ++ (s.heap c).nickname_ ++ "' is now known as '".toList ++ X
            ++ "'".toList ++ ['\n'])) := by
  have hX := isToken_of_validNickname X hv
  rw [handleMessage_command s c "/nick".toList [X]
    (tokens_pair _ _ ⟨by decide, by decide⟩ hX) rfl]
  have hsetup : setupDefaultCommands ("/nick".toList.drop 1) = some handleNickCommand := rfl
  simp only [hsetup]
  rw [handleNickCommand_ok (s.received (joinWords ["/nick".toList, X])).commandSeen c X [] hv hf]
  simp only [Sys.withHeap]
  rw [ClientManager.broadcastMessage_apply,
    sendServerMessage_heap_of_last _ c _ '\''
      (last_append ("Nickname switched to '".toList ++ X) "'".toList '\'' rfl) (by decide)]
  simp [ClientManager.broadcastLine, Sys.renamed, Sys.received, Sys.commandSeen]

end MessageManager

/-- C21. A registered Connection `c` has the nickname `old`, and `new` is a
valid nickname that is not a key of the index (no Connection holds it); the
client set is a set. Handling the line `/nick new` of `c` makes `new` the
nickname of `c` and the index map `new` to `c`; the queue of `c` receives the
server message `*** Nickname switched to 'new'` and then the line
`User 'old' is now known as 'new'`, each with its newline; every other
registered Connection receives that line exactly once; a Connection that is
not registered is what it was. -/
theorem nick_change (s : Sys) (c : ClientId) (new : Str)
    (hreg : c ∈ s.clientManager_.clients_) (hset : s.clientManager_.clients_.Nodup)
    (hvalid : ClientManager.isValidNickname new = true)
    (hfree : UMap.find s.clientManager_.nicknameToClient_ new = none) :
    ((MessageManager.handleMessage s (some c)
      (MessageManager.joinWords ["/nick".toList, new])).heap c).nickname_ = new ∧
    ((MessageManager.handleMessage s (some c)
      (MessageManager.joinWords ["/nick".toList, new])).heap c).output_queue_ =
      (s.heap c).output_queue_ ++
        ["*** ".toList ++ ("Nickname switched to '".toList ++ new ++ "'".toList) ++ ['\n'],
         "User '".toList ++ (s.heap c).nickname_ ++ "' is now known as '".toList ++ new
            ++ "'".toList ++ ['\n']] ∧
    (∀ d ∈ s.clientManager_.clients_, d ≠ c →
      ((MessageManager.handleMessage s (some c)
        (MessageManager.joinWords ["/nick".toList, new])).heap d).output_queue_ =
        (s.heap d).output_queue_ ++
          ["User '".toList ++ (s.heap c).nickname_ ++ "' is now known as '".toList ++ new
            ++ "'".toList ++ ['\n']]) ∧
    (∀ d, d ∉ s.clientManager_.clients_ →
      (MessageManager.handleMessage s (some c)
        (MessageManager.joinWords ["/nick".toList, new])).heap d = s.heap d) := by
  refine ⟨?_, ?_, ?_, ?_⟩
  · rw [MessageManager.nick_ok_heap s c new hvalid hfree c]
    simp [Client.received, Heap.call, Client.pushMessageToQueue, Client.setNickname]
  · rw [MessageManager.nick_ok_heap s c new hvalid hfree c, List.count_eq_one_of_mem hset hreg]
    simp [Client.received, Heap.call, Client.pushMessageToQueue, Client.setNickname]
  · intro d hd hne
    rw [MessageManager.nick_ok_heap s c new hvalid hfree d, List.count_eq_one_of_mem hset hd]
    simp [Client.received, Heap.call, Function.update_noteq hne]
  · intro d hd
    have hne : d ≠ c := fun e => hd (e ▸ hreg)
    rw [MessageManager.nick_ok_heap s c new hvalid hfree d, List.count_eq_zero_of_not_mem hd]
    simp [Client.received, Heap.call, Function.update_noteq hne]

set_option maxRecDepth 100000 in
/-- Of the two registered Connections in `#room`, `guest4` becomes `alice`. -/
theorem nick_change_witness :
    MessageManager.joinWords ["/nick".toList, "alice".toList] = "/nick alice".toList ∧
    ((MessageManager.handleMessage twoInRoom (some 0)
      (MessageManager.joinWords ["/nick".toList, "alice".toList])).heap 0).nickname_
      = "alice".toList ∧
    ((MessageManager.handleMessage twoInRoom (some 0)
        (MessageManager.joinWords ["/nick".toList, "alice".toList])).heap 1).output_queue_ =
      (twoInRoom.heap 1).output_queue_ ++
        ["User '".toList ++ (twoInRoom.heap 0).nickname_ ++ "' is now known as '".toList
          ++ "alice".toList ++ "'".toList ++ ['\n']] ∧
    "User '".toList ++ (twoInRoom.heap 0).nickname_ ++ "' is now known as '".toList
          ++ "alice".toList ++ "'".toList ++ ['\n']
      = "User 'guest4' is now known as 'alice'\n".toList :=
  ⟨by decide,
    (nick_change twoInRoom 0 "alice".toList (by decide) (by decide) (by decide) (by decide)).1,
    (nick_change twoInRoom 0 "alice".toList (by decide) (by decide) (by decide)
      (by decide)).2.2.1 1 (by decide) (by decide),
    by decide⟩

/-! ## The commands `/join` and `/part` -/

/-- An accepted `joinChannel`: the registry maps the name to the Channel it
had, or to a new one, with the Connection added. -/
theorem ChannelManager.joinChannel_accepted (m : ChannelManager) (h : Heap) (c : ClientId)
    (name : Str) (hok : (m.joinChannel h (some c) name).1 = true) :
    ∃ (m' : ChannelManager) (base : Channel),
      m.joinChannel h (some c) name = (true, m', h.call c (fun cl => cl.joinChannel name)) ∧
      UMap.find m'.channels_ name = some (base.addClient c) ∧
      (∀ ch, UMap.find m.channels_ name = some ch → base = ch) ∧
      (UMap.find m.channels_ name = none → base = Channel.new name) := by
  have heq := ChannelManager.joinChannel_eq m h c name
  by_cases hv : ChannelManager.isValidChannelName name = false
  · rw [heq] at hok
    simp [hv] at hok
  · by_cases hf : UMap.find m.channels_ name = none
    · by_cases hcap : (m.channels_.length : Int) < m.maxChannels_
      · refine ⟨(ChannelManager.joinExisting
            ⟨m.channels_ ++ [(name, Channel.new name)], m.maxChannels_⟩ h c name).2.1,
          Channel.new name, ?_, ?_, ?_, fun _ => rfl⟩
        · rw [heq]
          simp [hv, hf, hcap, ChannelManager.joinExisting]
        · simp only [ChannelManager.joinExisting]
          rw [UMap.find_modify, UMap.find_append]
          simp [hf, UMap.find]
        · intro ch hch
          rw [hf] at hch
          exact Option.noConfusion hch
      · rw [heq] at hok
        simp [hv, hf, hcap] at hok
    · obtain ⟨ch, hch⟩ := Option.ne_none_iff_exists'.mp hf
      refine ⟨(ChannelManager.joinExisting m h c name).2.1, ch, ?_, ?_, ?_,
        fun hn => absurd hn hf⟩
      · rw [heq]
        simp [hv, hf, ChannelManager.joinExisting]
      · simp only [ChannelManager.joinExisting]
        rw [UMap.find_modify]
        simp [hch]
      · intro ch2 hch2
        rw [hch] at hch2
        exact (Option.some.inj hch2)

namespace MessageManager

theorem withHash_eq (X : Str) :
    (X.head? = some '#' → withHash X = X) ∧ (X.head? ≠ some '#' → withHash X = '#' :: X) := by
  unfold withHash
  by_cases h : X.head? = some '#'
  · simp [h]
  · simp [h]

theorem withHash_last (X : Str) (hX : IsToken X) :
    ∃ ch, (withHash X).getLast? = some ch ∧ ch ≠ '\n' := by
  obtain ⟨ch, hch, hsp⟩ := token_last X hX
  refine ⟨ch, ?_, ne_newline_of_not_space ch hsp⟩
  unfold withHash
  split
  · exact last_append ['#'] X ch hch
  · exact hch

/-- The state after an accepted `/join X`. -/
theorem join_ok (s : Sys) (c : ClientId) (X : Str) (hX : IsToken X)
    (m' : ChannelManager) (ch' : Channel)
    (hjoin : s.channelManager_.joinChannel s.heap (some c) (withHash X) =
      (true, m', s.heap.call c (fun cl => cl.joinChannel (withHash X))))
    (hfind : UMap.find m'.channels_ (withHash X) = some ch') :
    (handleMessage s (some c) (joinWords ["/join".toList, X])).channelManager_ = m' ∧
    (handleMessage s (some c) (joinWords ["/join".toList, X])).clientManager_
      = s.clientManager_ ∧
    (handleMessage s (some c) (joinWords ["/join".toList, X])).heap =
      ch'.broadcastMessage
        ("*** ".toList ++ ((s.heap c).nickname_ ++ " joined the channel.".toList))
        ((((s.heap.call c (fun cl => cl.joinChannel (withHash X))).call c
            (fun cl => cl.setActiveChannel (withHash X)))).call c
          (fun cl => cl.pushMessageToQueue
            ("*** ".toList ++ ("You joined ".toList ++ withHash X ++ " (now active).".toList)
              ++ ['\n']))) := by
  rw [handleMessage_command s c "/join".toList [X]
    (tokens_pair _ _ ⟨by decide, by decide⟩ hX) rfl]
  have hsetup : setupDefaultCommands ("/join".toList.drop 1) = some handleJoinCommand := rfl
  simp only [hsetup]
  have hjoin' : (s.received (joinWords ["/join".toList, X])).commandSeen.channelManager_.joinChannel
      (s.received (joinWords ["/join".toList, X])).commandSeen.heap (some c) (withHash X) =
      (true, m', s.heap.call c (fun cl => cl.joinChannel (withHash X))) := hjoin
  unfold handleJoinCommand
  simp only [hjoin']
  refine ⟨rfl, rfl, ?_⟩
  simp only [ChannelManager.broadcastToChannel, sendServerMessage_channelManager, hfind]
  rw [sendServerMessage_heap_of_last _ c _ '.'
    (last_append ("You joined ".toList ++ withHash X) " (now active).".toList '.' rfl)
    (by decide)]
  simp [Heap.call, Client.pushMessageToQueue, Client.setActiveChannel, Client.joinChannel]

/-- The state after `/part X` for a channel that exists and is in the sender's
joined-channel set. -/
theorem part_ok (s : Sys) (c : ClientId) (X : Str) (hX : IsToken X) (hhash : X.head? = some '#')
    (ch : Channel) (hfind : UMap.find s.channelManager_.channels_ X = some ch)
    (hjoined : X ∈ (s.heap c).joined_channels_) :
    (handleMessage s (some c) (joinWords ["/part".toList, X])).channelManager_.channels_ =
      UMap.modify s.channelManager_.channels_ X (fun ch => ch.removeClient c) ∧
    (handleMessage s (some c) (joinWords ["/part".toList, X])).clientManager_
      = s.clientManager_ ∧
    (handleMessage s (some c) (joinWords ["/part".toList, X])).heap =
      (((ch.broadcastMessage
          ("*** ".toList ++ ((s.heap c).nickname_ ++ " left the channel.".toList)) s.heap).call c
          (fun cl => cl.leaveChannel X))).call c
        (fun cl => cl.pushMessageToQueue
          ("*** ".toList ++ ("You have left ".toList ++ X) ++ ['\n'])) := by
  rw [handleMessage_command s c "/part".toList [X]
    (tokens_pair _ _ ⟨by decide, by decide⟩ hX) rfl]
  have hsetup : setupDefaultCommands ("/part".toList.drop 1) = some handlePartCommand := rfl
  simp only [hsetup]
  have hw : withHash X = X := (withHash_eq X).1 hhash
  have hin : X ∈ ChannelManager.getClientChannels
      (s.received (joinWords ["/part".toList, X])).commandSeen.heap (some c) := by
    simp only [ChannelManager.getClientChannels]
    exact (mem_sortStrings _ _).2 hjoined
  have hfind' : UMap.find
      (s.received (joinWords ["/part".toList, X])).commandSeen.channelManager_.channels_ X
      = some ch := hfind
  obtain ⟨lc, hlc, hsp⟩ := token_last X hX
  unfold handlePartCommand
  simp only [hw, hin, decide_True, Bool.not_true, Bool.false_eq_true, if_false,
    ChannelManager.broadcastToChannel, hfind']
  rw [ChannelManager.leaveChannel_eq]
  have hne : ¬ UMap.find
      (s.received (joinWords ["/part".toList, X])).commandSeen.channelManager_.channels_ X
      = none := by
    rw [hfind']; exact fun h => Option.noConfusion h
  simp only [hne, if_false]
  refine ⟨rfl, rfl, ?_⟩
  rw [sendServerMessage_heap_of_last _ c _ lc (last_append "You have left ".toList X lc hlc)
    (ne_newline_of_not_space lc hsp)]
  rfl

end MessageManager

/-- C22. For a Connection `c` with nickname `n` and a word `X`, handling
`/join X` uses the channel name `X` when `X` starts with `#` and `#X`
otherwise. When the Channel Registry accepts the join (the member set of the
channel, if it exists, being a set), afterwards the registry maps the name to
a Channel that lists `c`, the active channel of `c` is the name, the name is in
the joined-channel set of `c`, the queue of `c` has received the server message
`*** You joined <name> (now active).` and then `*** n joined the channel.`,
every other member of the channel has received `*** n joined the channel.`
once (each line with its newline), and every Connection that is not a member
is what it was. -/
theorem join_command (s : Sys) (c : ClientId) (X : Str) (hX : IsToken X)
    (hok : (s.channelManager_.joinChannel s.heap (some c) (MessageManager.withHash X)).1 = true)
    (hset : ∀ ch, UMap.find s.channelManager_.channels_ (MessageManager.withHash X) = some ch →
      ch.members_.Nodup) :
    (X.head? = some '#' → MessageManager.withHash X = X) ∧
    (X.head? ≠ some '#' → MessageManager.withHash X = '#' :: X) ∧
    ∃ ch' : Channel,
      UMap.find (MessageManager.handleMessage s (some c)
        (MessageManager.joinWords ["/join".toList, X])).channelManager_.channels_
        (MessageManager.withHash X) = some ch' ∧
      c ∈ ch'.members_ ∧
      ((MessageManager.handleMessage s (some c)
        (MessageManager.joinWords ["/join".toList, X])).heap c).active_channel_
        = MessageManager.withHash X ∧
      MessageManager.withHash X ∈ ((MessageManager.handleMessage s (some c)
        (MessageManager.joinWords ["/join".toList, X])).heap c).joined_channels_ ∧
      ((MessageManager.handleMessage s (some c)
        (MessageManager.joinWords ["/join".toList, X])).heap c).output_queue_ =
        (s.heap c).output_queue_ ++
          ["*** ".toList ++ ("You joined ".toList ++ MessageManager.withHash X
              ++ " (now active).".toList) ++ ['\n'],
           "*** ".toList ++ ((s.heap c).nickname_ ++ " joined the channel.".toList) ++ ['\n']] ∧
      (∀ d ∈ ch'.members_, d ≠ c →
        ((MessageManager.handleMessage s (some c)
          (MessageManager.joinWords ["/join".toList, X])).heap d).output_queue_ =
          (s.heap d).output_queue_ ++
            ["*** ".toList ++ ((s.heap c).nickname_ ++ " joined the channel.".toList)
              ++ ['\n']]) ∧
      (∀ d, d ∉ ch'.members_ →
        (MessageManager.handleMessage s (some c)
          (MessageManager.joinWords ["/join".toList, X])).heap d = s.heap d) := by
  refine ⟨(MessageManager.withHash_eq X).1, (MessageManager.withHash_eq X).2, ?_⟩
  obtain ⟨m', base, hjoin, hfind, hbase1, hbase2⟩ :=
    ChannelManager.joinChannel_accepted s.channelManager_ s.heap c _ hok
  obtain ⟨hchm, _, hheap⟩ := MessageManager.join_ok s c X hX m' (base.addClient c) hjoin hfind
  have hmem : c ∈ (base.addClient c).members_ := by
    simp [Channel.addClient, USet.mem_insert]
  have hbaseset : base.members_.Nodup := by
    cases hf : UMap.find s.channelManager_.channels_ (MessageManager.withHash X) with
    | none => rw [hbase2 hf]; simp [Channel.new]
    | some ch => rw [hbase1 ch hf]; exact hset ch hf
  have hnodup : (base.addClient c).members_.Nodup := USet.nodup_insert _ _ hbaseset
  refine ⟨base.addClient c, by rw [hchm]; exact hfind, hmem, ?_, ?_, ?_, ?_, ?_⟩
  · rw [hheap, broadcastMessage_member _ _ _ c hnodup hmem]
    simp [Heap.call, Client.pushMessageToQueue, Client.setActiveChannel]
  · rw [hheap, broadcastMessage_member _ _ _ c hnodup hmem]
    simp [Heap.call, Client.pushMessageToQueue, Client.setActiveChannel, Client.joinChannel,
      USet.mem_insert]
  · rw [hheap, broadcastMessage_member _ _ _ c hnodup hmem]
    simp [Heap.call, Client.pushMessageToQueue, Client.setActiveChannel, Client.joinChannel]
  · intro d hd hne
    rw [hheap, broadcastMessage_member _ _ _ d hnodup hd]
    simp [Heap.call, Function.update_noteq hne]
  · intro d hd
    have hne : d ≠ c := fun e => hd (e ▸ hmem)
    rw [hheap, broadcastMessage_other _ _ _ d hd]
    simp [Heap.call, Function.update_noteq hne]

set_option maxRecDepth 100000 in
/-- Connection `1` is in `#room`; Connection `0` sends `/join room`. -/
theorem join_command_witness :
    MessageManager.joinWords ["/join".toList, "room".toList] = "/join room".toList ∧
    MessageManager.withHash "room".toList = "#room".toList ∧
    ((MessageManager.handleMessage twoInRoom (some 0)
      (MessageManager.joinWords ["/join".toList, "room".toList])).heap 0).active_channel_
      = "#room".toList :=
  ⟨by decide, by decide, by
    obtain ⟨_, _, _, _, _, hactive, _⟩ := join_command twoInRoom 0 "room".toList
      ⟨by decide, by decide⟩ (by decide)
      (by
        intro ch hch
        have h : UMap.find twoInRoom.channelManager_.channels_
            (MessageManager.withHash "room".toList)
            = some { name_ := "#room".toList, members_ := [0, 1] } := by decide
        rw [h] at hch
        rw [← Option.some.inj hch]
        decide)
    rw [hactive]
    decide⟩

/-- C23. The channel `X` (a valid channel name) exists with a member set that
lists the Connection `c`, whose nickname is `n`, and `X` is in the
joined-channel set of `c`. Handling the line `/part X` of `c` appends
`*** n left the channel.` exactly once to the queue of every other member,
appends that line and then `*** You have left X` to the queue of `c` (each line
with its newline), and leaves every Connection that is not a member as it
was; afterwards the registry still maps `X` to a Channel, which no longer
lists `c`, and `X` is not in the joined-channel set of `c`. -/
theorem part_command (s : Sys) (c : ClientId) (X : Str) (ch : Channel)
    (hvalid : ChannelManager.isValidChannelName X = true)
    (hfind : UMap.find s.channelManager_.channels_ X = some ch)
    (hmember : c ∈ ch.members_) (hjoined : X ∈ (s.heap c).joined_channels_)
    (hset : ch.members_.Nodup) :
    (∀ d ∈ ch.members_, d ≠ c →
      ((MessageManager.handleMessage s (some c)
        (MessageManager.joinWords ["/part".toList, X])).heap d).output_queue_ =
        (s.heap d).output_queue_ ++
          ["*** ".toList ++ ((s.heap c).nickname_ ++ " left the channel.".toList) ++ ['\n']]) ∧
    ((MessageManager.handleMessage s (some c)
      (MessageManager.joinWords ["/part".toList, X])).heap c).output_queue_ =
      (s.heap c).output_queue_ ++
        ["*** ".toList ++ ((s.heap c).nickname_ ++ " left the channel.".toList) ++ ['\n'],
         "*** ".toList ++ ("You have left ".toList ++ X) ++ ['\n']] ∧
    (∀ d, d ∉ ch.members_ →
      (MessageManager.handleMessage s (some c)
        (MessageManager.joinWords ["/part".toList, X])).heap d = s.heap d) ∧
    UMap.find (MessageManager.handleMessage s (some c)
      (MessageManager.joinWords ["/part".toList, X])).channelManager_.channels_ X
      = some (ch.removeClient c) ∧
    c ∉ (ch.removeClient c).members_ ∧
    X ∉ ((MessageManager.handleMessage s (some c)
      (MessageManager.joinWords ["/part".toList, X])).heap c).joined_channels_ := by
  obtain ⟨hX, hhash⟩ := MessageManager.isToken_of_validChannelName X hvalid
  obtain ⟨hchm, _, hheap⟩ := MessageManager.part_ok s c X hX hhash ch hfind hjoined
  refine ⟨?_, ?_, ?_, ?_, ?_, ?_⟩
  · intro d hd hne
    rw [hheap]
    simp only [Heap.call, Function.update_noteq hne]
    rw [broadcastMessage_member _ _ _ d hset hd]
  · rw [hheap]
    simp only [Heap.call, Function.update_same, Client.pushMessageToQueue, Client.leaveChannel]
    rw [broadcastMessage_member _ _ _ c hset hmember]
    simp
  · intro d hd
    have hne : d ≠ c := fun e => hd (e ▸ hmember)
    rw [hheap]
    simp only [Heap.call, Function.update_noteq hne]
    exact broadcastMessage_other _ _ _ d hd
  · rw [hchm, UMap.find_modify]
    simp [hfind]
  · simp [Channel.removeClient, USet.mem_erase]
  · rw [hheap]
    simp [Heap.call, Client.pushMessageToQueue, Client.leaveChannel, USet.mem_erase]

set_option maxRecDepth 100000 in
/-- Of the two members of `#room`, Connection `0` sends `/part #room`. -/
theorem part_command_witness :
    MessageManager.joinWords ["/part".toList, "#room".toList] = "/part #room".toList ∧
    ((MessageManager.handleMessage twoInRoom (some 0)
        (MessageManager.joinWords ["/part".toList, "#room".toList])).heap 1).output_queue_ =
      (twoInRoom.heap 1).output_queue_ ++
        ["*** ".toList ++ ((twoInRoom.heap 0).nickname_ ++ " left the channel.".toList)
          ++ ['\n']] ∧
    "*** ".toList ++ ((twoInRoom.heap 0).nickname_ ++ " left the channel.".toList) ++ ['\n']
      = "*** guest4 left the channel.\n".toList :=
  ⟨by decide,
    (part_command twoInRoom 0 "#room".toList { name_ := "#room".toList, members_ := [0, 1] }
      (by decide) (by decide) (by decide) (by decide) (by decide)).1 1 (by decide) (by decide),
    by decide⟩

/-! ## The command `/quit` -/

namespace ChannelManager

/-- What `removeClientFromAllChannels` does to the registry when each Channel
that lists the Connection is under a name of its joined-channel set. -/
theorem leaveEverything (m : ChannelManager) (h : Heap) (c : ClientId)
    (hsym : ∀ name ch, UMap.find m.channels_ name = some ch → c ∈ ch.members_ →
      name ∈ (h c).joined_channels_) :
    (∀ name ch, UMap.find (m.removeClientFromAllChannels h (some c)).1.channels_ name = some ch →
      c ∉ ch.members_) ∧
    UMap.keys (m.removeClientFromAllChannels h (some c)).1.channels_ = UMap.keys m.channels_ := by
  have hfind : ∀ name, UMap.find (m.removeClientFromAllChannels h (some c)).1.channels_ name =
      (UMap.find m.channels_ name).map (fun ch => ch.removeClient c) := by
    intro name
    simp only [ChannelManager.removeClientFromAllChannels]
    rw [ChannelManager.find_leaveAll]
    by_cases hn : name ∈ (h c).joined_channels_
    · simp [hn]
    · simp only [hn, if_false]
      cases hf : UMap.find m.channels_ name with
      | none => rfl
      | some ch =>
        have hc : c ∉ ch.members_ := fun hmem => hn (hsym name ch hf hmem)
        simp [ChannelManager.removeClient_of_not_mem ch c hc]
  refine ⟨?_, ?_⟩
  · intro name ch hch
    rw [hfind] at hch
    cases hf : UMap.find m.channels_ name with
    | none => simp [hf] at hch
    | some ch0 =>
      simp only [hf, Option.map_some', Option.some.injEq] at hch
      subst hch
      simp [Channel.removeClient, USet.mem_erase]
  · simp only [ChannelManager.removeClientFromAllChannels]
    exact ChannelManager.keys_leaveAll c _ (m, h)

theorem leaveChannel_queue (m : ChannelManager) (h : Heap) (c : ClientId) (name : Str)
    (d : ClientId) :
    ((m.leaveChannel h (some c) name).2.2 d).output_queue_ = (h d).output_queue_ := by
  rw [leaveChannel_eq]
  split
  · rfl
  · by_cases hd : d = c
    · subst hd
      simp [Heap.call, Client.leaveChannel]
    · simp [Heap.call, Function.update_noteq hd]

theorem leaveAll_queue (c : ClientId) (names : List Str) :
    ∀ (s : ChannelManager × Heap) (d : ClientId),
      ((leaveAll c names s).2 d).output_queue_ = (s.2 d).output_queue_ := by
  induction names with
  | nil => intro s d; rfl
  | cons name rest ih =>
    intro s d
    simp only [leaveAll]
    rw [ih, leaveChannel_queue]

theorem broadcastToChannel_apply (m : ChannelManager) (h : Heap) (name msg : Str) (d : ClientId) :
    (m.broadcastToChannel h name msg) d =
      (h d).received (List.replicate (m.copies [name] d) (msg ++ ['\n'])) := by
  unfold broadcastToChannel copies
  cases hf : UMap.find m.channels_ name with
  | none =>
    simp only [List.map_cons, List.map_nil, List.sum_cons, List.sum_nil, Nat.add_zero, hf,
      List.replicate_zero]
    exact (Client.received_nil _).symm
  | some ch =>
    simp only [Channel.broadcastMessage, List.map_cons, List.map_nil, List.sum_cons,
      List.sum_nil, Nat.add_zero, hf]
    rw [push_each]
    rfl

theorem copies_cons (m : ChannelManager) (name : Str) (rest : List Str) (d : ClientId) :
    m.copies (name :: rest) d = m.copies [name] d + m.copies rest d := by
  simp [copies]

/-- A line broadcast to each channel of `names` in turn. -/
theorem broadcast_each (m : ChannelManager) (msg : Str) (names : List Str) :
    ∀ (h : Heap) (d : ClientId),
      (names.foldl (fun h name => m.broadcastToChannel h name msg) h) d =
        (h d).received (List.replicate (m.copies names d) (msg ++ ['\n'])) := by
  induction names with
  | nil => intro h d; simp [copies, Client.received_nil]
  | cons name rest ih =>
    intro h d
    have hc := copies_cons m name rest d
    rw [List.foldl_cons, ih, broadcastToChannel_apply, hc, List.replicate_add]
    simp only [Client.received, List.append_assoc]

theorem copies_pos (m : ChannelManager) (names : List Str) (d : ClientId) (name : Str)
    (ch : Channel) (hname : name ∈ names) (hfind : UMap.find m.channels_ name = some ch)
    (hd : d ∈ ch.members_) : 1 ≤ m.copies names d := by
  induction names with
  | nil => exact absurd hname (List.not_mem_nil _)
  | cons n rest ih =>
    rw [copies_cons]
    rcases List.mem_cons.mp hname with rfl | hmem
    · have : 1 ≤ m.copies [name] d := by
        simp only [copies, List.map_cons, List.map_nil, List.sum_cons, List.sum_nil,
          Nat.add_zero, hfind]
        exact List.count_pos_iff.mpr hd
      omega
    · have := ih hmem
      omega

theorem copies_zero (m : ChannelManager) (names : List Str) (d : ClientId)
    (hnone : ∀ name ch, name ∈ names → UMap.find m.channels_ name = some ch → d ∉ ch.members_) :
    m.copies names d = 0 := by
  induction names with
  | nil => rfl
  | cons n rest ih =>
    rw [copies_cons, ih (fun name ch hn => hnone name ch (List.mem_cons_of_mem _ hn))]
    simp only [copies, List.map_cons, List.map_nil, List.sum_cons, List.sum_nil, Nat.add_zero]
    cases hf : UMap.find m.channels_ n with
    | none => rfl
    | some ch => simpa using List.count_eq_zero_of_not_mem (hnone n ch (List.mem_cons_self _ _) hf)

end ChannelManager

namespace MessageManager

theorem setup_quit : setupDefaultCommands "quit".toList = some handleQuitCommand := rfl

/-- The state after `/quit` of a registered Connection, with the removal
callback of the Server installed: `h1` is the heap after the announcements. -/
theorem quit_state (s : Sys) (c : ClientId) (rs : List Str) (hrs : ∀ r ∈ rs, IsToken r)
    (hreg : c ∈ s.clientManager_.clients_)
    (hcb : s.clientManager_.onClientRemovedCallback_ = some Server.onClientRemoved) :
    ∃ h1 : Heap,
      (∀ d, h1 d = (s.heap d).received
        (List.replicate
          (s.channelManager_.copies (sortStrings (s.heap c).joined_channels_) d)
          ("*** ".toList ++ ((s.heap c).nickname_ ++ " left the server: ".toList
            ++ quitReason rs) ++ ['\n']))) ∧
      (handleMessage s (some c) (joinWords ("/quit".toList :: rs))).heap =
        (s.channelManager_.removeClientFromAllChannels h1 (some c)).2 ∧
      (handleMessage s (some c) (joinWords ("/quit".toList :: rs))).channelManager_ =
        (s.channelManager_.removeClientFromAllChannels h1 (some c)).1 ∧
      (handleMessage s (some c) (joinWords ("/quit".toList :: rs))).clientManager_.clients_ =
        USet.erase s.clientManager_.clients_ c ∧
      (handleMessage s (some c) (joinWords ("/quit".toList :: rs))).clientManager_.nicknameToClient_ =
        UMap.erase s.clientManager_.nicknameToClient_ (h1 c).nickname_ := by
  refine ⟨(sortStrings (s.heap c).joined_channels_).foldl
    (fun h name => s.channelManager_.broadcastToChannel h name
      ("*** ".toList ++ ((s.heap c).nickname_ ++ " left the server: ".toList ++ quitReason rs)))
    s.heap, ?_, ?_⟩
  · intro d
    exact ChannelManager.broadcast_each _ _ _ _ d
  · rw [handleMessage_command s c "/quit".toList rs
      (tokens_cons _ _ ⟨by decide, by decide⟩ hrs) rfl]
    have hsetup : setupDefaultCommands ("/quit".toList.drop 1) = some handleQuitCommand := rfl
    simp only [hsetup]
    have hreg' : c ∈ (s.received (joinWords ("/quit".toList :: rs))).commandSeen.clientManager_.clients_ :=
      hreg
    have hcb' : (s.received (joinWords
        ("/quit".toList :: rs))).commandSeen.clientManager_.onClientRemovedCallback_
        = some Server.onClientRemoved := hcb
    unfold handleQuitCommand
    simp only [Sys.removeClient]
    rw [ClientManager.removeClient_eq, if_pos hreg']
    simp only [hcb', ClientManager.invoke, Server.onClientRemoved]
    exact ⟨rfl, rfl, rfl, rfl⟩

end MessageManager

/-- C24. With the removal callback of the Server installed, a registered
Connection `c` with nickname `n`, every Channel that lists `c` being under a
name of the joined-channel set of `c`, sends `/quit r1 ... rk` (`k ≥ 0` words).
The reason is the words joined by single spaces, or `Client quit.` when there
is none, and the line is `*** n left the server: <reason>` plus a newline.
Every Connection receives the line once for each listing of it in an existing
channel of the joined-channel set of `c`, and nothing else: a member of one of
those channels receives it, a Connection in none of them receives nothing.
Afterwards `c` is not in the client set, its nickname is not a key of the
index, no Channel lists `c`, and the registry has the channel names it had. -/
theorem quit_command (s : Sys) (c : ClientId) (rs : List Str) (hrs : ∀ r ∈ rs, IsToken r)
    (hreg : c ∈ s.clientManager_.clients_)
    (hcb : s.clientManager_.onClientRemovedCallback_ = some Server.onClientRemoved)
    (hsym : ∀ name ch, UMap.find s.channelManager_.channels_ name = some ch → c ∈ ch.members_ →
      name ∈ (s.heap c).joined_channels_) :
    (rs = [] → MessageManager.quitReason rs = "Client quit.".toList) ∧
    (rs ≠ [] → MessageManager.quitReason rs = MessageManager.joinWords rs) ∧
    (∀ d, ((MessageManager.handleMessage s (some c)
        (MessageManager.joinWords ("/quit".toList :: rs))).heap d).output_queue_ =
      (s.heap d).output_queue_ ++
        List.replicate
          (s.channelManager_.copies (sortStrings (s.heap c).joined_channels_) d)
          ("*** ".toList ++ ((s.heap c).nickname_ ++ " left the server: ".toList
            ++ MessageManager.quitReason rs) ++ ['\n'])) ∧
    (∀ d name ch, name ∈ (s.heap c).joined_channels_ →
      UMap.find s.channelManager_.channels_ name = some ch → d ∈ ch.members_ →
      1 ≤ s.channelManager_.copies (sortStrings (s.heap c).joined_channels_) d) ∧
    (∀ d, (∀ name ch, name ∈ (s.heap c).joined_channels_ →
        UMap.find s.channelManager_.channels_ name = some ch → d ∉ ch.members_) →
      s.channelManager_.copies (sortStrings (s.heap c).joined_channels_) d = 0) ∧
    c ∉ (MessageManager.handleMessage s (some c)
      (MessageManager.joinWords ("/quit".toList :: rs))).clientManager_.clients_ ∧
    UMap.find (MessageManager.handleMessage s (some c)
      (MessageManager.joinWords ("/quit".toList :: rs))).clientManager_.nicknameToClient_
      (s.heap c).nickname_ = none ∧
    (∀ name ch, UMap.find (MessageManager.handleMessage s (some c)
        (MessageManager.joinWords ("/quit".toList :: rs))).channelManager_.channels_ name
        = some ch → c ∉ ch.members_) ∧
    UMap.keys (MessageManager.handleMessage s (some c)
      (MessageManager.joinWords ("/quit".toList :: rs))).channelManager_.channels_
      = UMap.keys s.channelManager_.channels_ := by
  obtain ⟨h1, hh1, hheap, hchm, hclients, hindex⟩ :=
    MessageManager.quit_state s c rs hrs hreg hcb
  have hsym1 : ∀ name ch, UMap.find s.channelManager_.channels_ name = some ch →
      c ∈ ch.members_ → name ∈ (h1 c).joined_channels_ := by
    intro name ch hf hm
    rw [hh1 c]
    exact hsym name ch hf hm
  obtain ⟨hnone, hkeys⟩ := ChannelManager.leaveEverything s.channelManager_ h1 c hsym1
  refine ⟨?_, ?_, ?_, ?_, ?_, ?_, ?_, ?_, ?_⟩
  · intro h; rw [h]; rfl
  · intro h
    simp [MessageManager.quitReason, MessageManager.isEmpty_eq_false _ h]
  · intro d
    rw [hheap]
    simp only [ChannelManager.removeClientFromAllChannels]
    rw [ChannelManager.leaveAll_queue]
    show (h1 d).output_queue_ = _
    rw [hh1 d]
    rfl
  · intro d name ch hname hfind hd
    exact ChannelManager.copies_pos _ _ d name ch ((mem_sortStrings _ _).2 hname) hfind hd
  · intro d hd
    exact ChannelManager.copies_zero _ _ d
      (fun name ch hname => hd name ch ((mem_sortStrings _ _).1 hname))
  · rw [hclients]
    simp [USet.mem_erase]
  · have hn : (h1 c).nickname_ = (s.heap c).nickname_ := by rw [hh1 c]; rfl
    rw [hindex, hn, UMap.find_erase, if_pos rfl]
  · rw [hchm]
    exact hnone
  · rw [hchm]
    exact hkeys

set_option maxRecDepth 100000 in
/-- Of the two members of `#room`, Connection `0` sends `/quit bye now`. -/
theorem quit_command_witness :
    MessageManager.joinWords ("/quit".toList :: ["bye".toList, "now".toList])
      = "/quit bye now".toList ∧
    twoInRoom.channelManager_.copies (sortStrings (twoInRoom.heap 0).joined_channels_) 1 = 1 ∧
    "*** ".toList ++ ((twoInRoom.heap 0).nickname_ ++ " left the server: ".toList
            ++ MessageManager.quitReason ["bye".toList, "now".toList]) ++ ['\n']
      = "*** guest4 left the server: bye now\n".toList ∧
    ((MessageManager.handleMessage twoInRoom (some 0)
        (MessageManager.joinWords ("/quit".toList :: ["bye".toList, "now".toList]))).heap
        1).output_queue_ =
      (twoInRoom.heap 1).output_queue_ ++
        List.replicate
          (twoInRoom.channelManager_.copies (sortStrings (twoInRoom.heap 0).joined_channels_) 1)
          ("*** ".toList ++ ((twoInRoom.heap 0).nickname_ ++ " left the server: ".toList
            ++ MessageManager.quitReason ["bye".toList, "now".toList]) ++ ['\n']) :=
  ⟨by decide, by decide, by decide,
    (quit_command twoInRoom 0 ["bye".toList, "now".toList]
      (MessageManager.tokens_pair _ _ ⟨by decide, by decide⟩ ⟨by decide, by decide⟩)
      (by decide) rfl
      (by
        intro name ch hf _
        have hk : name ∈ UMap.keys twoInRoom.channelManager_.channels_ := by
          by_contra hk
          rw [(UMap.find_eq_none_iff _ _).2 hk] at hf
          exact Option.noConfusion hf
        have hkeys : UMap.keys twoInRoom.channelManager_.channels_ = ["#room".toList] := by
          decide
        rw [hkeys, List.mem_singleton] at hk
        rw [hk]
        decide)).2.2.1 1⟩

/-! ## Commands without a handler -/

namespace MessageManager

/-- With a word under way, `readArgs` yields first that word extended up to
the next white space. -/
theorem readArgs_first (l : Str) :
    ∀ cur : Str, cur ≠ [] →
      ∃ args, readArgs l cur = (cur ++ l.takeWhile (fun ch => !isspace ch)) :: args := by
  induction l with
  | nil =>
    intro cur hcur
    exact ⟨[], by simp [readArgs, isEmpty_eq_false _ hcur]⟩
  | cons a rest ih =>
    intro cur hcur
    by_cases ha : isspace a = true
    · exact ⟨readArgs rest [], by simp [readArgs, ha, isEmpty_eq_false _ hcur]⟩
    · have ha' : isspace a = false := by simpa using ha
      obtain ⟨args, hargs⟩ := ih (cur ++ [a]) (by simp)
      exact ⟨args, by simp [readArgs, ha', hargs]⟩

/-- The words of a line that starts with a slash: the first is the line up to
its first white space. -/
theorem parse_slash (l : Str) (hslash : l.head? = some '/') :
    ∃ args, parseCommandArgs l = l.takeWhile (fun ch => !isspace ch) :: args := by
  cases l with
  | nil => exact Option.noConfusion hslash
  | cons a rest =>
    have ha : a = '/' := by simpa using hslash
    subst ha
    obtain ⟨args, hargs⟩ := readArgs_first rest ['/'] (by simp)
    refine ⟨args, ?_⟩
    have hsp : isspace '/' = false := by decide
    simp only [parseCommandArgs, readArgs, hsp, Bool.false_eq_true, if_false, List.nil_append,
      hargs, List.takeWhile_cons, Bool.not_false, if_true, List.singleton_append]

theorem takeWhile_dropLast_cr (l : Str) (hlast : l.getLast? = some '\r') :
    l.dropLast.takeWhile (fun ch => !isspace ch) = l.takeWhile (fun ch => !isspace ch) := by
  have hl : l = l.dropLast ++ ['\r'] :=
    (List.dropLast_append_getLast? '\r' (Option.mem_def.mpr hlast)).symm
  generalize l.dropLast = pre at hl
  subst hl
  clear hlast
  induction pre with
  | nil => simp [List.takeWhile, show isspace '\r' = true by decide]
  | cons a rest ih =>
    by_cases ha : isspace a = true
    · simp [List.takeWhile_cons, ha]
    · have ha' : isspace a = false := by simpa using ha
      simp only [List.cons_append, List.takeWhile_cons, ha', Bool.not_false, if_true]
      rw [ih]

theorem head_dropLast_cr (l : Str) (hslash : l.head? = some '/')
    (hlast : l.getLast? = some '\r') : l.dropLast.head? = some '/' := by
  cases l with
  | nil => exact Option.noConfusion hslash
  | cons a rest =>
    cases rest with
    | nil =>
      have ha : a = '/' := by simpa using hslash
      subst ha
      exact absurd hlast (by decide)
    | cons b rest2 => simpa using hslash

/-- The text `Unknown command: <name>` does not end in a newline when the
name is free of white space. -/
theorem unknown_text_last (name : Str) (hname : ∀ ch ∈ name, isspace ch = false) :
    ∃ ch, ("Unknown command: ".toList ++ name).getLast? = some ch ∧ ch ≠ '\n' := by
  by_cases hne : name = []
  · subst hne
    exact ⟨' ', by decide, by decide⟩
  · obtain ⟨ch, hch, hsp⟩ := token_last name ⟨hne, hname⟩
    exact ⟨ch, last_append _ _ ch hch, ne_newline_of_not_space ch hsp⟩

/-- The state after a line that starts with a slash and names no handler. -/
theorem handleMessage_unknown (s : Sys) (c : ClientId) (line : Str)
    (hslash : line.head? = some '/')
    (hname : (line.takeWhile (fun ch => !isspace ch)).drop 1 ∉ commandNames) :
    handleMessage s (some c) line =
      sendServerMessage (s.received line).commandSeen (some c)
        ("Unknown command: ".toList ++ (line.takeWhile (fun ch => !isspace ch)).drop 1) := by
  have hclean : ∀ clean : Str, clean.head? = some '/' →
      clean.takeWhile (fun ch => !isspace ch) = line.takeWhile (fun ch => !isspace ch) →
      handleCommand (s.received line) (some c) clean =
        sendServerMessage (s.received line).commandSeen (some c)
          ("Unknown command: ".toList ++ (line.takeWhile (fun ch => !isspace ch)).drop 1) := by
    intro clean hhead htw
    have hne : clean ≠ [] := by
      intro he
      rw [he] at hhead
      exact Option.noConfusion hhead
    obtain ⟨args, hargs⟩ := parse_slash clean hhead
    unfold handleCommand
    simp only [isEmpty_eq_false _ hne, Bool.false_eq_true, if_false, hargs, htw,
      setup_none _ hname]
    rfl
  unfold handleMessage
  by_cases hcr : line.getLast? = some '\r'
  · have hhead := head_dropLast_cr line hslash hcr
    have hne : line.dropLast ≠ [] := by
      intro he
      rw [he] at hhead
      exact Option.noConfusion hhead
    simp only [hcr, if_true, isEmpty_eq_false _ hne, Bool.false_eq_true, if_false, hhead]
    exact hclean _ hhead (takeWhile_dropLast_cr line hcr)
  · have hne : line ≠ [] := by
      intro he
      rw [he] at hslash
      exact Option.noConfusion hslash
    simp only [hcr, if_false, isEmpty_eq_false _ hne, Bool.false_eq_true, hslash, if_true]
    exact hclean _ hslash rfl

end MessageManager

/-- C28. A line starts with `/`, and its first word (the line up to its first
white space) without the leading `/` is none of the names `nick`, `join`,
`part`, `quit`, `list`, `who`, `msg`, `motd`, `help`. Then no handler is
registered under the name, and `handleMessage` for a sender `c` leaves both
registries and every other `Client` object as they were and appends to the
queue of `c` the one line `*** Unknown command: <name>` plus a newline,
changing nothing else of `c`. -/
theorem unknown_command (s : Sys) (c : ClientId) (line : Str)
    (hslash : line.head? = some '/')
    (hname : (line.takeWhile (fun ch => !isspace ch)).drop 1 ∉ commandNames) :
    MessageManager.setupDefaultCommands ((line.takeWhile (fun ch => !isspace ch)).drop 1) = none ∧
    (MessageManager.handleMessage s (some c) line).clientManager_ = s.clientManager_ ∧
    (MessageManager.handleMessage s (some c) line).channelManager_ = s.channelManager_ ∧
    (∀ d, d ≠ c → (MessageManager.handleMessage s (some c) line).heap d = s.heap d) ∧
    (MessageManager.handleMessage s (some c) line).heap c =
      (s.heap c).received
        ["*** Unknown command: ".toList ++ (line.takeWhile (fun ch => !isspace ch)).drop 1
          ++ ['\n']] := by
  have hfree : ∀ ch ∈ (line.takeWhile (fun ch => !isspace ch)).drop 1, isspace ch = false := by
    intro ch hch
    have h := List.mem_takeWhile_imp (List.mem_of_mem_drop hch)
    simpa using h
  obtain ⟨ch, hlast, hch⟩ := MessageManager.unknown_text_last _ hfree
  have hheap := MessageManager.sendServerMessage_heap_of_last
    (s.received line).commandSeen c _ ch hlast hch
  rw [MessageManager.handleMessage_unknown s c line hslash hname]
  refine ⟨MessageManager.setup_none _ hname, rfl, rfl, ?_, ?_⟩
  · intro d hd
    rw [hheap]
    simp [Heap.call, Function.update_noteq hd, Sys.received, Sys.commandSeen]
  · rw [hheap]
    simp [Heap.call, Sys.received, Sys.commandSeen, Client.pushMessageToQueue, Client.received]

/-- The registered Connection `0` sends `/Join #a`, a command that is not in
lower case, with a carriage return at the end of the line. -/
theorem unknown_command_witness :
    ("/Join #a\r".toList.takeWhile (fun ch => !isspace ch)).drop 1 = "Join".toList ∧
    "*** Unknown command: ".toList
        ++ ("/Join #a\r".toList.takeWhile (fun ch => !isspace ch)).drop 1 ++ ['\n']
      = "*** Unknown command: Join\n".toList ∧
    (MessageManager.handleMessage oneSession (some 0) "/Join #a\r".toList).heap 0 =
      (oneSession.heap 0).received
        ["*** Unknown command: ".toList
          ++ ("/Join #a\r".toList.takeWhile (fun ch => !isspace ch)).drop 1 ++ ['\n']] :=
  ⟨by decide, by decide,
    (unknown_command oneSession 0 "/Join #a\r".toList (by decide) (by decide)).2.2.2.2⟩

/-! ## The list of channels -/

theorem strLt_cons (a b : Char) (as bs : Str) :
    strLt (a :: as) (b :: bs) =
      if a.toNat < b.toNat then true else if b.toNat < a.toNat then false else strLt as bs := rfl

theorem strLt_nil_right (a : Str) : strLt a [] = false := by
  cases a <;> rfl

theorem strLe_total (a : Str) : ∀ b : Str, strLt b a = false ∨ strLt a b = false := by
  induction a with
  | nil => intro b; exact Or.inl (strLt_nil_right b)
  | cons x as ih =>
    intro b
    cases b with
    | nil => exact Or.inr rfl
    | cons y bs =>
      rw [strLt_cons, strLt_cons]
      by_cases h1 : x.toNat < y.toNat
      · left
        rw [if_neg (by omega), if_pos h1]
      · by_cases h2 : y.toNat < x.toNat
        · right
          rw [if_neg h1, if_pos h2]
        · rw [if_neg h2, if_neg h1, if_neg h1, if_neg h2]
          exact ih bs

theorem strLe_trans (a : Str) :
    ∀ b c : Str, strLt b a = false → strLt c b = false → strLt c a = false := by
  induction a with
  | nil => intro b c _ _; exact strLt_nil_right c
  | cons x as ih =>
    intro b c h1 h2
    cases b with
    | nil => exact absurd h1 (by simp [strLt])
    | cons y bs =>
      cases c with
      | nil => exact absurd h2 (by simp [strLt])
      | cons z cs =>
        rw [strLt_cons] at h1 h2 ⊢
        by_cases hyx : y.toNat < x.toNat
        · rw [if_pos hyx] at h1
          exact absurd h1 (by simp)
        · rw [if_neg hyx] at h1
          by_cases hzy : z.toNat < y.toNat
          · rw [if_pos hzy] at h2
            exact absurd h2 (by simp)
          · rw [if_neg hzy] at h2
            rw [if_neg (by omega)]
            by_cases hxy : x.toNat < y.toNat
            · rw [if_pos (by omega)]
            · rw [if_neg hxy] at h1
              by_cases hyz : y.toNat < z.toNat
              · rw [if_pos (by omega)]
              · rw [if_neg hyz] at h2
                rw [if_neg (by omega)]
                exact ih bs cs h1 h2

theorem strLe_antisymm (a : Str) :
    ∀ b : Str, strLt b a = false → strLt a b = false → a = b := by
  induction a with
  | nil =>
    intro b _ h2
    cases b with
    | nil => rfl
    | cons y bs => exact absurd h2 (by simp [strLt])
  | cons x as ih =>
    intro b h1 h2
    cases b with
    | nil => exact absurd h1 (by simp [strLt])
    | cons y bs =>
      rw [strLt_cons] at h1 h2
      by_cases hyx : y.toNat < x.toNat
      · rw [if_pos hyx] at h1
        exact absurd h1 (by simp)
      · by_cases hxy : x.toNat < y.toNat
        · rw [if_pos hxy] at h2
          exact absurd h2 (by simp)
        · rw [if_neg hyx, if_neg hxy] at h1
          rw [if_neg hxy, if_neg hyx] at h2
          have hx : x = y := by
            have hnat : x.toNat = y.toNat := by omega
            have hof := congrArg Char.ofNat hnat
            simpa using hof
          rw [hx, ih bs h1 h2]

theorem sortStrings_perm (v : List Str) : (sortStrings v).Perm v :=
  List.perm_insertionSort _ v

theorem sortStrings_sorted (v : List Str) :
    (sortStrings v).Pairwise (fun a b => strLt b a = false) := by
  haveI : IsTotal Str (fun a b => strLt b a = false) := ⟨fun a b => strLe_total a b⟩
  haveI : IsTrans Str (fun a b => strLt b a = false) :=
    ⟨fun a b c h1 h2 => strLe_trans a b c h1 h2⟩
  exact List.sorted_insertionSort (fun a b => strLt b a = false) v

theorem sortStrings_ascending (v : List Str) (hv : v.Nodup) :
    (sortStrings v).Pairwise (fun a b => strLt a b = true) := by
  have hnd : (sortStrings v).Nodup := (sortStrings_perm v).nodup_iff.2 hv
  have hboth := (sortStrings_sorted v).and hnd
  refine hboth.imp ?_
  intro a b hab
  by_contra hlt
  have hlt' : strLt a b = false := by simpa using hlt
  exact hab.2 (strLe_antisymm a b hab.1 hlt')

namespace MessageManager

theorem setup_list : setupDefaultCommands "list".toList = some handleListCommand := rfl

/-- The lines of `/list`, one for each name in turn. -/
theorem list_fold (c : ClientId) (chm : ChannelManager) (names : List Str) :
    ∀ s : Sys, s.channelManager_ = chm →
      (names.foldl
        (fun s channelName =>
          sendServerMessage s (some c)
            ("- ".toList ++ channelName ++ " (".toList
              ++ (toString (s.channelManager_.getChannelMemberCount channelName)).toList
              ++ " members)".toList))
        s).clientManager_ = s.clientManager_ ∧
      (names.foldl
        (fun s channelName =>
          sendServerMessage s (some c)
            ("- ".toList ++ channelName ++ " (".toList
              ++ (toString (s.channelManager_.getChannelMemberCount channelName)).toList
              ++ " members)".toList))
        s).channelManager_ = chm ∧
      (∀ d, d ≠ c → (names.foldl
        (fun s channelName =>
          sendServerMessage s (some c)
            ("- ".toList ++ channelName ++ " (".toList
              ++ (toString (s.channelManager_.getChannelMemberCount channelName)).toList
              ++ " members)".toList))
        s).heap d = s.heap d) ∧
      (names.foldl
        (fun s channelName =>
          sendServerMessage s (some c)
            ("- ".toList ++ channelName ++ " (".toList
              ++ (toString (s.channelManager_.getChannelMemberCount channelName)).toList
              ++ " members)".toList))
        s).heap c = (s.heap c).received (names.map (fun channelName =>
          "*** ".toList ++ ("- ".toList ++ channelName ++ " (".toList
              ++ (toString (chm.getChannelMemberCount channelName)).toList
              ++ " members)".toList) ++ ['\n'])) := by
  induction names with
  | nil =>
    intro s hs
    exact ⟨rfl, hs, fun _ _ => rfl, (Client.received_nil _).symm⟩
  | cons name rest ih =>
    intro s hs
    have hheap := sendServerMessage_heap_of_last s c
      ("- ".toList ++ name ++ " (".toList
        ++ (toString (s.channelManager_.getChannelMemberCount name)).toList
        ++ " members)".toList) ')' (last_append _ " members)".toList ')' rfl) (by decide)
    obtain ⟨h1, h2, h3, h4⟩ := ih (sendServerMessage s (some c)
      ("- ".toList ++ name ++ " (".toList
        ++ (toString (s.channelManager_.getChannelMemberCount name)).toList
        ++ " members)".toList)) hs
    simp only [List.foldl_cons]
    refine ⟨h1, h2, ?_, ?_⟩
    · intro d hd
      rw [h3 d hd, hheap]
      simp [Heap.call, Function.update_noteq hd]
    · rw [h4, hheap, hs]
      simp [Heap.call, Client.received, Client.pushMessageToQueue]

/-- The state after `/list` when a channel exists. -/
theorem list_state (s : Sys) (c : ClientId) (hsome : s.channelManager_.channels_ ≠ []) :
    (handleMessage s (some c) "/list".toList).clientManager_ = s.clientManager_ ∧
    (handleMessage s (some c) "/list".toList).channelManager_ = s.channelManager_ ∧
    (∀ d, d ≠ c → (handleMessage s (some c) "/list".toList).heap d = s.heap d) ∧
    (handleMessage s (some c) "/list".toList).heap c =
      (s.heap c).received
        (("*** ".toList ++ "Active channels:".toList ++ ['\n']) ::
          s.channelManager_.getChannelList.map (fun channelName =>
            "*** ".toList ++ ("- ".toList ++ channelName ++ " (".toList
              ++ (toString (s.channelManager_.getChannelMemberCount channelName)).toList
              ++ " members)".toList) ++ ['\n'])) := by
  have hline : "/list".toList = joinWords ("/list".toList :: []) := rfl
  have hne : s.channelManager_.getChannelList ≠ [] := by
    intro he
    obtain ⟨e, rest, hcons⟩ := List.exists_cons_of_ne_nil hsome
    have hmem : e.1 ∈ s.channelManager_.getChannelList := by
      unfold ChannelManager.getChannelList
      rw [mem_sortStrings, hcons]
      exact List.mem_map.2 ⟨e, List.mem_cons_self _ _, rfl⟩
    rw [he] at hmem
    exact absurd hmem (List.not_mem_nil _)
  rw [hline, handleMessage_command s c "/list".toList []
    (by
      intro t ht
      rw [List.mem_singleton] at ht
      rw [ht]
      exact ⟨by decide, by decide⟩) rfl]
  have hsetup : setupDefaultCommands ("/list".toList.drop 1) = some handleListCommand := rfl
  simp only [hsetup]
  unfold handleListCommand
  have hne' : (s.received (joinWords ["/list".toList])).commandSeen.channelManager_.getChannelList
      ≠ [] := hne
  simp only [isEmpty_eq_false _ hne', Bool.false_eq_true, if_false]
  have hheap := sendServerMessage_heap_of_last (s.received (joinWords ["/list".toList])).commandSeen
    c "Active channels:".toList ':' rfl (by decide)
  obtain ⟨h1, h2, h3, h4⟩ := list_fold c s.channelManager_
    (s.received (joinWords ["/list".toList])).commandSeen.channelManager_.getChannelList
    (sendServerMessage (s.received (joinWords ["/list".toList])).commandSeen (some c)
      "Active channels:".toList) rfl
  refine ⟨h1, h2, ?_, ?_⟩
  · intro d hd
    rw [h3 d hd, hheap]
    simp [Heap.call, Function.update_noteq hd, Sys.received, Sys.commandSeen]
  · rw [h4, hheap]
    simp [Heap.call, Client.received, Client.pushMessageToQueue, Sys.received, Sys.commandSeen]

end MessageManager

/-- C29. In a Channel Registry whose map holds each name once,
`getChannelList` returns exactly the names of the channels, each once, in
strictly ascending order of `operator<` on strings (`strLt`, which compares
character by character and takes a proper prefix as smaller). When at least
one channel exists, `/list` sent by `c` changes neither registry nor any other
`Client` object, and appends to the queue of `c` the header
`*** Active channels:` and then, for each name of `getChannelList` in that
order, the line `*** - <name> (<k> members)`, each followed by a newline;
`k` is `getChannelMemberCount`, the number of members of the Channel under
that name. -/
theorem list_command (s : Sys) (c : ClientId)
    (hkeys : (UMap.keys s.channelManager_.channels_).Nodup) :
    (∀ name, name ∈ s.channelManager_.getChannelList ↔
      name ∈ UMap.keys s.channelManager_.channels_) ∧
    (∀ name, name ∈ UMap.keys s.channelManager_.channels_ ↔
      ∃ ch, UMap.find s.channelManager_.channels_ name = some ch) ∧
    s.channelManager_.getChannelList.Nodup ∧
    s.channelManager_.getChannelList.length = s.channelManager_.channels_.length ∧
    s.channelManager_.getChannelList.Pairwise (fun a b => strLt a b = true) ∧
    (∀ name ch, UMap.find s.channelManager_.channels_ name = some ch →
      s.channelManager_.getChannelMemberCount name = ch.members_.length) ∧
    (s.channelManager_.channels_ ≠ [] →
      (MessageManager.handleMessage s (some c) "/list".toList).clientManager_
        = s.clientManager_ ∧
      (MessageManager.handleMessage s (some c) "/list".toList).channelManager_
        = s.channelManager_ ∧
      (∀ d, d ≠ c → (MessageManager.handleMessage s (some c) "/list".toList).heap d = s.heap d) ∧
      (MessageManager.handleMessage s (some c) "/list".toList).heap c =
        (s.heap c).received
          (("*** ".toList ++ "Active channels:".toList ++ ['\n']) ::
            s.channelManager_.getChannelList.map (fun channelName =>
              "*** ".toList ++ ("- ".toList ++ channelName ++ " (".toList
                ++ (toString (s.channelManager_.getChannelMemberCount channelName)).toList
                ++ " members)".toList) ++ ['\n']))) := by
  refine ⟨fun name => mem_sortStrings _ name, ?_, ?_, ?_, sortStrings_ascending _ hkeys, ?_,
    MessageManager.list_state s c⟩
  · intro name
    constructor
    · intro hmem
      cases hfind : UMap.find s.channelManager_.channels_ name with
      | none => exact absurd hmem ((UMap.find_eq_none_iff _ _).1 hfind)
      | some ch => exact ⟨ch, rfl⟩
    · rintro ⟨ch, hch⟩
      by_contra hno
      rw [(UMap.find_eq_none_iff _ _).2 hno] at hch
      exact Option.noConfusion hch
  · exact (sortStrings_perm _).nodup_iff.2 hkeys
  · rw [ChannelManager.getChannelList, (sortStrings_perm _).length_eq]
    simp [UMap.keys]
  · intro name ch hfind
    simp [ChannelManager.getChannelMemberCount, hfind, Channel.getMemberCount]

set_option maxRecDepth 100000 in
/-- The channels `#room`, `#b` and `#a` were created in this order; `#room`
has two members, the others one. -/
theorem list_command_witness :
    UMap.keys threeChannels.channelManager_.channels_
      = ["#room".toList, "#b".toList, "#a".toList] ∧
    threeChannels.channelManager_.getChannelList
      = ["#a".toList, "#b".toList, "#room".toList] ∧
    ((MessageManager.handleMessage threeChannels (some 1) "/list".toList).heap 1).output_queue_
      = (threeChannels.heap 1).output_queue_ ++
        ["*** Active channels:\n".toList, "*** - #a (1 members)\n".toList,
         "*** - #b (1 members)\n".toList, "*** - #room (2 members)\n".toList] ∧
    threeChannels.channelManager_.getChannelList.Pairwise (fun a b => strLt a b = true) :=
  ⟨by decide, by decide, by decide, (list_command threeChannels 1 (by decide)).2.2.2.2.1⟩

/-! ## Outbound lines end with one newline -/

theorem endsLine_of_body (body : Str) (h : '\n' ∉ body) : EndsLine (body ++ ['\n']) := by
  refine ⟨by simp, by simp, ?_⟩
  rw [List.dropLast_concat]
  exact h

theorem Grows.refl (h : Heap) : Grows h h :=
  fun _ => ⟨[], by simp, fun _ hx => absurd hx (List.not_mem_nil _)⟩

theorem Grows.trans {h1 h2 h3 : Heap} (h12 : Grows h1 h2) (h23 : Grows h2 h3) : Grows h1 h3 := by
  intro d
  obtain ⟨n1, e1, g1⟩ := h12 d
  obtain ⟨n2, e2, g2⟩ := h23 d
  refine ⟨n1 ++ n2, by rw [e2, e1, List.append_assoc], ?_⟩
  intro x hx
  rcases List.mem_append.1 hx with hx | hx
  · exact g1 x hx
  · exact g2 x hx

theorem Grows.of_queue {h h' : Heap}
    (hq : ∀ d, (h' d).output_queue_ = (h d).output_queue_) : Grows h h' :=
  fun d => ⟨[], by simp [hq d], fun _ hx => absurd hx (List.not_mem_nil _)⟩

theorem Grows.of_received {h h' : Heap} (body : Str) (k : ClientId → Nat) (hbody : '\n' ∉ body)
    (hq : ∀ d, h' d = (h d).received (List.replicate (k d) (body ++ ['\n']))) : Grows h h' := by
  intro d
  refine ⟨List.replicate (k d) (body ++ ['\n']), by rw [hq d]; rfl, ?_⟩
  intro x hx
  rw [(List.mem_replicate.1 hx).2]
  exact endsLine_of_body body hbody

theorem Heap.call_queue (h : Heap) (c : ClientId) (f : Client → Client)
    (hf : ∀ x, (f x).output_queue_ = x.output_queue_) (d : ClientId) :
    ((h.call c f) d).output_queue_ = (h d).output_queue_ := by
  unfold Heap.call
  by_cases hd : d = c
  · subst hd
    rw [Function.update_same, hf]
  · rw [Function.update_noteq hd]

theorem nl_append (a b : Str) (ha : '\n' ∉ a) (hb : '\n' ∉ b) : '\n' ∉ a ++ b := by
  intro h
  rcases List.mem_append.1 h with h | h
  · exact ha h
  · exact hb h

theorem nl_of_nospace (t : Str) (ht : ∀ ch ∈ t, isspace ch = false) : '\n' ∉ t := by
  intro h
  exact absurd (ht _ h) (by decide)

theorem nl_drop (t : Str) (n : Nat) (ht : '\n' ∉ t) : '\n' ∉ t.drop n :=
  fun h => ht (List.mem_of_mem_drop h)

theorem nl_dropLast (t : Str) (ht : '\n' ∉ t) : '\n' ∉ t.dropLast :=
  fun h => ht (List.dropLast_subset t h)

theorem digitChar_nl (n : Nat) : Nat.digitChar n ≠ '\n' := by
  by_cases h : n < 16
  · interval_cases n <;> decide
  · unfold Nat.digitChar
    iterate 16 rw [if_neg (by omega)]
    decide

theorem toDigitsCore_nl (b : Nat) :
    ∀ (fuel n : Nat) (ds : List Char), '\n' ∉ ds → '\n' ∉ Nat.toDigitsCore b fuel n ds := by
  intro fuel
  induction fuel with
  | zero => intro n ds hds; simpa [Nat.toDigitsCore] using hds
  | succ fuel ih =>
    intro n ds hds
    have hcons : '\n' ∉ Nat.digitChar (n % b) :: ds := by
      intro h
      rcases List.mem_cons.1 h with h | h
      · exact digitChar_nl _ h.symm
      · exact hds h
    simp only [Nat.toDigitsCore]
    split
    · exact hcons
    · exact ih _ _ hcons

theorem nat_toString_nl (n : Nat) : '\n' ∉ (toString n).toList := by
  show '\n' ∉ (Nat.repr n).toList
  unfold Nat.repr Nat.toDigits
  exact toDigitsCore_nl 10 _ _ _ (List.not_mem_nil _)

theorem int_toString_nl (i : Int) : '\n' ∉ (toString i).toList := by
  cases i with
  | ofNat n => exact nat_toString_nl n
  | negSucc n =>
    show '\n' ∉ ("-" ++ Nat.repr (n + 1)).data
    rw [String.data_append]
    exact nl_append _ _ (by decide) (nat_toString_nl (n + 1))

namespace MessageManager

theorem readArgs_nospace (l : Str) :
    ∀ cur : Str, (∀ ch ∈ cur, isspace ch = false) →
      ∀ t ∈ readArgs l cur, ∀ ch ∈ t, isspace ch = false := by
  induction l with
  | nil =>
    intro cur hcur t ht
    unfold readArgs at ht
    split at ht
    · exact absurd ht (List.not_mem_nil _)
    · rw [List.mem_singleton] at ht
      rw [ht]
      exact hcur
  | cons a rest ih =>
    intro cur hcur t ht
    unfold readArgs at ht
    have hnil : ∀ ch ∈ ([] : Str), isspace ch = false := fun _ h => absurd h (List.not_mem_nil _)
    split at ht
    · split at ht
      · exact ih [] hnil t ht
      · rcases List.mem_cons.1 ht with h | h
        · rw [h]
          exact hcur
        · exact ih [] hnil t h
    · rename_i hsp
      refine ih (cur ++ [a]) ?_ t ht
      intro ch hch
      rcases List.mem_append.1 hch with h | h
      · exact hcur ch h
      · rw [List.mem_singleton] at h
        rw [h]
        simpa using hsp

theorem parse_nl (l : Str) : ∀ t ∈ parseCommandArgs l, '\n' ∉ t :=
  fun t ht => nl_of_nospace t
    (readArgs_nospace l [] (fun _ h => absurd h (List.not_mem_nil _)) t ht)

theorem joinWords_nl (ws : List Str) (hws : ∀ t ∈ ws, '\n' ∉ t) : '\n' ∉ joinWords ws := by
  induction ws with
  | nil => simp [joinWords]
  | cons w rest ih =>
    have hw := hws w (List.mem_cons_self _ _)
    have hrest : ∀ t ∈ rest, '\n' ∉ t := fun t ht => hws t (List.mem_cons_of_mem _ ht)
    cases rest with
    | nil => simpa [joinWords] using hw
    | cons w2 rest2 =>
      simp only [joinWords]
      refine nl_append _ _ hw ?_
      intro h
      rcases List.mem_cons.1 h with h | h
      · exact absurd h (by decide)
      · exact ih hrest h

theorem withHash_nl (X : Str) (hX : '\n' ∉ X) : '\n' ∉ withHash X := by
  unfold withHash
  split
  · intro h
    rcases List.mem_cons.1 h with h | h
    · exact absurd h (by decide)
    · exact hX h
  · exact hX

end MessageManager

theorem nl_of_last (t : Str) (ht : '\n' ∉ t) : t.getLast? ≠ some '\n' := by
  intro h
  have hl : t = t.dropLast ++ ['\n'] :=
    (List.dropLast_append_getLast? '\n' (Option.mem_def.mpr h)).symm
  apply ht
  rw [hl]
  simp

theorem Grows.send (h : Heap) (c : ClientId) (text : Str) (ht : '\n' ∉ text) :
    Grows h (ClientManager.sendMessageToClient h (some c) text) := by
  have hheap : ClientManager.sendMessageToClient h (some c) text =
      h.call c (fun cl => cl.pushMessageToQueue (text ++ ['\n'])) := by
    simp only [ClientManager.sendMessageToClient, if_pos (nl_of_last text ht)]
  rw [hheap]
  intro d
  by_cases hd : d = c
  · subst hd
    refine ⟨[text ++ ['\n']], by simp [Heap.call, Client.pushMessageToQueue], ?_⟩
    intro x hx
    rw [List.mem_singleton.1 hx]
    exact endsLine_of_body text ht
  · exact ⟨[], by simp [Heap.call, Function.update_noteq hd],
      fun _ hx => absurd hx (List.not_mem_nil _)⟩

theorem Grows.server (s : Sys) (c : ClientId) (msg : Str) (hm : '\n' ∉ msg) :
    Grows s.heap (MessageManager.sendServerMessage s (some c) msg).heap :=
  Grows.send s.heap c ("*** ".toList ++ msg) (nl_append _ _ (by decide) hm)

theorem Grows.toChannel (m : ChannelManager) (h : Heap) (name text : Str) (ht : '\n' ∉ text) :
    Grows h (m.broadcastToChannel h name text) :=
  Grows.of_received text (fun d => m.copies [name] d) ht
    (ChannelManager.broadcastToChannel_apply m h name text)

theorem Grows.toClients {W : Type} (m : ClientManager W) (h : Heap) (text : Str)
    (ht : '\n' ∉ text) : Grows h (m.broadcastMessage h text none) :=
  Grows.of_received text (fun d => if some d ≠ none then m.clients_.count d else 0) ht
    (ClientManager.broadcastMessage_apply m h text none)

/-- The data that the outbound lines are made of are the same in `s` and `t`. -/
theorem Sys.Clean.of_same_names (s t : Sys)
    (hn : ∀ d, (t.heap d).nickname_ = (s.heap d).nickname_)
    (hj : ∀ d, (t.heap d).joined_channels_ = (s.heap d).joined_channels_)
    (ha : ∀ d, (t.heap d).active_channel_ = (s.heap d).active_channel_)
    (hk : UMap.keys t.channelManager_.channels_ = UMap.keys s.channelManager_.channels_)
    (hm : t.messageManager_.motd_ = s.messageManager_.motd_) (hs : s.Clean) : t.Clean := by
  obtain ⟨h1, h2, h3, h4, h5⟩ := hs
  refine ⟨fun d => ?_, fun d => ?_, fun d => ?_, ?_, ?_⟩
  · rw [hn]; exact h1 d
  · rw [hj]; exact h2 d
  · rw [ha]; exact h3 d
  · rw [hk]; exact h4
  · rw [hm]; exact h5

theorem Heap.call_push (h : Heap) (c : ClientId) (x : Str) (d : ClientId) :
    ((h.call c (fun cl => cl.pushMessageToQueue x)) d).nickname_ = (h d).nickname_ ∧
    ((h.call c (fun cl => cl.pushMessageToQueue x)) d).joined_channels_
      = (h d).joined_channels_ ∧
    ((h.call c (fun cl => cl.pushMessageToQueue x)) d).active_channel_
      = (h d).active_channel_ := by
  by_cases hd : d = c
  · subst hd
    simp [Heap.call, Client.pushMessageToQueue]
  · simp [Heap.call, Function.update_noteq hd]

theorem Sys.Clean.after_reply (s : Sys) (c : ClientId) (msg : Str) (hs : s.Clean) :
    (MessageManager.sendServerMessage s (some c) msg).Clean := by
  refine Sys.Clean.of_same_names s _ ?_ ?_ ?_ rfl rfl hs
  · intro d
    rw [MessageManager.sendServerMessage_heap]
    exact (Heap.call_push _ _ _ d).1
  · intro d
    rw [MessageManager.sendServerMessage_heap]
    exact (Heap.call_push _ _ _ d).2.1
  · intro d
    rw [MessageManager.sendServerMessage_heap]
    exact (Heap.call_push _ _ _ d).2.2

/-- A sequence of server messages to `c`, the text of each made from the state
it is sent in. -/
theorem Grows.fold {α : Type} (c : ClientId) (f : Sys → α → Str) (P : Sys → Prop)
    (hP : ∀ t msg, P t → P (MessageManager.sendServerMessage t (some c) msg)) :
    ∀ items : List α, (∀ t a, P t → a ∈ items → '\n' ∉ f t a) →
      ∀ s, P s →
        Grows s.heap
          (items.foldl (fun t a => MessageManager.sendServerMessage t (some c) (f t a)) s).heap := by
  intro items
  induction items with
  | nil => intro _ s _; exact Grows.refl _
  | cons a rest ih =>
    intro hf s hs
    simp only [List.foldl_cons]
    exact Grows.trans (Grows.server s c (f s a) (hf s a hs (List.mem_cons_self _ _)))
      (ih (fun t b ht hb => hf t b ht (List.mem_cons_of_mem _ hb)) _ (hP s _ hs))

theorem intersperse_flatten_nl (sep : Str) (hsep : '\n' ∉ sep) (l : List Str)
    (hl : ∀ n ∈ l, '\n' ∉ n) : '\n' ∉ (l.intersperse sep).flatten := by
  induction l with
  | nil => simp
  | cons a rest ih =>
    have ha := hl a (List.mem_cons_self _ _)
    have hrest : ∀ n ∈ rest, '\n' ∉ n := fun n hn => hl n (List.mem_cons_of_mem _ hn)
    cases rest with
    | nil => simpa using ha
    | cons b rest2 =>
      rw [List.intersperse_cons_cons, List.flatten_cons, List.flatten_cons]
      exact nl_append _ _ ha (nl_append _ _ hsep (ih hrest))

theorem MessageManager.whoChannelsStr_nl (channels : List Str)
    (h : ∀ n ∈ channels, '\n' ∉ n) : '\n' ∉ MessageManager.whoChannelsStr channels := by
  unfold MessageManager.whoChannelsStr
  split
  · exact List.not_mem_nil _
  · exact nl_append _ _ (by decide) (intersperse_flatten_nl _ (by decide) channels h)

theorem ClientManager.updateClientNickname_queue {W : Type} (m : ClientManager W) (h : Heap)
    (c : ClientId) (X : Str) (d : ClientId) :
    (((m.updateClientNickname h (some c) X).2.2) d).output_queue_ = (h d).output_queue_ := by
  unfold ClientManager.updateClientNickname
  simp only []
  split
  · rfl
  · split
    · rfl
    · exact Heap.call_queue h c (fun cl => cl.setNickname X) (fun _ => rfl) d

theorem ChannelManager.joinChannel_queue (m : ChannelManager) (h : Heap) (c : ClientId)
    (name : Str) (d : ClientId) :
    (((m.joinChannel h (some c) name).2.2) d).output_queue_ = (h d).output_queue_ ∧
    (((m.joinChannel h (some c) name).2.2) d).nickname_ = (h d).nickname_ := by
  have hcall : ((h.call c (fun cl => cl.joinChannel name)) d).output_queue_ = (h d).output_queue_ ∧
      ((h.call c (fun cl => cl.joinChannel name)) d).nickname_ = (h d).nickname_ := by
    by_cases hd : d = c
    · subst hd
      simp [Heap.call, Client.joinChannel]
    · simp [Heap.call, Function.update_noteq hd]
  unfold ChannelManager.joinChannel
  simp only []
  split
  · exact ⟨rfl, rfl⟩
  · split
    · split
      · exact ⟨rfl, rfl⟩
      · exact hcall
    · exact hcall

namespace MessageManager

theorem grows_nick (s : Sys) (c : ClientId) (args : List Str) (hs : s.Clean)
    (hargs : ∀ t ∈ args, '\n' ∉ t) : Grows s.heap (handleNickCommand s c args).heap := by
  cases args with
  | nil => exact Grows.server s c _ (by decide)
  | cons X rest =>
    have hX := hargs X (List.mem_cons_self _ _)
    unfold handleNickCommand
    simp only []
    split
    · exact Grows.server s c _ (nl_append _ _ (nl_append _ _ (by decide) hX) (by decide))
    · have hq := ClientManager.updateClientNickname_queue s.clientManager_ s.heap c X
      split
      · rename_i cm h hres
        rw [hres] at hq
        exact Grows.trans (Grows.of_queue hq)
          (Grows.server ⟨h, cm, s.channelManager_, s.messageManager_⟩ c _
            (nl_append _ _ (nl_append _ _ (by decide) hX) (by decide)))
      · rename_i cm h hres
        rw [hres] at hq
        refine Grows.trans (Grows.of_queue hq) (Grows.trans
          (Grows.server ⟨h, cm, s.channelManager_, s.messageManager_⟩ c
            ("Nickname switched to '".toList ++ X ++ "'".toList)
            (nl_append _ _ (nl_append _ _ (by decide) hX) (by decide))) ?_)
        exact Grows.toClients _ _
          ("User '".toList ++ (s.heap c).nickname_ ++ "' is now known as '".toList ++ X
            ++ "'".toList)
          (nl_append _ _ (nl_append _ _ (nl_append _ _ (nl_append _ _ (by decide) (hs.1 c))
            (by decide)) hX) (by decide))

theorem grows_join (s : Sys) (c : ClientId) (args : List Str) (hs : s.Clean)
    (hargs : ∀ t ∈ args, '\n' ∉ t) : Grows s.heap (handleJoinCommand s c args).heap := by
  cases args with
  | nil => exact Grows.server s c _ (by decide)
  | cons X rest =>
    have hX := withHash_nl X (hargs X (List.mem_cons_self _ _))
    have hq := ChannelManager.joinChannel_queue s.channelManager_ s.heap c (withHash X)
    unfold handleJoinCommand
    simp only []
    split
    · rename_i chm h hres
      rw [hres] at hq
      have hnick : '\n' ∉ ((sendServerMessage
          ⟨Heap.call h c (fun cl => cl.setActiveChannel (withHash X)), s.clientManager_, chm,
            s.messageManager_⟩ (some c)
          ("You joined ".toList ++ withHash X ++ " (now active).".toList)).heap c).nickname_ := by
        rw [sendServerMessage_heap, (Heap.call_push _ _ _ c).1]
        simp only [Heap.call, Function.update_same, Client.setActiveChannel]
        rw [(hq c).2]
        exact hs.1 c
      refine Grows.trans (Grows.of_queue ?_) (Grows.trans
        (Grows.server ⟨Heap.call h c (fun cl => cl.setActiveChannel (withHash X)),
            s.clientManager_, chm, s.messageManager_⟩ c _
          (nl_append _ _ (nl_append _ _ (by decide) hX) (by decide)))
        (Grows.toChannel _ _ _ _ (nl_append _ _ (by decide) (nl_append _ _ hnick (by decide)))))
      intro d
      show ((Heap.call h c (fun cl => cl.setActiveChannel (withHash X))) d).output_queue_ = _
      rw [Heap.call_queue h c (fun cl => cl.setActiveChannel (withHash X)) (fun _ => rfl) d]
      exact (hq d).1
    · rename_i chm h hres
      rw [hres] at hq
      exact Grows.trans (Grows.of_queue (fun d => (hq d).1))
        (Grows.server ⟨h, s.clientManager_, chm, s.messageManager_⟩ c _
          (nl_append _ _ (by decide) hX))

theorem grows_part (s : Sys) (c : ClientId) (args : List Str) (hs : s.Clean)
    (hargs : ∀ t ∈ args, '\n' ∉ t) : Grows s.heap (handlePartCommand s c args).heap := by
  cases args with
  | nil => exact Grows.server s c _ (by decide)
  | cons X rest =>
    have hX := withHash_nl X (hargs X (List.mem_cons_self _ _))
    unfold handlePartCommand
    simp only []
    split
    · exact Grows.server s c _ (nl_append _ _ (by decide) hX)
    · have hb := Grows.toChannel s.channelManager_ s.heap (withHash X)
        ("*** ".toList ++ ((s.heap c).nickname_ ++ " left the channel.".toList))
        (nl_append _ _ (by decide) (nl_append _ _ (hs.1 c) (by decide)))
      have hq := ChannelManager.leaveChannel_queue s.channelManager_
        (s.channelManager_.broadcastToChannel s.heap (withHash X)
          ("*** ".toList ++ ((s.heap c).nickname_ ++ " left the channel.".toList)))
        c (withHash X)
      split
      · rename_i chm h hres
        rw [hres] at hq
        exact Grows.trans hb (Grows.trans (Grows.of_queue hq)
          (Grows.server ⟨h, s.clientManager_, chm, s.messageManager_⟩ c _
            (nl_append _ _ (by decide) hX)))
      · rename_i chm h hres
        rw [hres] at hq
        exact Grows.trans hb (Grows.trans (Grows.of_queue hq)
          (Grows.server ⟨h, s.clientManager_, chm, s.messageManager_⟩ c _
            (nl_append _ _ (by decide) hX)))

end MessageManager

namespace MessageManager

theorem quitReason_nl (args : List Str) (hargs : ∀ t ∈ args, '\n' ∉ t) :
    '\n' ∉ quitReason args := by
  unfold quitReason
  split
  · decide
  · exact joinWords_nl args hargs

theorem grows_quit (s : Sys) (c : ClientId) (args : List Str) (hs : s.Clean)
    (hcb : s.QuietRemoval) (hargs : ∀ t ∈ args, '\n' ∉ t) :
    Grows s.heap (handleQuitCommand s c args).heap := by
  have htext : '\n' ∉ "*** ".toList ++ ((s.heap c).nickname_ ++ " left the server: ".toList
      ++ quitReason args) :=
    nl_append _ _ (by decide) (nl_append _ _ (nl_append _ _ (hs.1 c) (by decide))
      (quitReason_nl args hargs))
  have hb : Grows s.heap ((ChannelManager.getClientChannels s.heap (some c)).foldl
      (fun h name => s.channelManager_.broadcastToChannel h name
        ("*** ".toList ++ ((s.heap c).nickname_ ++ " left the server: ".toList
          ++ quitReason args))) s.heap) :=
    Grows.of_received _ (fun d => s.channelManager_.copies
      (ChannelManager.getClientChannels s.heap (some c)) d) htext
      (ChannelManager.broadcast_each _ _ _ s.heap)
  refine Grows.trans hb (Grows.of_queue ?_)
  intro d
  unfold handleQuitCommand
  simp only [Sys.removeClient]
  rw [ClientManager.removeClient_eq]
  split
  · cases hcase : s.clientManager_.onClientRemovedCallback_ with
    | none => rfl
    | some cb => exact hcb cb hcase c _ d
  · rfl

theorem grows_list (s : Sys) (c : ClientId) (args : List Str) (hs : s.Clean) :
    Grows s.heap (handleListCommand s c args).heap := by
  unfold handleListCommand
  simp only []
  split
  · exact Grows.server s c _ (by decide)
  · refine Grows.trans (Grows.server s c "Active channels:".toList (by decide)) ?_
    refine Grows.fold c
      (fun t channelName => "- ".toList ++ channelName ++ " (".toList
        ++ (toString (t.channelManager_.getChannelMemberCount channelName)).toList
        ++ " members)".toList)
      (fun _ => True) (fun _ _ _ => trivial) s.channelManager_.getChannelList ?_ _ trivial
    intro t name _ hname
    have hk : '\n' ∉ name := hs.2.2.2.1 name ((mem_sortStrings _ _).1 hname)
    exact nl_append _ _ (nl_append _ _ (nl_append _ _ (nl_append _ _ (by decide) hk) (by decide))
      (nat_toString_nl _)) (by decide)

theorem grows_who (s : Sys) (c : ClientId) (args : List Str) (hs : s.Clean)
    (hargs : ∀ t ∈ args, '\n' ∉ t) : Grows s.heap (handleWhoCommand s c args).heap := by
  cases args with
  | nil =>
    unfold handleWhoCommand
    simp only []
    split
    · exact Grows.server s c _ (by decide)
    · refine Grows.trans (Grows.server s c
        ("Online users (".toList ++ (toString s.clientManager_.getAllClients.length).toList
          ++ "):".toList)
        (nl_append _ _ (nl_append _ _ (by decide) (nat_toString_nl _)) (by decide))) ?_
      refine Grows.fold c
        (fun t d => "- ".toList ++ (t.heap d).nickname_
          ++ whoChannelsStr (ChannelManager.getClientChannels t.heap (some d)))
        Sys.Clean (fun t msg ht => Sys.Clean.after_reply t c msg ht) s.clientManager_.getAllClients
        ?_ _ (Sys.Clean.after_reply s c _ hs)
      intro t d ht _
      refine nl_append _ _ (nl_append _ _ (by decide) (ht.1 d)) (whoChannelsStr_nl _ ?_)
      intro n hn
      exact ht.2.1 d n ((mem_sortStrings _ _).1 hn)
  | cons X rest =>
    have hX := withHash_nl X (hargs X (List.mem_cons_self _ _))
    unfold handleWhoCommand
    simp only []
    split
    · rename_i channel _
      refine Grows.trans (Grows.server s c
        ("Users in ".toList ++ withHash X ++ " (".toList
          ++ (toString (channel.getMemberNicknames s.heap).length).toList ++ "):".toList)
        (nl_append _ _ (nl_append _ _ (nl_append _ _ (nl_append _ _ (by decide) hX) (by decide))
          (nat_toString_nl _)) (by decide))) ?_
      refine Grows.fold c (fun _ nick => "- ".toList ++ nick)
        (fun _ => True) (fun _ _ _ => trivial) (channel.getMemberNicknames s.heap) ?_ _ trivial
      intro t nick _ hnick
      obtain ⟨member, _, hm⟩ := List.mem_map.1 hnick
      rw [← hm]
      exact nl_append _ _ (by decide) (hs.1 member)
    · exact Grows.server s c _ (nl_append _ _ (nl_append _ _ (by decide) hX) (by decide))

theorem grows_channelMessage (s : Sys) (c : ClientId) (name msg : Str) (hs : s.Clean)
    (hname : '\n' ∉ name) (hmsg : '\n' ∉ msg) :
    Grows s.heap (sendChannelMessage s (some c) name msg).heap := by
  unfold sendChannelMessage
  simp only []
  split
  · exact Grows.server s c _ (nl_append _ _ (nl_append _ _ (by decide) hname) (by decide))
  · split
    · exact Grows.server s c _ (nl_append _ _ (by decide) hname)
    · exact Grows.toChannel s.channelManager_ s.heap name
        ("<".toList ++ (s.heap c).nickname_ ++ "@".toList ++ name ++ "> ".toList ++ msg)
        (nl_append _ _ (nl_append _ _ (nl_append _ _ (nl_append _ _ (nl_append _ _ (by decide)
          (hs.1 c)) (by decide)) hname) (by decide)) hmsg)

theorem grows_privateMessage (s : Sys) (c : ClientId) (recipient msg : Str) (hs : s.Clean)
    (hrec : '\n' ∉ recipient) (hmsg : '\n' ∉ msg) :
    Grows s.heap (sendPrivateMessage s (some c) recipient msg).heap := by
  unfold sendPrivateMessage
  simp only []
  split
  · exact Grows.server s c _ (nl_append _ _ (nl_append _ _ (by decide) hrec) (by decide))
  · rename_i targetClient _
    exact Grows.trans
      (Grows.send s.heap targetClient
        ("*Private from ".toList ++ (s.heap c).nickname_ ++ ": ".toList ++ msg)
        (nl_append _ _ (nl_append _ _ (nl_append _ _ (by decide) (hs.1 c)) (by decide)) hmsg))
      (Grows.send _ c ("*Private to ".toList ++ recipient ++ ": ".toList ++ msg)
        (nl_append _ _ (nl_append _ _ (nl_append _ _ (by decide) hrec) (by decide)) hmsg))

theorem grows_privmsg (s : Sys) (c : ClientId) (args : List Str) (hs : s.Clean)
    (hargs : ∀ t ∈ args, '\n' ∉ t) : Grows s.heap (handlePrivmsgCommand s c args).heap := by
  unfold handlePrivmsgCommand
  split
  · rename_i recipient word rest
    have hrec := hargs recipient (List.mem_cons_self _ _)
    have hmsg : '\n' ∉ joinWords (word :: rest) :=
      joinWords_nl _ (fun t ht => hargs t (List.mem_cons_of_mem _ ht))
    simp only []
    split
    · exact grows_channelMessage s c recipient _ hs hrec hmsg
    · exact grows_privateMessage s c recipient _ hs hrec hmsg
  · exact Grows.server s c _ (by decide)

theorem grows_motd (s : Sys) (c : ClientId) (args : List Str) (hs : s.Clean) :
    Grows s.heap (handleMotdCommand s c args).heap := by
  unfold handleMotdCommand
  split
  · exact Grows.server s c _ (by decide)
  · exact Grows.trans (Grows.server s c "Message of the Day:".toList (by decide))
      (Grows.server _ c s.messageManager_.motd_ hs.2.2.2.2)

theorem grows_help (s : Sys) (c : ClientId) (args : List Str) :
    Grows s.heap (handleHelpCommand s c args).heap := by
  unfold handleHelpCommand
  refine Grows.fold c (fun _ line => line) (fun _ => True) (fun _ _ _ => trivial) helpLines ?_ s
    trivial
  intro _ line _ hline
  have hall : ∀ l ∈ helpLines, '\n' ∉ l := by decide
  exact hall line hline

end MessageManager

namespace MessageManager

theorem grows_handler (s : Sys) (c : ClientId) (args : List Str) (name : Str)
    (handler : Sys → ClientId → List Str → Sys) (hsetup : setupDefaultCommands name = some handler)
    (hs : s.Clean) (hcb : s.QuietRemoval) (hargs : ∀ t ∈ args, '\n' ∉ t) :
    Grows s.heap (handler s c args).heap := by
  unfold setupDefaultCommands at hsetup
  split_ifs at hsetup
  all_goals first
    | exact Option.noConfusion hsetup
    | (rw [← Option.some.inj hsetup]
       first
        | exact grows_nick s c args hs hargs
        | exact grows_join s c args hs hargs
        | exact grows_part s c args hs hargs
        | exact grows_quit s c args hs hcb hargs
        | exact grows_list s c args hs
        | exact grows_who s c args hs hargs
        | exact grows_privmsg s c args hs hargs
        | exact grows_motd s c args hs
        | exact grows_help s c args)

theorem grows_command (s : Sys) (c : ClientId) (commandLine : Str) (hs : s.Clean)
    (hcb : s.QuietRemoval) : Grows s.heap (handleCommand s (some c) commandLine).heap := by
  unfold handleCommand
  simp only []
  split
  · exact Grows.refl _
  · have hargs := parse_nl commandLine
    split
    · exact Grows.refl _
    · rename_i first args hparse
      rw [hparse] at hargs
      have hfirst : '\n' ∉ first.drop 1 := nl_drop _ _ (hargs first (List.mem_cons_self _ _))
      have hrest : ∀ t ∈ args, '\n' ∉ t := fun t ht => hargs t (List.mem_cons_of_mem _ ht)
      split
      · rename_i handler hsetup
        exact grows_handler s.commandSeen c args _ handler hsetup hs hcb hrest
      · exact Grows.server s.commandSeen c _ (nl_append _ _ (by decide) hfirst)

theorem grows_message (s : Sys) (c : ClientId) (line : Str) (hs : s.Clean)
    (hcb : s.QuietRemoval) (hline : '\n' ∉ line) :
    Grows s.heap (handleMessage s (some c) line).heap := by
  have hclean : '\n' ∉ (if line.getLast? = some '\r' then line.dropLast else line) := by
    split
    · exact nl_dropLast line hline
    · exact hline
  unfold handleMessage
  simp only []
  generalize (if line.getLast? = some '\r' then line.dropLast else line) = clean at hclean
  split
  · exact Grows.refl _
  · split
    · exact grows_command (s.received line) c clean hs hcb
    · split
      · exact grows_channelMessage (s.received line) c _ clean hs (hs.2.2.1 c) hclean
      · exact Grows.server (s.received line) c _ (by decide)

end MessageManager

theorem Server.onClientRemoved_queue (x : ClientId) (hw : Heap × ChannelManager) (d : ClientId) :
    ((Server.onClientRemoved x hw).1 d).output_queue_ = (hw.1 d).output_queue_ :=
  ChannelManager.leaveAll_queue x _ _ d

theorem oneSession_clean : oneSession.Clean := by
  have hheap : oneSession.heap = freshHeap := rfl
  have hch : oneSession.channelManager_.channels_ = [] := rfl
  refine ⟨fun d => ?_, fun d => ?_, fun d => ?_, ?_, by decide⟩
  · rw [hheap]
    exact nl_append _ _ (by decide) (int_toString_nl _)
  · rw [hheap]
    intro name hname
    exact absurd hname (List.not_mem_nil _)
  · rw [hheap]
    exact List.not_mem_nil _
  · rw [hch]
    intro name hname
    exact absurd hname (List.not_mem_nil _)

theorem oneSession_quiet : oneSession.QuietRemoval := by
  have hcb : oneSession.clientManager_.onClientRemovedCallback_ = some Server.onClientRemoved :=
    rfl
  intro cb hcase x hw d
  rw [hcb] at hcase
  rw [← Option.some.inj hcase]
  exact Server.onClientRemoved_queue x hw d

/-- C27. In a state in which no nickname, no name of a joined or active
channel, no name in the Channel Registry and not the MOTD contains a newline,
and whose removal callback (if any) sends nothing, as the one of the Server,
`handleMessage` on a line without a newline only appends to the outbound
queues, and every string it appends to the queue of any Connection is not
empty, ends with a newline and contains no other newline. -/
theorem outbound_lines (s : Sys) (c : ClientId) (line : Str) (hs : s.Clean)
    (hcb : s.QuietRemoval) (hline : '\n' ∉ line) :
    ∀ d, ∃ new : List Str,
      ((MessageManager.handleMessage s (some c) line).heap d).output_queue_
        = (s.heap d).output_queue_ ++ new ∧
      ∀ x ∈ new, x ≠ [] ∧ x.getLast? = some '\n' ∧ '\n' ∉ x.dropLast :=
  MessageManager.grows_message s c line hs hcb hline

/-- The registered Connection `0` sends `/who`: two lines, each ended by its
newline. -/
theorem outbound_lines_witness :
    ((MessageManager.handleMessage oneSession (some 0) "/who".toList).heap 0).output_queue_
      = ["*** Online users (1):\n".toList, "*** - guest4\n".toList] ∧
    ∃ new : List Str,
      ((MessageManager.handleMessage oneSession (some 0) "/who".toList).heap 0).output_queue_
        = (oneSession.heap 0).output_queue_ ++ new ∧
      ∀ x ∈ new, x ≠ [] ∧ x.getLast? = some '\n' ∧ '\n' ∉ x.dropLast :=
  ⟨by decide,
    outbound_lines oneSession 0 "/who".toList oneSession_clean oneSession_quiet (by decide) 0⟩

/-! ## The Worker Pool -/

theorem ThreadPool.enqueue_length {τ : Type} (p : ThreadPool τ) (task : τ)
    (hp : p.tasks_.length ≤ ThreadPool.MAX_QUEUE_SIZE) :
    (p.enqueue task).2.tasks_.length ≤ ThreadPool.MAX_QUEUE_SIZE := by
  unfold ThreadPool.enqueue
  split
  · exact hp
  · split
    · exact hp
    · rename_i hfull
      simp only [List.length_append, List.length_singleton]
      omega

theorem PoolOp.apply_length {τ : Type} (op : PoolOp τ) (p : ThreadPool τ)
    (hp : p.tasks_.length ≤ ThreadPool.MAX_QUEUE_SIZE) :
    (op.apply p).tasks_.length ≤ ThreadPool.MAX_QUEUE_SIZE := by
  cases op with
  | enqueue task => exact ThreadPool.enqueue_length p task hp
  | workerTake =>
    simp only [PoolOp.apply, ThreadPool.workerTake]
    split
    · exact hp
    · rename_i task rest hq
      rw [hq] at hp
      simp only [List.length_cons] at hp
      show rest.length ≤ ThreadPool.MAX_QUEUE_SIZE
      omega
  | shutdown => exact hp

theorem runPoolOps_length {τ : Type} (ops : List (PoolOp τ)) :
    ∀ p : ThreadPool τ, p.tasks_.length ≤ ThreadPool.MAX_QUEUE_SIZE →
      (runPoolOps ops p).tasks_.length ≤ ThreadPool.MAX_QUEUE_SIZE := by
  induction ops with
  | nil => intro p hp; exact hp
  | cons op rest ih =>
    intro p hp
    exact ih (op.apply p) (PoolOp.apply_length op p hp)

/-- C31. On the queue and the running flag of the Worker Pool: `enqueue`
returns false exactly when the pool is not running or the queue holds 5000
tasks or more, and then leaves the pool as it is; otherwise it returns true,
the queue is the old one with the task at the back, and the flag is unchanged.
A worker takes the task at the front. A pool is constructed running with an
empty queue, so after every sequence of `enqueue`, worker and shutdown steps
on a constructed pool the queue holds at most 5000 tasks. -/
theorem pool_queue_bound {τ : Type} :
    ThreadPool.MAX_QUEUE_SIZE = 5000 ∧
    (∀ (p : ThreadPool τ) (task : τ),
      ((p.enqueue task).1 = false ↔ (p.running_ = false ∨ 5000 ≤ p.tasks_.length)) ∧
      ((p.enqueue task).1 = false → (p.enqueue task).2 = p) ∧
      ((p.enqueue task).1 = true →
        (p.enqueue task).2.tasks_ = p.tasks_ ++ [task] ∧
        (p.enqueue task).2.running_ = p.running_)) ∧
    (∀ (p : ThreadPool τ) (task : τ) (rest : List τ), p.tasks_ = task :: rest →
      p.workerTake.1 = some task ∧ p.workerTake.2.tasks_ = rest) ∧
    (∀ (threadCount : Int) (p : ThreadPool τ) (ops : List (PoolOp τ)),
      ThreadPool.new threadCount = .ok p → (runPoolOps ops p).tasks_.length ≤ 5000) := by
  refine ⟨rfl, ?_, ?_, ?_⟩
  · intro p task
    unfold ThreadPool.enqueue
    by_cases hrun : p.running_ = true
    · by_cases hfull : p.tasks_.length ≥ ThreadPool.MAX_QUEUE_SIZE
      · have h5 : 5000 ≤ p.tasks_.length := hfull
        simp [hrun, hfull, h5]
      · have h5 : ¬ 5000 ≤ p.tasks_.length := hfull
        simp [hrun, hfull, h5]
    · have hrun' : p.running_ = false := by simpa using hrun
      simp [hrun']
  · intro p task rest hq
    simp [ThreadPool.workerTake, hq]
  · intro threadCount p ops hnew
    refine runPoolOps_length ops p ?_
    unfold ThreadPool.new at hnew
    split at hnew
    · exact Except.noConfusion hnew
    · have hp : p = { tasks_ := [], running_ := true } := by
        injection hnew with h
        exact h.symm
      rw [hp]
      exact Nat.zero_le _

/-! ## The removal callback and the mutex of the Client Registry -/

/-- The log of `removeClientLog` goes with the result of `removeClient`. -/
theorem ClientManager.removeClientLog_result {W : Type} (m : ClientManager W) (h : Heap) (w : W)
    (client : Option ClientId) :
    (m.removeClientLog h w client).1 = m.removeClient h w client := by
  cases client with
  | none => rfl
  | some c =>
    unfold ClientManager.removeClientLog ClientManager.removeClient
    simp only []
    split
    · cases hcb : m.onClientRemovedCallback_ <;> rfl
    · rfl

theorem ClientManager.removeClientLog_events {W : Type} (m : ClientManager W) (h : Heap) (w : W)
    (client : Option ClientId) :
    (m.removeClientLog h w client).2 = m.removeClientEvents client := by
  cases client with
  | none => rfl
  | some c =>
    unfold ClientManager.removeClientLog ClientManager.removeClientEvents
    simp only []
    split
    · cases hcb : m.onClientRemovedCallback_ <;> rfl
    · rfl

/-- The events of `removeClient`: a call of the callback comes between the
construction and the destruction of the guard. -/
theorem removeClientEvents_locked {W : Type} (m : ClientManager W) (client : Option ClientId) :
    (∀ (pre post : List LockEvent) (c : ClientId),
      m.removeClientEvents client = pre ++ LockEvent.callback c :: post →
        mutexHeld pre = true ∧ post = [LockEvent.release] ∧ client = some c) ∧
    mutexHeld (m.removeClientEvents client) = false ∧
    (∀ c, LockEvent.callback c ∈ m.removeClientEvents client ↔
      (client = some c ∧ c ∈ m.clients_ ∧ m.onClientRemovedCallback_.isSome = true)) := by
  cases client with
  | none =>
    refine ⟨?_, rfl, ?_⟩
    · intro pre post c h
      simp [ClientManager.removeClientEvents] at h
    · intro c
      simp [ClientManager.removeClientEvents]
  | some x =>
    by_cases hx : x ∈ m.clients_
    · cases hcb : m.onClientRemovedCallback_ with
      | none =>
        have hev : m.removeClientEvents (some x) = [LockEvent.acquire, LockEvent.release] := by
          simp [ClientManager.removeClientEvents, hx, hcb]
        rw [hev]
        refine ⟨?_, rfl, ?_⟩
        · intro pre post c h
          have hmem : LockEvent.callback c ∈ [LockEvent.acquire, LockEvent.release] := by
            rw [h]; simp
          simp at hmem
        · intro c
          simp
      | some cb =>
        have hev : m.removeClientEvents (some x)
            = [LockEvent.acquire, LockEvent.callback x, LockEvent.release] := by
          simp [ClientManager.removeClientEvents, hx, hcb]
        rw [hev]
        refine ⟨?_, rfl, ?_⟩
        · intro pre post c h
          cases pre with
          | nil => simp at h
          | cons e pre1 =>
            cases pre1 with
            | nil =>
              simp only [List.cons_append, List.nil_append, List.cons.injEq] at h
              obtain ⟨he, hc, hpost⟩ := h
              rw [← he]
              refine ⟨rfl, hpost.symm, ?_⟩
              injection hc with hc
              rw [hc]
            | cons e2 pre2 =>
              cases pre2 with
              | nil => simp at h
              | cons e3 pre3 =>
                have hlen := congrArg List.length h
                simp at hlen
        · intro c
          simp only [List.mem_cons, List.mem_singleton, List.not_mem_nil, or_false,
            LockEvent.callback.injEq, Option.some.injEq, Option.isSome_some, and_true, false_or,
            reduceCtorEq]
          constructor
          · intro hc
            rw [hc]
            exact ⟨rfl, hx⟩
          · intro hc
            exact hc.1.symm
    · have hev : m.removeClientEvents (some x) = [LockEvent.acquire, LockEvent.release] := by
        simp [ClientManager.removeClientEvents, hx]
      rw [hev]
      refine ⟨?_, rfl, ?_⟩
      · intro pre post c h
        have hmem : LockEvent.callback c ∈ [LockEvent.acquire, LockEvent.release] := by
          rw [h]; simp
        simp at hmem
      · intro c
        simp
        intro hc
        rw [← hc]
        intro hmem
        exact absurd hmem hx

/-- C32 (counterexample). Connection `0` is registered in a server with the
removal callback installed. The call `removeClient` on it, which returns what
`removeClient` returns and applies the callback, acquires the mutex, calls the
callback and only then releases the mutex: the mutex is held when the callback
runs. -/
theorem removeClient_callback_counterexample :
    (oneSession.clientManager_.removeClientLog oneSession.heap oneSession.channelManager_
        (some 0)).1
      = oneSession.clientManager_.removeClient oneSession.heap oneSession.channelManager_
        (some 0) ∧
    (oneSession.clientManager_.removeClient oneSession.heap oneSession.channelManager_
        (some 0)).2.2
      = Server.onClientRemoved 0 (oneSession.heap, oneSession.channelManager_) ∧
    (oneSession.clientManager_.removeClientLog oneSession.heap oneSession.channelManager_
        (some 0)).2
      = [LockEvent.acquire, LockEvent.callback 0, LockEvent.release] ∧
    mutexHeld [LockEvent.acquire] = true ∧
    ¬ (∀ (pre post : List LockEvent) (c : ClientId),
      (oneSession.clientManager_.removeClientLog oneSession.heap oneSession.channelManager_
        (some 0)).2 = pre ++ LockEvent.callback c :: post → mutexHeld pre = false) := by
  refine ⟨ClientManager.removeClientLog_result _ _ _ _, rfl, by decide, by decide, ?_⟩
  intro h
  have h1 := h [LockEvent.acquire] [LockEvent.release] 0 (by decide)
  exact absurd h1 (by decide)

/-- C32 (as amended). `removeClientLog` returns what `removeClient` returns,
with the log of the call. `ClientManager::removeClient` calls the installed
removal callback while the calling thread holds `clients_mutex_`: whenever the
log holds a call of the callback, the events before the call leave the mutex
held, the one event after it is the release of the mutex, a callback `f` is
installed and what `removeClient` returns is what `f` made of the Connection
and the state it found. The mutex is not held when the function has returned.
The callback is called exactly when the Connection is registered and a
callback is installed. -/
theorem removeClient_callback_locked {W : Type} (m : ClientManager W) (h : Heap) (w : W)
    (client : Option ClientId) :
    (m.removeClientLog h w client).1 = m.removeClient h w client ∧
    (∀ (pre post : List LockEvent) (c : ClientId),
      (m.removeClientLog h w client).2 = pre ++ LockEvent.callback c :: post →
        mutexHeld pre = true ∧ post = [LockEvent.release] ∧ client = some c ∧
        ∃ f, m.onClientRemovedCallback_ = some f ∧
          (m.removeClient h w client).2.2 = f c (h, w)) ∧
    mutexHeld (m.removeClientLog h w client).2 = false ∧
    (∀ c, LockEvent.callback c ∈ (m.removeClientLog h w client).2 ↔
      (client = some c ∧ c ∈ m.clients_ ∧ m.onClientRemovedCallback_.isSome = true)) := by
  obtain ⟨h1, h2, h3⟩ := removeClientEvents_locked m client
  rw [ClientManager.removeClientLog_events]
  refine ⟨ClientManager.removeClientLog_result m h w client, ?_, h2, h3⟩
  intro pre post c hlog
  obtain ⟨hheld, hpost, hclient⟩ := h1 pre post c hlog
  refine ⟨hheld, hpost, hclient, ?_⟩
  have hmem : LockEvent.callback c ∈ m.removeClientEvents client := by
    rw [hlog]
    simp
  obtain ⟨_, hreg, hsome⟩ := (h3 c).1 hmem
  cases hcb : m.onClientRemovedCallback_ with
  | none =>
    rw [hcb] at hsome
    exact Bool.noConfusion hsome
  | some f =>
    refine ⟨f, rfl, ?_⟩
    rw [hclient, ClientManager.removeClient_eq, if_pos hreg]
    simp [ClientManager.invoke, hcb]

/-! ## Output of a session -/

/-- C34 (failing input). Two lines wait in the queue of Connection `0`; the
socket accepts five bytes of the first. `processClientOutput` pops the first
message all the same and goes on with the second: the bytes on the wire are
not a prefix of the queued messages in order, and the first message left the
queue with 5 of its 24 bytes accepted. -/
theorem partial_send_drops_bytes :
    (motdQueued.heap 0).output_queue_
      = ["*** Message of the Day:\n".toList, "*** Welcome to test Server!\n".toList] ∧
    (Server.processClientOutput partialSend motdQueued 0).2
      = "*** M".toList ++ "*** Welcome to test Server!\n".toList ∧
    (((Server.processClientOutput partialSend motdQueued 0).1).heap 0).output_queue_ = [] ∧
    ¬ ((Server.processClientOutput partialSend motdQueued 0).2 <+:
        (motdQueued.heap 0).output_queue_.flatten) := by
  decide

/-! ## The text of `/msg` -/

namespace MessageManager

end MessageManager

namespace MessageManager

theorem server_counters (s : Sys) (c : ClientId) (msg : Str) (pm pc rb : Nat) :
    sendServerMessage (s.withCounters pm pc rb) (some c) msg =
      (sendServerMessage s (some c) msg).withCounters pm pc rb := rfl

theorem fold_counters {α : Type} (c : ClientId) (f : Sys → α → Str)
    (hf : ∀ (t : Sys) (a : α) (pm pc rb : Nat), f (t.withCounters pm pc rb) a = f t a)
    (pm pc rb : Nat) (items : List α) :
    ∀ s : Sys,
      items.foldl (fun t a => sendServerMessage t (some c) (f t a)) (s.withCounters pm pc rb) =
        (items.foldl (fun t a => sendServerMessage t (some c) (f t a)) s).withCounters pm pc rb := by
  induction items with
  | nil => intro s; rfl
  | cons a rest ih =>
    intro s
    simp only [List.foldl_cons]
    rw [hf, server_counters, ih]

theorem nick_counters (s : Sys) (c : ClientId) (args : List Str) (pm pc rb : Nat) :
    handleNickCommand (s.withCounters pm pc rb) c args =
      (handleNickCommand s c args).withCounters pm pc rb := by
  cases args with
  | nil => rfl
  | cons X rest =>
    unfold handleNickCommand
    simp only [Sys.withCounters]
    split
    · rfl
    · split <;> rfl

end MessageManager

namespace MessageManager

theorem join_counters (s : Sys) (c : ClientId) (args : List Str) (pm pc rb : Nat) :
    handleJoinCommand (s.withCounters pm pc rb) c args =
      (handleJoinCommand s c args).withCounters pm pc rb := by
  cases args with
  | nil => rfl
  | cons X rest =>
    unfold handleJoinCommand
    simp only [Sys.withCounters]
    split <;> rfl

theorem part_counters (s : Sys) (c : ClientId) (args : List Str) (pm pc rb : Nat) :
    handlePartCommand (s.withCounters pm pc rb) c args =
      (handlePartCommand s c args).withCounters pm pc rb := by
  cases args with
  | nil => rfl
  | cons X rest =>
    unfold handlePartCommand
    simp only [Sys.withCounters]
    split
    · rfl
    · split <;> rfl

theorem quit_counters (s : Sys) (c : ClientId) (args : List Str) (pm pc rb : Nat) :
    handleQuitCommand (s.withCounters pm pc rb) c args =
      (handleQuitCommand s c args).withCounters pm pc rb := rfl

theorem list_counters (s : Sys) (c : ClientId) (args : List Str) (pm pc rb : Nat) :
    handleListCommand (s.withCounters pm pc rb) c args =
      (handleListCommand s c args).withCounters pm pc rb := by
  unfold handleListCommand
  simp only []
  have hlist : (s.withCounters pm pc rb).channelManager_.getChannelList
      = s.channelManager_.getChannelList := rfl
  rw [hlist]
  split
  · rfl
  · rw [server_counters]
    exact fold_counters c
      (fun t channelName => "- ".toList ++ channelName ++ " (".toList
        ++ (toString (t.channelManager_.getChannelMemberCount channelName)).toList
        ++ " members)".toList)
      (fun _ _ _ _ _ => rfl) pm pc rb _ _

theorem who_counters (s : Sys) (c : ClientId) (args : List Str) (pm pc rb : Nat) :
    handleWhoCommand (s.withCounters pm pc rb) c args =
      (handleWhoCommand s c args).withCounters pm pc rb := by
  cases args with
  | nil =>
    unfold handleWhoCommand
    simp only []
    have hall : (s.withCounters pm pc rb).clientManager_.getAllClients
        = s.clientManager_.getAllClients := rfl
    rw [hall]
    split
    · rfl
    · rw [server_counters]
      exact fold_counters c
        (fun t d => "- ".toList ++ (t.heap d).nickname_
          ++ whoChannelsStr (ChannelManager.getClientChannels t.heap (some d)))
        (fun _ _ _ _ _ => rfl) pm pc rb _ _
  | cons X rest =>
    unfold handleWhoCommand
    simp only []
    have hget : (s.withCounters pm pc rb).channelManager_.getChannel (withHash X)
        = s.channelManager_.getChannel (withHash X) := rfl
    rw [hget]
    split
    · rename_i channel _
      have hheap : (s.withCounters pm pc rb).heap = s.heap := rfl
      rw [hheap, server_counters]
      exact fold_counters c (fun _ nick => "- ".toList ++ nick) (fun _ _ _ _ _ => rfl) pm pc rb
        _ _
    · rfl

theorem channelMessage_counters (s : Sys) (c : ClientId) (name msg : Str) (pm pc rb : Nat) :
    sendChannelMessage (s.withCounters pm pc rb) (some c) name msg =
      (sendChannelMessage s (some c) name msg).withCounters pm pc rb := by
  unfold sendChannelMessage
  simp only [Sys.withCounters]
  split
  · rfl
  · split <;> rfl

theorem privateMessage_counters (s : Sys) (c : ClientId) (recipient msg : Str) (pm pc rb : Nat) :
    sendPrivateMessage (s.withCounters pm pc rb) (some c) recipient msg =
      (sendPrivateMessage s (some c) recipient msg).withCounters pm pc rb := by
  unfold sendPrivateMessage
  simp only [Sys.withCounters]
  split <;> rfl

theorem privmsg_counters (s : Sys) (c : ClientId) (args : List Str) (pm pc rb : Nat) :
    handlePrivmsgCommand (s.withCounters pm pc rb) c args =
      (handlePrivmsgCommand s c args).withCounters pm pc rb := by
  unfold handlePrivmsgCommand
  split
  · simp only []
    split
    · exact channelMessage_counters s c _ _ pm pc rb
    · exact privateMessage_counters s c _ _ pm pc rb
  · rfl

theorem motd_counters (s : Sys) (c : ClientId) (args : List Str) (pm pc rb : Nat) :
    handleMotdCommand (s.withCounters pm pc rb) c args =
      (handleMotdCommand s c args).withCounters pm pc rb := by
  unfold handleMotdCommand
  simp only [Sys.withCounters]
  split <;> rfl

theorem help_counters (s : Sys) (c : ClientId) (args : List Str) (pm pc rb : Nat) :
    handleHelpCommand (s.withCounters pm pc rb) c args =
      (handleHelpCommand s c args).withCounters pm pc rb :=
  fold_counters c (fun _ line => line) (fun _ _ _ _ _ => rfl) pm pc rb helpLines s

/-- No handler reads or writes the counters `processedMessages_`,
`processedCommands_` and `receivedBytes_`. -/
theorem handler_counters (name : Str) (handler : Sys → ClientId → List Str → Sys)
    (hsetup : setupDefaultCommands name = some handler)
    (s : Sys) (c : ClientId) (args : List Str) (pm pc rb : Nat) :
    handler (s.withCounters pm pc rb) c args = (handler s c args).withCounters pm pc rb := by
  unfold setupDefaultCommands at hsetup
  split_ifs at hsetup
  all_goals first
    | exact Option.noConfusion hsetup
    | (rw [← Option.some.inj hsetup]
       first
        | exact nick_counters s c args pm pc rb
        | exact join_counters s c args pm pc rb
        | exact part_counters s c args pm pc rb
        | exact quit_counters s c args pm pc rb
        | exact list_counters s c args pm pc rb
        | exact who_counters s c args pm pc rb
        | exact privmsg_counters s c args pm pc rb
        | exact motd_counters s c args pm pc rb
        | exact help_counters s c args pm pc rb)

end MessageManager

namespace MessageManager

theorem handleMessage_routeClean (s : Sys) (c : ClientId) (line : Str) :
    handleMessage s (some c) line =
      routeClean (s.received line) c
        (if line.getLast? = some '\r' then line.dropLast else line) := rfl

theorem handleCommand_counters (s : Sys) (c : ClientId) (line : Str) (pm pc rb : Nat) :
    handleCommand (s.withCounters pm pc rb) (some c) line =
      (handleCommand s (some c) line).withCounters pm (if line.isEmpty then pc else pc + 1)
        rb := by
  unfold handleCommand
  simp only []
  split
  · rfl
  · split
    · rfl
    · split
      · rename_i handler hsetup
        exact handler_counters _ handler hsetup s.commandSeen c _ pm (pc + 1) rb
      · rfl

/-- The counters do not influence what is done with a line; a command line
adds one to `processedCommands_`. -/
theorem routeClean_counters (s : Sys) (c : ClientId) (clean : Str) (pm pc rb : Nat) :
    routeClean (s.withCounters pm pc rb) c clean =
      (routeClean s c clean).withCounters pm
        (if clean ≠ [] ∧ clean.head? = some '/' then pc + 1 else pc) rb := by
  unfold routeClean
  cases clean with
  | nil => rfl
  | cons a rest =>
    have hne : (a :: rest).isEmpty = false := rfl
    simp only [hne, Bool.false_eq_true, if_false, ne_eq, reduceCtorEq, not_false_eq_true,
      true_and]
    split
    · rw [handleCommand_counters]
      rfl
    · simp only [Sys.withCounters]
      split
      · exact channelMessage_counters s c _ _ pm pc rb
      · rfl

theorem withCounters_self (s : Sys) :
    s.withCounters s.messageManager_.processedMessages_ s.messageManager_.processedCommands_
      s.messageManager_.receivedBytes_ = s := rfl

/-- What `handleMessage` does is what `routeClean` does in the state before,
with the three counters updated. -/
theorem handleMessage_counters (s : Sys) (c : ClientId) (line : Str) :
    handleMessage s (some c) line =
      (routeClean s c (if line.getLast? = some '\r' then line.dropLast else line)).withCounters
        (s.messageManager_.processedMessages_ + 1)
        (if (if line.getLast? = some '\r' then line.dropLast else line) ≠ [] ∧
            (if line.getLast? = some '\r' then line.dropLast else line).head? = some '/'
          then s.messageManager_.processedCommands_ + 1
          else s.messageManager_.processedCommands_)
        (s.messageManager_.receivedBytes_ + line.length) := by
  rw [handleMessage_routeClean]
  exact routeClean_counters s c _ _ _ _

end MessageManager

/-- C36. Every call of `handleMessage` with a sender adds exactly 1 to
`processedMessages_` and the length of the line as passed in to
`receivedBytes_`; it adds 1 to `processedCommands_` when the line without its
trailing carriage return is not empty and starts with `/`, and nothing
otherwise. Every call of `sendServerMessage` for a Connection adds exactly 1
to `sentMessages_` and the length of the text, without the `*** ` prefix and
the newline, to `sentBytes_`, and leaves the other counters alone. -/
theorem router_counters (s : Sys) (c : ClientId) :
    (∀ line : Str,
      (MessageManager.handleMessage s (some c) line).messageManager_.processedMessages_
        = s.messageManager_.processedMessages_ + 1 ∧
      (MessageManager.handleMessage s (some c) line).messageManager_.receivedBytes_
        = s.messageManager_.receivedBytes_ + line.length ∧
      (MessageManager.handleMessage s (some c) line).messageManager_.processedCommands_
        = s.messageManager_.processedCommands_ +
          (if (if line.getLast? = some '\r' then line.dropLast else line) ≠ [] ∧
              (if line.getLast? = some '\r' then line.dropLast else line).head? = some '/'
            then 1 else 0)) ∧
    (∀ text : Str,
      (MessageManager.sendServerMessage s (some c) text).messageManager_.sentMessages_
        = s.messageManager_.sentMessages_ + 1 ∧
      (MessageManager.sendServerMessage s (some c) text).messageManager_.sentBytes_
        = s.messageManager_.sentBytes_ + text.length ∧
      (MessageManager.sendServerMessage s (some c) text).messageManager_.processedMessages_
        = s.messageManager_.processedMessages_ ∧
      (MessageManager.sendServerMessage s (some c) text).messageManager_.processedCommands_
        = s.messageManager_.processedCommands_ ∧
      (MessageManager.sendServerMessage s (some c) text).messageManager_.receivedBytes_
        = s.messageManager_.receivedBytes_) := by
  refine ⟨?_, fun _ => ⟨rfl, rfl, rfl, rfl, rfl⟩⟩
  intro line
  rw [MessageManager.handleMessage_counters]
  refine ⟨rfl, rfl, ?_⟩
  show (if _ then _ else _) = _
  generalize (if line.getLast? = some '\r' then line.dropLast else line) = clean
  by_cases hcmd : clean ≠ [] ∧ clean.head? = some '/'
  · rw [if_pos hcmd, if_pos hcmd]
  · rw [if_neg hcmd, if_neg hcmd]
    rfl

/-! ## A carriage return at the end of a line -/

/-- C35. For a line `L` that does not end with a carriage return,
`handleMessage` on `L` followed by a carriage return yields the state that
`handleMessage` on `L` yields, with `receivedBytes_` one larger: the `Client`
objects (nickname, joined-channel set, active channel, outbound queue), the
Client Registry, the Channel Registry and the other counters are the same. On
the empty line and on the line that is one carriage return, `handleMessage`
changes only `processedMessages_` and `receivedBytes_`. -/
theorem carriage_return (s : Sys) (c : ClientId) :
    (∀ L : Str, L.getLast? ≠ some '\r' →
      MessageManager.handleMessage s (some c) (L ++ ['\r']) =
        (MessageManager.handleMessage s (some c) L).withCounters
          (MessageManager.handleMessage s (some c) L).messageManager_.processedMessages_
          (MessageManager.handleMessage s (some c) L).messageManager_.processedCommands_
          ((MessageManager.handleMessage s (some c) L).messageManager_.receivedBytes_ + 1) ∧
      (MessageManager.handleMessage s (some c) (L ++ ['\r'])).heap
        = (MessageManager.handleMessage s (some c) L).heap ∧
      (MessageManager.handleMessage s (some c) (L ++ ['\r'])).clientManager_
        = (MessageManager.handleMessage s (some c) L).clientManager_ ∧
      (MessageManager.handleMessage s (some c) (L ++ ['\r'])).channelManager_
        = (MessageManager.handleMessage s (some c) L).channelManager_) ∧
    MessageManager.handleMessage s (some c) [] =
      s.withCounters (s.messageManager_.processedMessages_ + 1)
        s.messageManager_.processedCommands_ s.messageManager_.receivedBytes_ ∧
    MessageManager.handleMessage s (some c) ['\r'] =
      s.withCounters (s.messageManager_.processedMessages_ + 1)
        s.messageManager_.processedCommands_ (s.messageManager_.receivedBytes_ + 1) ∧
    (∀ pm pc rb : Nat, (s.withCounters pm pc rb).heap = s.heap ∧
      (s.withCounters pm pc rb).clientManager_ = s.clientManager_ ∧
      (s.withCounters pm pc rb).channelManager_ = s.channelManager_) := by
  refine ⟨?_, rfl, rfl, fun _ _ _ => ⟨rfl, rfl, rfl⟩⟩
  intro L hL
  have hcr : (L ++ ['\r']).getLast? = some '\r' := by simp
  have hdrop : (L ++ ['\r']).dropLast = L := List.dropLast_concat
  have hlen : (L ++ ['\r']).length = L.length + 1 := by simp
  have heq : MessageManager.handleMessage s (some c) (L ++ ['\r']) =
      (MessageManager.handleMessage s (some c) L).withCounters
        (MessageManager.handleMessage s (some c) L).messageManager_.processedMessages_
        (MessageManager.handleMessage s (some c) L).messageManager_.processedCommands_
        ((MessageManager.handleMessage s (some c) L).messageManager_.receivedBytes_ + 1) := by
    rw [MessageManager.handleMessage_counters s c (L ++ ['\r']),
      MessageManager.handleMessage_counters s c L]
    simp only [hcr, if_true, hdrop, hL, if_false, hlen]
    rfl
  refine ⟨heq, ?_, ?_, ?_⟩
  · rw [heq]; rfl
  · rw [heq]; rfl
  · rw [heq]; rfl

/-- Connection `0` of the two in `#room` sends `hello` to the channel, with and
without a carriage return. -/
theorem carriage_return_witness :
    "hello".toList ++ ['\r'] = "hello\r".toList ∧
    (MessageManager.handleMessage twoInRoom (some 0) ("hello".toList ++ ['\r'])).heap
      = (MessageManager.handleMessage twoInRoom (some 0) "hello".toList).heap :=
  ⟨by decide, ((carriage_return twoInRoom 0).1 "hello".toList (by decide)).2.1⟩

/-! ## What the Router does to the `Client` objects -/

section Frame

variable {R : Heap → Heap → Prop}

theorem Sys.Framed.same (s : Sys) (hR : HeapFrame R) : s.Framed R s :=
  ⟨hR.refl _, rfl⟩

theorem Sys.Framed.then {s1 s2 s3 : Sys} (hR : HeapFrame R) (h12 : s1.Framed R s2)
    (h23 : s2.Framed R s3) : s1.Framed R s3 :=
  ⟨hR.trans _ _ _ h12.1 h23.1, h23.2.trans h12.2⟩

theorem HeapFrame.sent (hR : HeapFrame R) (h : Heap) (c : ClientId) (text : Str) :
    R h (ClientManager.sendMessageToClient h (some c) text) :=
  hR.push h c _

theorem Sys.Framed.reply (hR : HeapFrame R) (s : Sys) (c : ClientId) (msg : Str) :
    s.Framed R (MessageManager.sendServerMessage s (some c) msg) :=
  ⟨hR.push s.heap c _, rfl⟩

theorem HeapFrame.pushes (hR : HeapFrame R) (line : Str) (members : List ClientId) :
    ∀ h : Heap,
      R h (members.foldl (fun h member => h.call member (fun c => c.pushMessageToQueue line)) h) := by
  induction members with
  | nil => intro h; exact hR.refl h
  | cons m rest ih =>
    intro h
    exact hR.trans _ _ _ (hR.push h m line) (ih _)

theorem HeapFrame.channelCast (hR : HeapFrame R) (m : ChannelManager) (h : Heap)
    (name text : Str) : R h (m.broadcastToChannel h name text) := by
  unfold ChannelManager.broadcastToChannel
  split
  · exact hR.pushes _ _ h
  · exact hR.refl h

theorem HeapFrame.channelCasts (hR : HeapFrame R) (m : ChannelManager) (text : Str)
    (names : List Str) :
    ∀ h : Heap, R h (names.foldl (fun h name => m.broadcastToChannel h name text) h) := by
  induction names with
  | nil => intro h; exact hR.refl h
  | cons name rest ih =>
    intro h
    exact hR.trans _ _ _ (hR.channelCast m h name text) (ih _)

theorem HeapFrame.pushesExcept (hR : HeapFrame R) (line : Str) (sender : Option ClientId)
    (clients : List ClientId) :
    ∀ h : Heap,
      R h (clients.foldl
        (fun h client =>
          if some client ≠ sender then h.call client (fun c => c.pushMessageToQueue line)
          else h) h) := by
  induction clients with
  | nil => intro h; exact hR.refl h
  | cons d rest ih =>
    intro h
    simp only [List.foldl_cons]
    split
    · exact hR.trans _ _ _ (hR.push h d line) (ih _)
    · exact ih h

theorem HeapFrame.clientCast {W : Type} (hR : HeapFrame R) (m : ClientManager W) (text : Str)
    (sender : Option ClientId) (h : Heap) : R h (m.broadcastMessage h text sender) :=
  hR.pushesExcept _ sender m.clients_ h

theorem HeapFrame.leaveChannel (hR : HeapFrame R) (m : ChannelManager) (h : Heap)
    (client : Option ClientId) (name : Str) : R h (m.leaveChannel h client name).2.2 := by
  cases client with
  | none => exact hR.refl h
  | some c =>
    rw [ChannelManager.leaveChannel_eq]
    split
    · exact hR.refl h
    · exact hR.leave h c name

theorem HeapFrame.leaveAll (hR : HeapFrame R) (c : ClientId) (names : List Str) :
    ∀ s : ChannelManager × Heap, R s.2 (ChannelManager.leaveAll c names s).2 := by
  induction names with
  | nil => intro s; exact hR.refl _
  | cons name rest ih =>
    intro s
    simp only [ChannelManager.leaveAll]
    exact hR.trans _ _ _ (hR.leaveChannel s.1 s.2 (some c) name) (ih _)

theorem HeapFrame.leaveEvery (hR : HeapFrame R) (m : ChannelManager) (h : Heap)
    (client : Option ClientId) : R h (m.removeClientFromAllChannels h client).2 := by
  cases client with
  | none => exact hR.refl h
  | some c => exact hR.leaveAll c _ (m, h)

theorem HeapFrame.joinChannel (hR : HeapFrame R) (m : ChannelManager) (h : Heap)
    (client : Option ClientId) (name : Str) : R h (m.joinChannel h client name).2.2 := by
  cases client with
  | none => exact hR.refl h
  | some c =>
    rw [ChannelManager.joinChannel_eq]
    split
    · exact hR.refl h
    · split
      · split
        · exact hR.join h c name
        · exact hR.refl h
      · exact hR.join h c name

/-- The heap after an accepted join is the heap before with the name
inserted into the joined-channel set. -/
theorem ChannelManager.joinChannel_heap (m : ChannelManager) (h : Heap) (c : ClientId)
    (name : Str) (hok : (m.joinChannel h (some c) name).1 = true) :
    (m.joinChannel h (some c) name).2.2 = h.call c (fun cl => cl.joinChannel name) := by
  rw [ChannelManager.joinChannel_eq] at hok ⊢
  split at hok
  · exact Bool.noConfusion hok
  · rename_i hv
    rw [if_neg hv]
    split at hok
    · rename_i hf
      rw [if_pos hf]
      split at hok
      · rename_i hcap
        rw [if_pos hcap]
        rfl
      · exact Bool.noConfusion hok
    · rename_i hf
      rw [if_neg hf]
      rfl

theorem Sys.Framed.replies (hR : HeapFrame R) {α : Type} (c : ClientId) (f : Sys → α → Str)
    (items : List α) :
    ∀ s : Sys, s.Framed R
      (items.foldl (fun t a => MessageManager.sendServerMessage t (some c) (f t a)) s) := by
  induction items with
  | nil => intro s; exact Sys.Framed.same s hR
  | cons a rest ih =>
    intro s
    simp only [List.foldl_cons]
    exact Sys.Framed.then hR (Sys.Framed.reply hR s c _) (ih _)

end Frame

section FrameHandlers

variable {R : Heap → Heap → Prop}

theorem ClientManager.updateClientNickname_framed {W : Type} (hR : HeapFrame R)
    (m : ClientManager W) (h : Heap) (c : ClientId) (X : Str) :
    R h (m.updateClientNickname h (some c) X).2.2 ∧
    ((m.updateClientNickname h (some c) X).2.1.onClientRemovedCallback_,
      (m.updateClientNickname h (some c) X).2.1.onClientAddedCallback_)
      = (m.onClientRemovedCallback_, m.onClientAddedCallback_) := by
  unfold ClientManager.updateClientNickname
  simp only []
  split
  · exact ⟨hR.refl h, rfl⟩
  · split
    · exact ⟨hR.refl h, rfl⟩
    · exact ⟨hR.nick h c X, rfl⟩

namespace MessageManager

theorem framed_nick (hR : HeapFrame R) (s : Sys) (c : ClientId) (args : List Str) :
    s.Framed R (handleNickCommand s c args) := by
  cases args with
  | nil => exact Sys.Framed.reply hR s c _
  | cons X rest =>
    unfold handleNickCommand
    simp only []
    split
    · exact Sys.Framed.reply hR s c _
    · have hq := ClientManager.updateClientNickname_framed hR s.clientManager_ s.heap c X
      split
      · rename_i cm h hres
        rw [hres] at hq
        have h1 : s.Framed R ⟨h, cm, s.channelManager_, s.messageManager_⟩ := hq
        exact Sys.Framed.then hR h1 (Sys.Framed.reply hR _ c _)
      · rename_i cm h hres
        rw [hres] at hq
        have h1 : s.Framed R ⟨h, cm, s.channelManager_, s.messageManager_⟩ := hq
        refine Sys.Framed.then hR h1 (Sys.Framed.then hR
          (Sys.Framed.reply hR ⟨h, cm, s.channelManager_, s.messageManager_⟩ c
            ("Nickname switched to '".toList ++ X ++ "'".toList)) ?_)
        exact ⟨hR.clientCast _ _ _ _, rfl⟩

theorem framed_join (hR : HeapFrame R) (s : Sys) (c : ClientId) (args : List Str) :
    s.Framed R (handleJoinCommand s c args) := by
  cases args with
  | nil => exact Sys.Framed.reply hR s c _
  | cons X rest =>
    unfold handleJoinCommand
    simp only []
    split
    · rename_i chm h hres
      have hok : (s.channelManager_.joinChannel s.heap (some c) (withHash X)).1 = true := by
        rw [hres]
      have hheap := ChannelManager.joinChannel_heap s.channelManager_ s.heap c (withHash X) hok
      rw [hres] at hheap
      have hh : h = s.heap.call c (fun cl => cl.joinChannel (withHash X)) := hheap
      have h1 : s.Framed R ⟨Heap.call h c (fun cl => cl.setActiveChannel (withHash X)),
          s.clientManager_, chm, s.messageManager_⟩ := by
        refine ⟨?_, rfl⟩
        show R s.heap (Heap.call h c (fun cl => cl.setActiveChannel (withHash X)))
        rw [hh]
        exact hR.joinActive s.heap c (withHash X)
      refine Sys.Framed.then hR h1 (Sys.Framed.then hR
        (Sys.Framed.reply hR ⟨Heap.call h c (fun cl => cl.setActiveChannel (withHash X)),
            s.clientManager_, chm, s.messageManager_⟩ c
          ("You joined ".toList ++ withHash X ++ " (now active).".toList)) ?_)
      exact ⟨hR.channelCast _ _ _ _, rfl⟩
    · rename_i chm h hres
      have hq := hR.joinChannel s.channelManager_ s.heap (some c) (withHash X)
      rw [hres] at hq
      have h1 : s.Framed R ⟨h, s.clientManager_, chm, s.messageManager_⟩ := ⟨hq, rfl⟩
      exact Sys.Framed.then hR h1 (Sys.Framed.reply hR _ c _)

theorem framed_part (hR : HeapFrame R) (s : Sys) (c : ClientId) (args : List Str) :
    s.Framed R (handlePartCommand s c args) := by
  cases args with
  | nil => exact Sys.Framed.reply hR s c _
  | cons X rest =>
    unfold handlePartCommand
    simp only []
    split
    · exact Sys.Framed.reply hR s c _
    · have hb := hR.channelCast s.channelManager_ s.heap (withHash X)
        ("*** ".toList ++ ((s.heap c).nickname_ ++ " left the channel.".toList))
      have hq := hR.leaveChannel s.channelManager_
        (s.channelManager_.broadcastToChannel s.heap (withHash X)
          ("*** ".toList ++ ((s.heap c).nickname_ ++ " left the channel.".toList)))
        (some c) (withHash X)
      split
      · rename_i chm h hres
        rw [hres] at hq
        have h1 : s.Framed R ⟨h, s.clientManager_, chm, s.messageManager_⟩ :=
          ⟨hR.trans _ _ _ hb hq, rfl⟩
        exact Sys.Framed.then hR h1 (Sys.Framed.reply hR _ c _)
      · rename_i chm h hres
        rw [hres] at hq
        have h1 : s.Framed R ⟨h, s.clientManager_, chm, s.messageManager_⟩ :=
          ⟨hR.trans _ _ _ hb hq, rfl⟩
        exact Sys.Framed.then hR h1 (Sys.Framed.reply hR _ c _)

theorem framed_removeClient (hR : HeapFrame R) (s : Sys) (c : ClientId)
    (hcb : s.RemovalFramed R) : s.Framed R (s.removeClient (some c)).2 := by
  simp only [Sys.removeClient]
  rw [ClientManager.removeClient_eq]
  split
  · refine ⟨?_, rfl⟩
    cases hcase : s.clientManager_.onClientRemovedCallback_ with
    | none => exact hR.refl _
    | some cb => exact hcb cb hcase c (s.heap, s.channelManager_)
  · exact ⟨hR.refl _, rfl⟩

theorem framed_addClient (hR : HeapFrame R) (s : Sys) (c : ClientId)
    (hcb : s.AdditionFramed R) : s.Framed R (s.addClient (some c)).2 := by
  simp only [Sys.addClient]
  unfold ClientManager.addClient
  simp only []
  split
  · exact ⟨hR.refl _, rfl⟩
  · split
    · refine ⟨?_, rfl⟩
      cases hcase : s.clientManager_.onClientAddedCallback_ with
      | none => exact hR.refl _
      | some cb => exact hcb cb hcase c (s.heap, s.channelManager_)
    · exact ⟨hR.refl _, rfl⟩

theorem framed_quit (hR : HeapFrame R) (s : Sys) (c : ClientId) (args : List Str)
    (hcb : s.RemovalFramed R) : s.Framed R (handleQuitCommand s c args) := by
  have h1 : s.Framed R (s.withHeap ((ChannelManager.getClientChannels s.heap (some c)).foldl
      (fun h name => s.channelManager_.broadcastToChannel h name
        ("*** ".toList ++ ((s.heap c).nickname_ ++ " left the server: ".toList
          ++ (if args.isEmpty then "Client quit.".toList else joinWords args)))) s.heap)) :=
    ⟨hR.channelCasts _ _ _ _, rfl⟩
  exact Sys.Framed.then hR h1 (framed_removeClient hR _ c hcb)

theorem framed_list (hR : HeapFrame R) (s : Sys) (c : ClientId) (args : List Str) :
    s.Framed R (handleListCommand s c args) := by
  unfold handleListCommand
  simp only []
  split
  · exact Sys.Framed.reply hR s c _
  · exact Sys.Framed.then hR (Sys.Framed.reply hR s c "Active channels:".toList)
      (Sys.Framed.replies hR c
        (fun t channelName => "- ".toList ++ channelName ++ " (".toList
          ++ (toString (t.channelManager_.getChannelMemberCount channelName)).toList
          ++ " members)".toList) _ _)

theorem framed_who (hR : HeapFrame R) (s : Sys) (c : ClientId) (args : List Str) :
    s.Framed R (handleWhoCommand s c args) := by
  cases args with
  | nil =>
    unfold handleWhoCommand
    simp only []
    split
    · exact Sys.Framed.reply hR s c _
    · exact Sys.Framed.then hR (Sys.Framed.reply hR s c
        ("Online users (".toList ++ (toString s.clientManager_.getAllClients.length).toList
          ++ "):".toList))
        (Sys.Framed.replies hR c
          (fun t d => "- ".toList ++ (t.heap d).nickname_
            ++ whoChannelsStr (ChannelManager.getClientChannels t.heap (some d))) _ _)
  | cons X rest =>
    unfold handleWhoCommand
    simp only []
    split
    · rename_i channel _
      exact Sys.Framed.then hR (Sys.Framed.reply hR s c
        ("Users in ".toList ++ withHash X ++ " (".toList
          ++ (toString (channel.getMemberNicknames s.heap).length).toList ++ "):".toList))
        (Sys.Framed.replies hR c (fun _ nick => "- ".toList ++ nick) _ _)
    · exact Sys.Framed.reply hR s c _

theorem framed_channelMessage (hR : HeapFrame R) (s : Sys) (c : ClientId) (name msg : Str) :
    s.Framed R (sendChannelMessage s (some c) name msg) := by
  unfold sendChannelMessage
  simp only []
  split
  · exact Sys.Framed.reply hR s c _
  · split
    · exact Sys.Framed.reply hR s c _
    · exact ⟨hR.channelCast _ _ _ _, rfl⟩

theorem framed_privateMessage (hR : HeapFrame R) (s : Sys) (c : ClientId)
    (recipient msg : Str) : s.Framed R (sendPrivateMessage s (some c) recipient msg) := by
  unfold sendPrivateMessage
  simp only []
  split
  · exact Sys.Framed.reply hR s c _
  · rename_i targetClient _
    exact ⟨hR.trans _ _ _ (hR.sent s.heap targetClient _) (hR.sent _ c _), rfl⟩

theorem framed_privmsg (hR : HeapFrame R) (s : Sys) (c : ClientId) (args : List Str) :
    s.Framed R (handlePrivmsgCommand s c args) := by
  unfold handlePrivmsgCommand
  split
  · simp only []
    split
    · exact framed_channelMessage hR s c _ _
    · exact framed_privateMessage hR s c _ _
  · exact Sys.Framed.reply hR s c _

theorem framed_motd (hR : HeapFrame R) (s : Sys) (c : ClientId) (args : List Str) :
    s.Framed R (handleMotdCommand s c args) := by
  unfold handleMotdCommand
  split
  · exact Sys.Framed.reply hR s c _
  · exact Sys.Framed.then hR (Sys.Framed.reply hR s c "Message of the Day:".toList)
      (Sys.Framed.reply hR _ c _)

theorem framed_help (hR : HeapFrame R) (s : Sys) (c : ClientId) (args : List Str) :
    s.Framed R (handleHelpCommand s c args) :=
  Sys.Framed.replies hR c (fun _ line => line) helpLines s

theorem framed_handler (hR : HeapFrame R) (s : Sys) (c : ClientId) (args : List Str)
    (name : Str) (handler : Sys → ClientId → List Str → Sys)
    (hsetup : setupDefaultCommands name = some handler) (hcb : s.RemovalFramed R) :
    s.Framed R (handler s c args) := by
  unfold setupDefaultCommands at hsetup
  split_ifs at hsetup
  all_goals first
    | exact Option.noConfusion hsetup
    | (rw [← Option.some.inj hsetup]
       first
        | exact framed_nick hR s c args
        | exact framed_join hR s c args
        | exact framed_part hR s c args
        | exact framed_quit hR s c args hcb
        | exact framed_list hR s c args
        | exact framed_who hR s c args
        | exact framed_privmsg hR s c args
        | exact framed_motd hR s c args
        | exact framed_help hR s c args)

theorem framed_command (hR : HeapFrame R) (s : Sys) (c : ClientId) (commandLine : Str)
    (hcb : s.RemovalFramed R) : s.Framed R (handleCommand s (some c) commandLine) := by
  unfold handleCommand
  simp only []
  split
  · exact Sys.Framed.same s hR
  · split
    · exact ⟨hR.refl _, rfl⟩
    · split
      · rename_i handler hsetup
        exact framed_handler hR s.commandSeen c _ _ handler hsetup hcb
      · exact Sys.Framed.reply hR s.commandSeen c _

/-- Every change that `handleMessage` makes to the `Client` objects respects
`R`, and the removal callback stays installed. -/
theorem framed_message (hR : HeapFrame R) (s : Sys) (sender : Option ClientId) (line : Str)
    (hcb : s.RemovalFramed R) : s.Framed R (handleMessage s sender line) := by
  cases sender with
  | none => exact Sys.Framed.same s hR
  | some c =>
    unfold handleMessage
    simp only []
    generalize (if line.getLast? = some '\r' then line.dropLast else line) = clean
    split
    · exact ⟨hR.refl _, rfl⟩
    · split
      · exact framed_command hR (s.received line) c clean hcb
      · split
        · exact framed_channelMessage hR (s.received line) c _ clean
        · exact Sys.Framed.reply hR (s.received line) c _

end MessageManager

end FrameHandlers

/-! ## The active channel is a joined channel -/

theorem ActiveJoined.after_call (h : Heap) (c : ClientId) (f : Client → Client)
    (hf : (h c).active_channel_ = [] ∨ (h c).active_channel_ ∈ (h c).joined_channels_ →
      (f (h c)).active_channel_ = [] ∨ (f (h c)).active_channel_ ∈ (f (h c)).joined_channels_)
    (hh : ActiveJoined h) : ActiveJoined (h.call c f) := by
  intro d
  unfold Heap.call
  by_cases hd : d = c
  · subst hd
    rw [Function.update_same]
    exact hf (hh d)
  · rw [Function.update_noteq hd]
    exact hh d

theorem activeJoined_frame : HeapFrame (fun h h' => ActiveJoined h → ActiveJoined h') where
  refl := fun _ hh => hh
  trans := fun _ _ _ h12 h23 hh => h23 (h12 hh)
  push := fun h d _ hh => ActiveJoined.after_call h d _ (fun hx => hx) hh
  nick := fun h d _ hh => ActiveJoined.after_call h d _ (fun hx => hx) hh
  join := by
    intro h d name hh
    refine ActiveJoined.after_call h d _ ?_ hh
    intro hx
    rcases hx with hx | hx
    · exact Or.inl hx
    · exact Or.inr ((USet.mem_insert _ _ _).2 (Or.inr hx))
  joinActive := by
    intro h d name hh
    refine ActiveJoined.after_call _ d _ ?_ (ActiveJoined.after_call h d _ (fun _ => ?_) hh)
    · intro _
      right
      simp only [Heap.call, Function.update_same, Client.setActiveChannel, Client.joinChannel]
      exact (USet.mem_insert _ _ _).2 (Or.inl rfl)
    · rcases hh d with hx | hx
      · exact Or.inl hx
      · exact Or.inr ((USet.mem_insert _ _ _).2 (Or.inr hx))
  leave := by
    intro h d name hh
    refine ActiveJoined.after_call h d _ ?_ hh
    intro hx
    simp only [Client.leaveChannel]
    by_cases hname : (h d).active_channel_ = name
    · left
      rw [if_pos hname]
    · rw [if_neg hname]
      rcases hx with hx | hx
      · exact Or.inl hx
      · exact Or.inr ((USet.mem_erase _ _ _).2 ⟨hx, hname⟩)

section SessionFrame

variable {R : Heap → Heap → Prop}

theorem ChannelOp.framed_call (hR : HeapFrame R) (op : ChannelOp) (s : ChannelManager × Heap) :
    R s.2 (op.apply s).2 := by
  cases op with
  | createChannel name => exact hR.refl _
  | removeChannel name => exact hR.refl _
  | joinChannel client name => exact hR.joinChannel s.1 s.2 client name
  | leaveChannel client name => exact hR.leaveChannel s.1 s.2 client name
  | removeClientFromAllChannels client => exact hR.leaveEvery s.1 s.2 client

theorem SessionOp.framed_step (hR : HeapFrame R) (op : SessionOp) (s : Sys)
    (hcb : s.RemovalFramed R) (hadd : s.AdditionFramed R) : s.Framed R (op.apply s) := by
  cases op with
  | register client => exact MessageManager.framed_addClient hR s client hadd
  | unregister client => exact MessageManager.framed_removeClient hR s client hcb
  | line sender text => exact MessageManager.framed_message hR s (some sender) text hcb
  | registry r => exact ⟨ChannelOp.framed_call hR r (s.channelManager_, s.heap), rfl⟩

theorem Sys.Framed.removal {s s' : Sys} (h : s.Framed R s') (hcb : s.RemovalFramed R) :
    s'.RemovalFramed R := by
  intro cb hcase
  have hrem : s'.clientManager_.onClientRemovedCallback_
      = s.clientManager_.onClientRemovedCallback_ := congrArg Prod.fst h.2
  rw [hrem] at hcase
  exact hcb cb hcase

theorem Sys.Framed.addition {s s' : Sys} (h : s.Framed R s') (hcb : s.AdditionFramed R) :
    s'.AdditionFramed R := by
  intro cb hcase
  have hadd : s'.clientManager_.onClientAddedCallback_
      = s.clientManager_.onClientAddedCallback_ := congrArg Prod.snd h.2
  rw [hadd] at hcase
  exact hcb cb hcase

theorem runSession_framed (hR : HeapFrame R) (ops : List SessionOp) :
    ∀ s : Sys, s.RemovalFramed R → s.AdditionFramed R → s.Framed R (runSession ops s) := by
  induction ops with
  | nil => intro s _ _; exact Sys.Framed.same s hR
  | cons op rest ih =>
    intro s hcb hadd
    have h1 := SessionOp.framed_step hR op s hcb hadd
    exact Sys.Framed.then hR h1
      (ih (op.apply s) (Sys.Framed.removal h1 hcb) (Sys.Framed.addition h1 hadd))

theorem initializeManagers_framed (hR : HeapFrame R) (heap : Heap) (maxUsers maxChannels : Int)
    (motd : Str) : (Server.initializeManagers heap maxUsers maxChannels motd).RemovalFramed R := by
  intro cb hcase x hw
  have hcb : (Server.initializeManagers heap maxUsers maxChannels motd).clientManager_.onClientRemovedCallback_
      = some Server.onClientRemoved := rfl
  rw [hcb] at hcase
  rw [← Option.some.inj hcase]
  exact hR.leaveEvery hw.2 hw.1 (some x)

end SessionFrame

/-- C37. The steps of a server are the registration of a Connection, its
removal, a line handed to the Router for whatever sender, and the calls
`createChannel`, `removeChannel`, `joinChannel`, `leaveChannel` and
`removeClientFromAllChannels` of the Channel Registry. In every state in which
the active channel of every Connection is empty or an element of the
joined-channel set of that Connection, and whose callbacks, if installed, keep
this so, the same holds after every finite sequence of steps. A server set up
by `initializeManagers` over freshly constructed Connections is such a state:
after every finite sequence of steps on it, which may register Connections,
the active channel of every Connection is empty or in the joined-channel set
of that Connection. -/
theorem active_channel_joined :
    (∀ (s : Sys) (ops : List SessionOp) (d : ClientId),
      ActiveJoined s.heap →
      s.RemovalFramed (fun h h' => ActiveJoined h → ActiveJoined h') →
      s.AdditionFramed (fun h h' => ActiveJoined h → ActiveJoined h') →
      (((runSession ops s).heap d).active_channel_ = [] ∨
        ((runSession ops s).heap d).active_channel_
          ∈ ((runSession ops s).heap d).joined_channels_)) ∧
    (∀ (maxUsers maxChannels : Int) (motd : Str) (ops : List SessionOp) (d : ClientId),
      ((runSession ops (Server.initializeManagers freshHeap maxUsers maxChannels motd)).heap
          d).active_channel_ = [] ∨
      ((runSession ops (Server.initializeManagers freshHeap maxUsers maxChannels motd)).heap
          d).active_channel_ ∈
        ((runSession ops (Server.initializeManagers freshHeap maxUsers maxChannels motd)).heap
          d).joined_channels_) := by
  have hgen : ∀ (s : Sys) (ops : List SessionOp) (d : ClientId),
      ActiveJoined s.heap →
      s.RemovalFramed (fun h h' => ActiveJoined h → ActiveJoined h') →
      s.AdditionFramed (fun h h' => ActiveJoined h → ActiveJoined h') →
      (((runSession ops s).heap d).active_channel_ = [] ∨
        ((runSession ops s).heap d).active_channel_
          ∈ ((runSession ops s).heap d).joined_channels_) :=
    fun s ops d hs hrem hadd => (runSession_framed activeJoined_frame ops s hrem hadd).1 hs d
  refine ⟨hgen, ?_⟩
  intro maxUsers maxChannels motd ops d
  refine hgen _ ops d (fun _ => Or.inl rfl)
    (initializeManagers_framed activeJoined_frame freshHeap maxUsers maxChannels motd) ?_
  intro cb hcase
  exact Option.noConfusion hcase

set_option maxRecDepth 100000 in
/-- Two Connections register and join `#room`; Connection `0` also joins `#b`,
which becomes its active channel, and then sends `/quit`: it is removed from
the registry and from both channels, and its active channel is empty. -/
theorem active_channel_joined_witness :
    (runSession
      [.register 0, .register 1, .line 0 "/join #room".toList, .line 1 "/join #room".toList,
       .line 0 "/join #b".toList]
      (Server.initializeManagers freshHeap 2000 1000 [])).clientManager_.clients_ = [0, 1] ∧
    ((runSession
      [.register 0, .register 1, .line 0 "/join #room".toList, .line 1 "/join #room".toList,
       .line 0 "/join #b".toList]
      (Server.initializeManagers freshHeap 2000 1000 [])).heap 0).active_channel_
        = "#b".toList ∧
    (runSession
      [.register 0, .register 1, .line 0 "/join #room".toList, .line 1 "/join #room".toList,
       .line 0 "/join #b".toList, .line 0 "/quit".toList]
      (Server.initializeManagers freshHeap 2000 1000 [])).clientManager_.clients_ = [1] ∧
    ((runSession
      [.register 0, .register 1, .line 0 "/join #room".toList, .line 1 "/join #room".toList,
       .line 0 "/join #b".toList, .line 0 "/quit".toList]
      (Server.initializeManagers freshHeap 2000 1000 [])).heap 0).joined_channels_ = [] ∧
    (((runSession
      [.register 0, .register 1, .line 0 "/join #room".toList, .line 1 "/join #room".toList,
       .line 0 "/join #b".toList, .line 0 "/quit".toList]
      (Server.initializeManagers freshHeap 2000 1000 [])).heap 0).active_channel_ = [] ∨
     ((runSession
      [.register 0, .register 1, .line 0 "/join #room".toList, .line 1 "/join #room".toList,
       .line 0 "/join #b".toList, .line 0 "/quit".toList]
      (Server.initializeManagers freshHeap 2000 1000 [])).heap 0).active_channel_ ∈
      ((runSession
      [.register 0, .register 1, .line 0 "/join #room".toList, .line 1 "/join #room".toList,
       .line 0 "/join #b".toList, .line 0 "/quit".toList]
      (Server.initializeManagers freshHeap 2000 1000 [])).heap 0).joined_channels_) :=
  ⟨by decide, by decide, by decide, by decide,
    active_channel_joined.2 2000 1000 []
      [.register 0, .register 1, .line 0 "/join #room".toList, .line 1 "/join #room".toList,
       .line 0 "/join #b".toList, .line 0 "/quit".toList] 0⟩

/-! ## The inbound buffer -/

theorem SameBuffers.across_call (h : Heap) (c : ClientId) (f : Client → Client)
    (hf : ∀ x, (f x).readBuffer_ = x.readBuffer_) : SameBuffers h (h.call c f) := by
  intro d
  unfold Heap.call
  by_cases hd : d = c
  · subst hd
    rw [Function.update_same, hf]
  · rw [Function.update_noteq hd]

theorem sameBuffers_frame : HeapFrame SameBuffers where
  refl := fun _ _ => rfl
  trans := fun _ _ _ h12 h23 d => (h23 d).trans (h12 d)
  push := fun h d _ => SameBuffers.across_call h d _ (fun _ => rfl)
  nick := fun h d _ => SameBuffers.across_call h d _ (fun _ => rfl)
  join := fun h d _ => SameBuffers.across_call h d _ (fun _ => rfl)
  joinActive := fun h d name e =>
    (SameBuffers.across_call (h.call d (fun cl => cl.joinChannel name)) d
      (fun cl => cl.setActiveChannel name) (fun _ => rfl) e).trans
      (SameBuffers.across_call h d (fun cl => cl.joinChannel name) (fun _ => rfl) e)
  leave := fun h d _ => SameBuffers.across_call h d _ (fun _ => rfl)

namespace Server

theorem findNewline_none (r : Str) (hr : '\n' ∉ r) : findNewline r = none := by
  induction r with
  | nil => rfl
  | cons a rest ih =>
    have ha : a ≠ '\n' := fun h => hr (h ▸ List.mem_cons_self _ _)
    have hrest : '\n' ∉ rest := fun h => hr (List.mem_cons_of_mem _ h)
    simp [findNewline, ha, ih hrest]

theorem findNewline_line (l tail : Str) (hl : '\n' ∉ l) :
    findNewline (l ++ '\n' :: tail) = some l.length := by
  induction l with
  | nil => simp [findNewline]
  | cons a rest ih =>
    have ha : a ≠ '\n' := fun h => hl (h ▸ List.mem_cons_self _ _)
    have hrest : '\n' ∉ rest := fun h => hl (List.mem_cons_of_mem _ h)
    simp [findNewline, ha, ih hrest]

theorem extractLinesLog_state (client : ClientId) (fuel : Nat) :
    ∀ (s : Sys) (log : List Str),
      (extractLinesLog client fuel (s, log)).1 = extractLines client fuel s := by
  induction fuel with
  | zero => intro s log; rfl
  | succ fuel ih =>
    intro s log
    unfold extractLinesLog extractLines
    split
    · rfl
    · simp only []
      split
      · rw [ih]
      · rw [ih]

/-- Every Connection can be split in one way into lines that each end with a
newline and a rest without a newline. -/
theorem exists_lines (b : Str) :
    ∃ (lines : List Str) (rest : Str),
      b = (lines.map (fun l => l ++ ['\n'])).flatten ++ rest ∧
      (∀ l ∈ lines, '\n' ∉ l) ∧ '\n' ∉ rest := by
  induction b with
  | nil => exact ⟨[], [], rfl, fun _ h => absurd h (List.not_mem_nil _), List.not_mem_nil _⟩
  | cons a b ih =>
    obtain ⟨lines, rest, hb, hlines, hrest⟩ := ih
    by_cases ha : a = '\n'
    · refine ⟨[] :: lines, rest, ?_, ?_, hrest⟩
      · rw [hb, ha]
        simp
      · intro l hl
        rcases List.mem_cons.1 hl with h | h
        · rw [h]
          exact List.not_mem_nil _
        · exact hlines l h
    · cases lines with
      | nil =>
        refine ⟨[], a :: rest, ?_, fun _ h => absurd h (List.not_mem_nil _), ?_⟩
        · rw [hb]
          simp
        · intro h
          rcases List.mem_cons.1 h with h | h
          · exact ha h.symm
          · exact hrest h
      | cons l ls =>
        refine ⟨(a :: l) :: ls, rest, ?_, ?_, hrest⟩
        · rw [hb]
          simp
        · intro x hx
          rcases List.mem_cons.1 hx with h | h
          · rw [h]
            intro hmem
            rcases List.mem_cons.1 hmem with h2 | h2
            · exact ha h2.symm
            · exact hlines l (List.mem_cons_self _ _) h2
          · exact hlines x (List.mem_cons_of_mem _ h)

/-- The extraction loop on a buffer made of `lines`, each ended by a newline,
and a `rest`: the lines that are not empty are passed on in order, and `rest`
stays in the buffer. -/
theorem extractLinesLog_lines (client : ClientId) (rest : Str) (hrest : '\n' ∉ rest)
    (lines : List Str) :
    ∀ (s : Sys) (log : List Str) (fuel : Nat),
      (∀ l ∈ lines, '\n' ∉ l) → lines.length ≤ fuel → s.RemovalFramed SameBuffers →
      (s.heap client).readBuffer_ = (lines.map (fun l => l ++ ['\n'])).flatten ++ rest →
      (extractLinesLog client fuel (s, log)).2 = log ++ lines.filter (fun l => !l.isEmpty) ∧
      (((extractLinesLog client fuel (s, log)).1).heap client).readBuffer_ = rest := by
  induction lines with
  | nil =>
    intro s log fuel _ _ _ hbuf
    simp only [List.map_nil, List.flatten_nil, List.nil_append] at hbuf
    cases fuel with
    | zero => exact ⟨by simp [extractLinesLog], hbuf⟩
    | succ fuel =>
      unfold extractLinesLog
      rw [hbuf, findNewline_none rest hrest]
      exact ⟨by simp, hbuf⟩
  | cons l ls ih =>
    intro s log fuel hlines hfuel hcb hbuf
    have hl : '\n' ∉ l := hlines l (List.mem_cons_self _ _)
    have hls : ∀ x ∈ ls, '\n' ∉ x := fun x hx => hlines x (List.mem_cons_of_mem _ hx)
    have hbuf' : (s.heap client).readBuffer_
        = l ++ '\n' :: ((ls.map (fun l => l ++ ['\n'])).flatten ++ rest) := by
      rw [hbuf]
      simp
    cases fuel with
    | zero => simp at hfuel
    | succ fuel =>
      have hfuel' : ls.length ≤ fuel := by
        simp only [List.length_cons] at hfuel
        omega
      have htake : (s.heap client).readBuffer_.take l.length = l := by
        rw [hbuf', List.take_left']
        rfl
      have hdrop : (s.heap client).readBuffer_.drop (l.length + 1)
          = (ls.map (fun l => l ++ ['\n'])).flatten ++ rest := by
        rw [hbuf', ← List.drop_drop, List.drop_left']
        · rfl
        · rfl
      have hs1buf : ((Sys.withHeap s (s.heap.call client
          (fun c => { c with readBuffer_ := c.readBuffer_.drop (l.length + 1) }))).heap
            client).readBuffer_ = (ls.map (fun l => l ++ ['\n'])).flatten ++ rest := by
        simp only [Sys.withHeap, Heap.call, Function.update_same]
        exact hdrop
      have hs1cb : (Sys.withHeap s (s.heap.call client
          (fun c => { c with readBuffer_ := c.readBuffer_.drop (l.length + 1) }))).RemovalFramed
            SameBuffers := hcb
      unfold extractLinesLog
      rw [hbuf', findNewline_line l _ hl, ← hbuf']
      simp only [htake]
      by_cases hempty : l.isEmpty = true
      · have hnot : ¬ ((!l.isEmpty) = true) := by simp [hempty]
        rw [if_neg hnot]
        have hih := ih _ log fuel hls hfuel' hs1cb hs1buf
        simp only [Sys.withHeap] at hih
        refine ⟨?_, hih.2⟩
        rw [hih.1]
        simp [List.filter_cons, hempty]
      · have hyes : (!l.isEmpty) = true := by simpa using hempty
        rw [if_pos hyes]
        have hframed := MessageManager.framed_message sameBuffers_frame
          (Sys.withHeap s (s.heap.call client
            (fun c => { c with readBuffer_ := c.readBuffer_.drop (l.length + 1) })))
          (some client) l hs1cb
        have hs2buf := (hframed.1 client).trans hs1buf
        have hs2cb : (MessageManager.handleMessage (Sys.withHeap s (s.heap.call client
            (fun c => { c with readBuffer_ := c.readBuffer_.drop (l.length + 1) })))
            (some client) l).RemovalFramed SameBuffers := by
          intro cb hcase
          have hrem := congrArg Prod.fst hframed.2
          simp only [] at hrem
          rw [hrem] at hcase
          exact hs1cb cb hcase
        have hih := ih _ (log ++ [l]) fuel hls hfuel' hs2cb hs2buf
        simp only [Sys.withHeap] at hih
        refine ⟨?_, hih.2⟩
        rw [hih.1]
        simp [List.filter_cons, hyes]

end Server

theorem Server.lines_length (lines : List Str) (rest : Str) :
    lines.length ≤ ((lines.map (fun l => l ++ ['\n'])).flatten ++ rest).length := by
  induction lines with
  | nil => exact Nat.zero_le _
  | cons l ls ih =>
    simp only [List.map_cons, List.flatten_cons, List.length_append, List.length_cons,
      List.length_nil] at ih ⊢
    omega

theorem oneSession_removal {R : Heap → Heap → Prop} (hR : HeapFrame R) :
    oneSession.RemovalFramed R := by
  intro cb hcase x hw
  have hcb : oneSession.clientManager_.onClientRemovedCallback_ = some Server.onClientRemoved :=
    rfl
  rw [hcb] at hcase
  rw [← Option.some.inj hcase]
  exact hR.leaveEvery hw.2 hw.1 (some x)

/-- C33. The inbound buffer of a Connection, after the received bytes `data`
are appended, is `b`; `b` splits into `lines`, each followed by a newline, and
a `rest`, none of them containing a newline. The removal callback, if one is
installed, leaves the inbound buffers alone (as the one of the Server does).
If `b` is longer than 8192 bytes, the session stops and the state is the one
before with `b` in the buffer: no line reaches the Router. Otherwise the
session goes on, the extraction loop has passed to `handleMessage` exactly the
lines that are not empty, in their order in `b`, and the buffer holds
`rest`. -/
theorem inbound_lines (s : Sys) (client : ClientId) (data : Str) (lines : List Str) (rest : Str)
    (hcb : s.RemovalFramed SameBuffers)
    (hsplit : (s.heap client).readBuffer_ ++ data
      = (lines.map (fun l => l ++ ['\n'])).flatten ++ rest)
    (hlines : ∀ l ∈ lines, '\n' ∉ l) (hrest : '\n' ∉ rest) :
    Server.MAX_CLIENT_BUFFER_SIZE = 8192 ∧
    (8192 < ((s.heap client).readBuffer_ ++ data).length →
      Server.receive s client data =
        (s.withHeap (s.heap.call client (fun c => c.appendToBuffer data)), false)) ∧
    (((s.heap client).readBuffer_ ++ data).length ≤ 8192 →
      (Server.receive s client data).2 = true ∧
      (Server.receive s client data).1 =
        (Server.extractLinesLog client ((s.heap client).readBuffer_ ++ data).length
          (s.withHeap (s.heap.call client (fun c => c.appendToBuffer data)), [])).1 ∧
      (Server.extractLinesLog client ((s.heap client).readBuffer_ ++ data).length
          (s.withHeap (s.heap.call client (fun c => c.appendToBuffer data)), [])).2
        = lines.filter (fun l => !l.isEmpty) ∧
      (((Server.receive s client data).1).heap client).readBuffer_ = rest) := by
  have hbuf : ((s.withHeap (s.heap.call client (fun c => c.appendToBuffer data))).heap
      client).readBuffer_ = (s.heap client).readBuffer_ ++ data := by
    simp [Sys.withHeap, Heap.call, Client.appendToBuffer]
  have hbuf2 : ((s.heap.call client (fun c => c.appendToBuffer data)) client).readBuffer_
      = (s.heap client).readBuffer_ ++ data := hbuf
  refine ⟨rfl, ?_, ?_⟩
  · intro hlong
    have hlong' : ((s.heap client).readBuffer_ ++ data).length > Server.MAX_CLIENT_BUFFER_SIZE :=
      hlong
    unfold Server.receive
    simp only []
    rw [hbuf2, if_pos hlong']
    rfl
  · intro hshort
    have hshort' : ¬ ((s.heap client).readBuffer_ ++ data).length
        > Server.MAX_CLIENT_BUFFER_SIZE := Nat.not_lt.2 hshort
    have hrecv : Server.receive s client data =
        (Server.extractLines client ((s.heap client).readBuffer_ ++ data).length
          (s.withHeap (s.heap.call client (fun c => c.appendToBuffer data))), true) := by
      unfold Server.receive
      simp only []
      rw [hbuf2, if_neg hshort']
      rfl
    have hfuel : lines.length ≤ ((s.heap client).readBuffer_ ++ data).length := by
      rw [hsplit]
      exact Server.lines_length lines rest
    have hrun := Server.extractLinesLog_lines client rest hrest lines
      (s.withHeap (s.heap.call client (fun c => c.appendToBuffer data))) []
      ((s.heap client).readBuffer_ ++ data).length hlines hfuel hcb (hbuf.trans hsplit)
    have hstate := Server.extractLinesLog_state client
      ((s.heap client).readBuffer_ ++ data).length
      (s.withHeap (s.heap.call client (fun c => c.appendToBuffer data))) []
    refine ⟨by rw [hrecv], ?_, ?_, ?_⟩
    · rw [hrecv, hstate]
    · rw [hrun.1]
      rfl
    · rw [hrecv, ← hstate]
      exact hrun.2

/-- The registered Connection `0`, with an empty buffer, receives `/who`, an
empty line and the start of a third line. -/
theorem inbound_lines_witness :
    (oneSession.heap 0).readBuffer_ ++ "/who\n\nhel".toList
      = (["/who".toList, []].map (fun l => l ++ ['\n'])).flatten ++ "hel".toList ∧
    (Server.extractLinesLog 0 ((oneSession.heap 0).readBuffer_ ++ "/who\n\nhel".toList).length
        (oneSession.withHeap (oneSession.heap.call 0
          (fun c => c.appendToBuffer "/who\n\nhel".toList)), [])).2
      = ["/who".toList] ∧
    (((Server.receive oneSession 0 "/who\n\nhel".toList).1).heap 0).readBuffer_
      = "hel".toList :=
  ⟨by decide,
    ((inbound_lines oneSession 0 "/who\n\nhel".toList ["/who".toList, []] "hel".toList
      (oneSession_removal sameBuffers_frame) (by decide) (by decide) (by decide)).2.2
        (by decide)).2.2.1,
    ((inbound_lines oneSession 0 "/who\n\nhel".toList ["/who".toList, []] "hel".toList
      (oneSession_removal sameBuffers_frame) (by decide) (by decide) (by decide)).2.2
        (by decide)).2.2.2⟩

end BoltChat
